import Mathlib

/-!
# kube-recycle-bin: naming, admission interceptor and policy reconciler

A shallow embedding of the parts of `wcrum/kube-recycle-bin` that its
specification makes claims about:

* `internal/api/recycle_item_types.go`: `sanitizeResourceName`,
  `sanitizeLabelValue`, `NewRecycleItem`;
* `internal/webhook/webhook.go`: `recycleDeleteObjects`, `buildRecycledObject`,
  `response`;
* `pkg/kube/gvkr.go`: `IsResourceNamespaced`;
* `cmd/krb-cli/cmd/get-recycle-items.go`: the label set of `runGetRecycleItems`;
* `internal/controller/policy_controller.go`: `tryBuildWebhook`, `Reconcile`.

Go strings are byte sequences, and the sanitizers mix rune-wise loops with
byte-wise indexing and slicing, so strings are modelled as lists of bytes
together with Go's UTF-8 decoding and encoding.
-/

namespace KubeRecycleBin

/-! ## Go strings and the `unicode` / `unicode/utf8` / `strings` primitives -/

/-- A Go string: a sequence of bytes. Bytes are natural numbers; a value of 256
or more (which no Go string holds) is decoded like an invalid byte. -/
abbrev GoString := List Nat

/-- The bytes of an ASCII string literal. -/
def ascii (s : String) : GoString := s.toList.map Char.toNat

/-- The part of Go's Unicode tables that lies above Latin-1 (code points from
U+0100 on): `unicode.IsLetter`, `unicode.IsDigit` and `unicode.ToLower` there.
Below U+0100, and at U+FFFD, the three functions are fixed by `isLetter`,
`isDigit` and `toLower`. -/
structure UnicodeTables where
  isLetter : Nat → Bool
  isDigit : Nat → Bool
  toLower : Nat → Nat

/-- Go `utf8.RuneError`, U+FFFD, the replacement character. -/
def RuneError : Nat := 0xFFFD

/-- A table with no letters, digits or case pairs above Latin-1. -/
def latin1Only : UnicodeTables := ⟨fun _ => false, fun _ => false, fun r => r⟩

/-- The Latin-1 letters (categories Lu, Ll, Lo of `unicode.properties`):
A-Z, a-z, U+00AA, U+00B5, U+00BA, U+00C0-U+00D6, U+00D8-U+00F6, U+00F8-U+00FF. -/
def isLetterLatin1 (r : Nat) : Bool :=
  (0x41 ≤ r && r ≤ 0x5A) || (0x61 ≤ r && r ≤ 0x7A) || r == 0xAA || r == 0xB5 || r == 0xBA ||
  (0xC0 ≤ r && r ≤ 0xD6) || (0xD8 ≤ r && r ≤ 0xF6) || (0xF8 ≤ r && r ≤ 0xFF)

/-- Go `unicode.IsLetter`: the Latin-1 table below U+0100; U+FFFD (category So)
is no letter. -/
def isLetter (U : UnicodeTables) (r : Nat) : Bool :=
  if r ≤ 0xFF then isLetterLatin1 r else if r = RuneError then false else U.isLetter r

/-- Go `unicode.IsDigit`: below U+0100 exactly the digits 0-9; U+FFFD is no digit. -/
def isDigit (U : UnicodeTables) (r : Nat) : Bool :=
  if r ≤ 0xFF then (0x30 ≤ r && r ≤ 0x39) else if r = RuneError then false else U.isDigit r

/-- Go `unicode.ToLower`: A-Z, U+00C0-U+00D6 and U+00D8-U+00DE move up by 32,
every other code point below U+0100 is unchanged, and so is U+FFFD. -/
def toLower (U : UnicodeTables) (r : Nat) : Nat :=
  if r ≤ 0xFF then
    if (0x41 ≤ r && r ≤ 0x5A) || (0xC0 ≤ r && r ≤ 0xD6) || (0xD8 ≤ r && r ≤ 0xDE) then r + 32 else r
  else if r = RuneError then r else U.toLower r

/-- Go `utf8.DecodeRuneInString` on the non-empty string `b0 :: rest`: the rune
and its width in bytes. An invalid or truncated encoding is `(RuneError, 1)`. -/
def decodeRune (b0 : Nat) (rest : GoString) : Nat × Nat :=
  if b0 < 0x80 then (b0, 1)
  else if b0 < 0xC2 then (RuneError, 1)
  else if b0 < 0xE0 then
    match rest with
    | b1 :: _ =>
      if 0x80 ≤ b1 ∧ b1 ≤ 0xBF then ((b0 % 0x20) * 0x40 + b1 % 0x40, 2) else (RuneError, 1)
    | [] => (RuneError, 1)
  else if b0 < 0xF0 then
    match rest with
    | b1 :: b2 :: _ =>
      if (if b0 = 0xE0 then 0xA0 else 0x80) ≤ b1 ∧ b1 ≤ (if b0 = 0xED then 0x9F else 0xBF)
          ∧ 0x80 ≤ b2 ∧ b2 ≤ 0xBF then
        ((b0 % 0x10) * 0x1000 + (b1 % 0x40) * 0x40 + b2 % 0x40, 3)
      else (RuneError, 1)
    | _ => (RuneError, 1)
  else if b0 < 0xF5 then
    match rest with
    | b1 :: b2 :: b3 :: _ =>
      if (if b0 = 0xF0 then 0x90 else 0x80) ≤ b1 ∧ b1 ≤ (if b0 = 0xF4 then 0x8F else 0xBF)
          ∧ 0x80 ≤ b2 ∧ b2 ≤ 0xBF ∧ 0x80 ≤ b3 ∧ b3 ≤ 0xBF then
        ((b0 % 0x08) * 0x40000 + (b1 % 0x40) * 0x1000 + (b2 % 0x40) * 0x40 + b3 % 0x40, 4)
      else (RuneError, 1)
    | _ => (RuneError, 1)
  else (RuneError, 1)

/-- The runes of `for _, r := range s`, with `skip` bytes of an already decoded
rune still to pass over. -/
def runesAux : Nat → GoString → List Nat
  | _, [] => []
  | skip + 1, _ :: tl => runesAux skip tl
  | 0, b :: tl => (decodeRune b tl).1 :: runesAux ((decodeRune b tl).2 - 1) tl

/-- The runes that `for _, r := range s` yields. -/
def runes (s : GoString) : List Nat := runesAux 0 s

/-- Go `utf8.AppendRune` (what `strings.Builder.WriteRune` appends): a code
point above U+10FFFF or a surrogate is written as U+FFFD. -/
def encodeRune (r : Nat) : GoString :=
  if r < 0x80 then [r]
  else if r < 0x800 then [0xC0 + r / 0x40, 0x80 + r % 0x40]
  else if 0x10FFFF < r ∨ (0xD800 ≤ r ∧ r ≤ 0xDFFF) then [0xEF, 0xBF, 0xBD]
  else if r < 0x10000 then [0xE0 + r / 0x1000, 0x80 + (r / 0x40) % 0x40, 0x80 + r % 0x40]
  else [0xF0 + r / 0x40000, 0x80 + (r / 0x1000) % 0x40, 0x80 + (r / 0x40) % 0x40, 0x80 + r % 0x40]

/-- Go `strings.ToLower`: every rune of the string, lower-cased and written back. -/
def stringsToLower (U : UnicodeTables) (s : GoString) : GoString :=
  (runes s).flatMap fun c => encodeRune (toLower U c)

/-- Go `strings.Contains(s, old)` for a two-byte `old = [a, b]`. -/
def contains2 (a b : Nat) : GoString → Bool
  | x :: y :: rest => (x == a && y == b) || contains2 a b (y :: rest)
  | _ => false

/-- Go `strings.ReplaceAll(s, old, new)` for a two-byte `old = [a, b]`: the
non-overlapping occurrences of `old`, found from the left, are replaced. -/
def replaceAll2 (a b : Nat) (new : GoString) : GoString → GoString
  | x :: y :: rest =>
    if x = a ∧ y = b then new ++ replaceAll2 a b new rest else x :: replaceAll2 a b new (y :: rest)
  | s => s

/-- Go `strings.Trim(s, cutset)` for an ASCII cutset: leading and trailing bytes
of the cutset are removed. -/
def stringsTrim (cutset : GoString) (s : GoString) : GoString :=
  ((s.dropWhile fun b => decide (b ∈ cutset)).reverse.dropWhile fun b => decide (b ∈ cutset)).reverse

/-- How a run of the model can fail where the Go code would not return a value:
an index outside the string (a Go panic), or a loop that outlives its fuel. -/
inductive Fault where
  | indexOutOfRange
  | outOfFuel
  deriving DecidableEq, Repr

deriving instance DecidableEq for Except

/-- Go `s[i]`: a panic when `i` is out of range. -/
def byteAt (s : GoString) (i : Nat) : Except Fault Nat :=
  match s.get? i with
  | some b => .ok b
  | none => .error .indexOutOfRange

/-- Go `s[:n]`: a panic when `n` exceeds the length. -/
def sliceTo (s : GoString) (n : Nat) : Except Fault GoString :=
  if n ≤ s.length then .ok (s.take n) else .error .indexOutOfRange

/-- The loop `for strings.Contains(s, old) { s = strings.ReplaceAll(s, old, new) }`
for a two-byte `old = [a, b]`, run for at most `fuel` tests of the condition. -/
def replaceWhileContains (a b : Nat) (new : GoString) : Nat → GoString → Except Fault GoString
  | 0, _ => .error .outOfFuel
  | fuel + 1, s =>
    if contains2 a b s then replaceWhileContains a b new fuel (replaceAll2 a b new s) else .ok s

/-! ## `internal/api/recycle_item_types.go` -/

/-- The test `!unicode.IsLetter(rune(b)) && !unicode.IsDigit(rune(b))` on a byte
`b` of a string: a byte converts to a code point below U+0100, where the letters
are the Latin-1 letters and the digits are 0-9. -/
def notAlnum (b : Nat) : Bool := !isLetterLatin1 b && !(0x30 ≤ b && b ≤ 0x39)

/-- The tail shared by both sanitizers, from the empty check after `strings.Trim`
on: pad the ends with `x`, truncate to `limit` bytes and re-fix the last byte. -/
def padAndTruncate (limit : Nat) (result : GoString) : Except Fault GoString :=
  if result = [] then .ok (ascii "unnamed")
  else do
    let first ← byteAt result 0
    let result := if notAlnum first then ascii "x" ++ result else result
    let last ← byteAt result (result.length - 1)
    let result := if notAlnum last then result ++ ascii "x" else result
    if result.length > limit then do
      let result ← sliceTo result limit
      let last ← byteAt result (result.length - 1)
      if notAlnum last then do
        let front ← sliceTo result (result.length - 1)
        pure (front ++ ascii "x")
      else pure result
    else pure result

/-- The first loop of `sanitizeResourceName`: a rune that is a letter, a digit,
`-` or `.` is written back, any other rune becomes `-`. -/
def replaceInvalidName (U : UnicodeTables) (s : GoString) : GoString :=
  (runes s).flatMap fun r =>
    if isLetter U r || isDigit U r || r == 0x2D || r == 0x2E then encodeRune r else encodeRune 0x2D

/-- The separator collapsing of `sanitizeResourceName`: one `ReplaceAll` of `..`,
then the three loops on `--`, `-.` and `.-`. -/
def collapseName (s : GoString) : Except Fault GoString := do
  let result := replaceAll2 0x2E 0x2E (ascii ".") s
  let result ← replaceWhileContains 0x2D 0x2D (ascii "-") (result.length + 1) result
  let result ← replaceWhileContains 0x2D 0x2E (ascii "-") (result.length + 1) result
  replaceWhileContains 0x2E 0x2D (ascii "-") (result.length + 1) result

/-- Function `sanitizeResourceName` of `recycle_item_types.go`. -/
def sanitizeResourceName (U : UnicodeTables) (name : GoString) : Except Fault GoString :=
  if name = [] then .ok (ascii "unnamed")
  else do
    let result := stringsToLower U name
    let result := replaceInvalidName U result
    let result ← collapseName result
    let result := stringsTrim (ascii "-.") result
    padAndTruncate 253 result

/-- The first loop of `sanitizeLabelValue`: a rune that is a letter, a digit,
`-`, `_` or `.` is written back, any other rune becomes `-`. -/
def replaceInvalidLabel (U : UnicodeTables) (s : GoString) : GoString :=
  (runes s).flatMap fun r =>
    if isLetter U r || isDigit U r || r == 0x2D || r == 0x5F || r == 0x2E then encodeRune r
    else encodeRune 0x2D

/-- Function `sanitizeLabelValue` of `recycle_item_types.go`. -/
def sanitizeLabelValue (U : UnicodeTables) (value : GoString) : Except Fault GoString :=
  if value = [] then .ok (ascii "unnamed")
  else do
    let result := replaceInvalidLabel U value
    let result ← replaceWhileContains 0x2D 0x2D (ascii "-") (result.length + 1) result
    let result := stringsTrim (ascii "-_.") result
    padAndTruncate 63 result

/-- The non-empty branch of `padAndTruncate` up to the length check: the two
paddings with `x`. -/
def padEnds (s : GoString) : GoString :=
  let r := if notAlnum (s.headD 0) then ascii "x" ++ s else s
  if notAlnum (r.getLastD 0) then r ++ ascii "x" else r

/-- The truncation of `padAndTruncate`: cut to `limit` bytes, and overwrite the
last byte with `x` when it is not alphanumeric. -/
def truncateFix (limit : Nat) (s : GoString) : GoString :=
  if s.length > limit then
    if notAlnum ((s.take limit).getLastD 0) then (s.take limit).dropLast ++ ascii "x"
    else s.take limit
  else s

/-- Go `schema.GroupResource`. -/
structure GroupResource where
  Group : GoString
  Resource : GoString
  deriving DecidableEq, Repr

/-- Go `schema.GroupResource.String`. -/
def GroupResource.String (gr : GroupResource) : GoString :=
  if gr.Group.length = 0 then gr.Resource else gr.Resource ++ ascii "." ++ gr.Group

/-- Go `schema.GroupVersion`. -/
structure GroupVersion where
  Group : GoString
  Version : GoString
  deriving DecidableEq, Repr

/-- Go `schema.GroupVersion.String`. -/
def GroupVersion.String (gv : GroupVersion) : GoString :=
  if gv.Group.length > 0 then gv.Group ++ ascii "/" ++ gv.Version else gv.Version

/-- Go `schema.GroupVersionResource`. -/
structure GroupVersionResource where
  Group : GoString
  Version : GoString
  Resource : GoString
  deriving DecidableEq, Repr

/-- Go `schema.GroupVersionResource.GroupVersion`. -/
def GroupVersionResource.GroupVersion (gvr : GroupVersionResource) : GroupVersion :=
  ⟨gvr.Group, gvr.Version⟩

/-- Go `schema.GroupVersionResource.GroupResource`. -/
def GroupVersionResource.GroupResource (gvr : GroupVersionResource) : GroupResource :=
  ⟨gvr.Group, gvr.Resource⟩

/-- Type `RecycledObject` of `recycle_item_types.go`. -/
structure RecycledObject where
  Group : GoString
  Version : GoString
  Kind : GoString
  Resource : GoString
  Namespace : GoString
  Name : GoString
  Raw : List Nat
  deriving DecidableEq, Repr

/-- Function `RecycledObject.GroupResource`. -/
def RecycledObject.GroupResource (obj : RecycledObject) : GroupResource :=
  ⟨obj.Group, obj.Resource⟩

/-- A Go `map[string]string` of labels, as an association list read with
`labelOf`; `setLabel` is the assignment `labels[k] = v`. -/
abbrev Labels := List (GoString × GoString)

/-- The map read `labels[k]` with its presence flag. -/
def labelOf (labels : Labels) (k : GoString) : Option GoString := labels.lookup k

/-- The map assignment `labels[k] = v`. -/
def setLabel (labels : Labels) (k v : GoString) : Labels :=
  (k, v) :: labels.filter fun kv => kv.1 != k

/-- Type `RecycleItem` of `recycle_item_types.go`: type meta, the name and labels of
the object meta, and the recycled object. -/
structure RecycleItem where
  APIVersion : GoString
  Kind : GoString
  Name : GoString
  Labels : Labels
  Object : RecycledObject
  deriving DecidableEq, Repr

/-- Constant `GroupVersion` of `groupversion_info.go`. -/
def apiGroupVersion : GroupVersion := ⟨ascii "krb.wcrum.dev", ascii "v1"⟩

/-- Constant `RecycleItemKind` of `groupversion_info.go`. -/
def RecycleItemKind : GoString := ascii "RecycleItem"

/-- Function `NewRecycleItem` of `recycle_item_types.go`. `suffix` is the value of
`rand.String(8)` and `unixNow` that of `metav1.Now().Unix()` in this call. -/
def NewRecycleItem (U : UnicodeTables) (suffix : GoString) (unixNow : Int)
    (recycledObj : RecycledObject) : Except Fault RecycleItem := do
  let sanitizedName ← sanitizeResourceName U recycledObj.Name
  let objectName ← sanitizeLabelValue U recycledObj.Name
  let objectGr ← sanitizeLabelValue U recycledObj.GroupResource.String
  let labels : Labels := [
    (ascii "krb.wcrum.dev/object-name", objectName),
    (ascii "krb.wcrum.dev/object-gr", objectGr),
    (ascii "krb.wcrum.dev/recycled-at", ascii (toString unixNow))]
  let labels ←
    if recycledObj.Namespace ≠ [] then do
      let objectNamespace ← sanitizeLabelValue U recycledObj.Namespace
      pure (setLabel labels (ascii "krb.wcrum.dev/object-namespace") objectNamespace)
    else pure labels
  return {
    APIVersion := apiGroupVersion.String
    Kind := RecycleItemKind
    Name := sanitizedName ++ ascii "-" ++ suffix
    Labels := labels
    Object := recycledObj }

/-- What `rand.String(8)` of apimachinery can return: 8 characters of its
alphabet `bcdfghjklmnpqrstvwxz2456789`. -/
def isRandString8 (suffix : GoString) : Prop :=
  suffix.length = 8 ∧ ∀ b ∈ suffix, b ∈ ascii "bcdfghjklmnpqrstvwxz2456789"

/-! ## `pkg/kube/gvkr.go` -/

/-- An error of the API machinery, by the reason that `k8serrors.IsNotFound`,
`IsAlreadyExists` and `IsConflict` test; `other` is every other error. -/
inductive Err where
  | notFound
  | alreadyExists
  | conflict
  | other (code : Nat)
  deriving DecidableEq, Repr

/-- Go `k8serrors.IsAlreadyExists`. -/
def IsAlreadyExists : Err → Bool
  | .alreadyExists => true
  | _ => false

/-- Go `k8serrors.IsNotFound`. -/
def IsNotFound : Err → Bool
  | .notFound => true
  | _ => false

/-- Go `k8serrors.IsConflict`. -/
def IsConflict : Err → Bool
  | .conflict => true
  | _ => false

/-- Go `metav1.APIResource`, the fields the resolver reads. -/
structure APIResource where
  Name : GoString
  SingularName : GoString
  ShortNames : List GoString
  Namespaced : Bool
  Kind : GoString
  deriving DecidableEq, Repr

/-- Go `metav1.APIResourceList`. -/
structure APIResourceList where
  GroupVersion : GoString
  APIResources : List APIResource
  deriving DecidableEq, Repr

/-- The discovery client: the answers of the cluster to the two discovery calls. -/
structure Discovery where
  ServerResourcesForGroupVersion : GoString → Except Err APIResourceList
  ServerPreferredResources : Except Err (List APIResourceList)

/-- The error that `fmt.Errorf` builds in `gvkr.go`. -/
def resolutionError : Err := .other 0

/-- The loop of `IsResourceNamespaced` over the resources of the list. -/
def findNamespaced (resource : GoString) : List APIResource → Except Err Bool
  | [] => .error resolutionError
  | apiResource :: rest =>
    if apiResource.Name = resource then .ok apiResource.Namespaced
    else findNamespaced resource rest

/-- Function `IsResourceNamespaced` of `gvkr.go`. -/
def IsResourceNamespaced (d : Discovery) (gvr : GroupVersionResource) : Except Err Bool :=
  match d.ServerResourcesForGroupVersion gvr.GroupVersion.String with
  | .error err => .error err
  | .ok apiResourceList => findNamespaced gvr.Resource apiResourceList.APIResources

/-! ## `k8s.io/client-go/util/retry` -/

/-- The number of attempts of `retry.DefaultRetry` (`Steps: 5`). -/
def DefaultRetrySteps : Nat := 5

/-- Go `retry.OnError(backoff, retriable, fn)` with `steps` attempts left:
`wait.ExponentialBackoff` calls `fn` until it returns nil, returns an error that
is not retriable, or the steps are used up, in which case the last retriable
error is returned. `fn` acts on the state `σ` of everything it touches. -/
def retryOnError {σ : Type} (retriable : Err → Bool) (fn : σ → Option Err × σ) :
    Nat → Option Err → σ → Option Err × σ
  | 0, lastErr, s => (lastErr, s)
  | steps + 1, _, s =>
    match fn s with
    | (none, s1) => (none, s1)
    | (some err, s1) =>
      if retriable err then retryOnError retriable fn steps (some err) s1 else (some err, s1)

/-! ## `internal/webhook/webhook.go` -/

/-- Go `admissionv1.AdmissionRequest`, the fields the handler reads. -/
structure AdmissionRequest where
  UID : GoString
  Kind : GoString
  Resource : GroupVersionResource
  Namespace : GoString
  Name : GoString
  OldObjectRaw : List Nat
  deriving DecidableEq, Repr

/-- Go `admissionv1.AdmissionReview` as decoded from the body: the type meta and
the request pointer, `none` when the body carries no request. -/
structure AdmissionReview where
  APIVersion : GoString
  Kind : GoString
  Request : Option AdmissionRequest
  deriving DecidableEq, Repr

/-- What the handler leaves on the connection. -/
inductive Reply where
  /-- The reply of `http.Error(w, ..., http.StatusBadRequest)`. -/
  | badRequest
  /-- The review that `response` encodes: type meta, echoed UID, decision. -/
  | review (apiVersion kind uid : GoString) (allowed : Bool)
  /-- The handler panicked (nil dereference or index out of range): nothing written. -/
  | panicked
  deriving DecidableEq, Repr

/-- The RecycleItem store as the handler sees it: the answer to a Create call,
given the Create calls made before it in this handler run. -/
structure ItemStore where
  Create : List RecycleItem → RecycleItem → Option Err

/-- A run of the handler: the Create calls it made, each with the store's
answer (`none` is success), and the reply. -/
structure Handled where
  creates : List (RecycleItem × Option Err)
  reply : Reply
  deriving DecidableEq, Repr

/-- Function `buildRecycledObject` of `webhook.go`; `none` is the nil result. -/
def buildRecycledObject (d : Discovery) (request : AdmissionRequest) : Option RecycledObject :=
  match IsResourceNamespaced d
      ⟨request.Resource.Group, request.Resource.Version, request.Resource.Resource⟩ with
  | .error _ => none
  | .ok namespaced =>
    some {
      Group := request.Resource.Group
      Version := request.Resource.Version
      Resource := request.Resource.Resource
      Kind := request.Kind
      Namespace := if namespaced then request.Namespace else []
      Name := request.Name
      Raw := request.OldObjectRaw }

/-- Function `response` of `webhook.go`, for a review that carries the request. -/
def response (review : AdmissionReview) (request : AdmissionRequest) : Reply :=
  .review review.APIVersion review.Kind request.UID true

/-- The constant `maxResourceSize` of `recycleDeleteObjects`. -/
def maxResourceSize : Nat := 5 * 1024 * 1024

/-- The closure that `recycleDeleteObjects` hands to `retry.OnError`: one Create
of the record, recorded with the store's answer. -/
def createOnce (store : ItemStore) (recycleItem : RecycleItem)
    (done : List (RecycleItem × Option Err)) : Option Err × List (RecycleItem × Option Err) :=
  let answer := store.Create (done.map Prod.fst) recycleItem
  (answer, done ++ [(recycleItem, answer)])

/-- Function `recycleDeleteObjects` of `webhook.go`. `parsed` is the result of
`parseRequest` (`none` when the body does not decode); `suffix` and `unixNow`
are the random suffix and the clock reading of `NewRecycleItem`. -/
def recycleDeleteObjects (U : UnicodeTables) (d : Discovery) (store : ItemStore)
    (suffix : GoString) (unixNow : Int) (parsed : Option AdmissionReview) : Handled :=
  match parsed with
  | none => ⟨[], .badRequest⟩
  | some review =>
    match review.Request with
    | none => ⟨[], .panicked⟩
    | some request =>
      match buildRecycledObject d request with
      | none => ⟨[], response review request⟩
      | some recycledObj =>
        if recycledObj.Raw.length > maxResourceSize then ⟨[], response review request⟩
        else
          match NewRecycleItem U suffix unixNow recycledObj with
          | .error _ => ⟨[], .panicked⟩
          | .ok recycleItem =>
            let run := retryOnError IsAlreadyExists (createOnce store recycleItem)
              DefaultRetrySteps none []
            ⟨run.2, response review request⟩

/-! ## `cmd/krb-cli/cmd/get-recycle-items.go` -/

/-- The flags of `krb-cli get ri` that select the listing. -/
structure GetRecycleItemFlags where
  ObjectResource : GoString
  ObjectNamespace : GoString
  deriving DecidableEq, Repr

/-- The label set that `runGetRecycleItems` builds when no name is given.
`resolved` is the result of `kube.GetPreferredGroupVersionResourceFor` on the
`--object-resource` flag; `none` is the exit of `tlog.Panicf` on its error. -/
def listLabelSet (flags : GetRecycleItemFlags) (resolved : Except Err GroupVersionResource) :
    Option Labels :=
  let labelSet : Labels := []
  let labelSet :=
    if flags.ObjectNamespace ≠ [] then
      setLabel labelSet (ascii "krb.wcrum.dev/object-namespace") flags.ObjectNamespace
    else labelSet
  if flags.ObjectResource ≠ [] then
    match resolved with
    | .error _ => none
    | .ok gvr => some (setLabel labelSet (ascii "krb.wcrum.dev/object-gr") gvr.GroupResource.String)
  else some labelSet

/-- Go `labels.SelectorFromSet(set).Matches(labels)`: every pair of the set is a
label of the object. -/
def selectorMatches (labelSet : Labels) (labels : Labels) : Bool :=
  labelSet.all fun kv => labelOf labels kv.1 == some kv.2

/-! ## `internal/controller/policy_controller.go` -/

/-- Type `RecyclePolicy` of `recycle_policy_types.go`: its name and its target. -/
structure RecyclePolicy where
  Name : GoString
  Group : GoString
  Resource : GoString
  Namespaces : List GoString
  deriving DecidableEq, Repr

/-- Go `admissionregistrationv1.OperationType`. -/
inductive OperationType where
  | OperationAll
  | Create
  | Update
  | Delete
  | Connect
  deriving DecidableEq, Repr

/-- Go `admissionregistrationv1.FailurePolicyType`. -/
inductive FailurePolicyType where
  | Ignore
  | Fail
  deriving DecidableEq, Repr

/-- Go `admissionregistrationv1.MatchPolicyType`. -/
inductive MatchPolicyType where
  | Exact
  | Equivalent
  deriving DecidableEq, Repr

/-- Go `admissionregistrationv1.SideEffectClass`. -/
inductive SideEffectClass where
  | SideEffectClassUnknown
  | SideEffectClassNone
  | SideEffectClassSome
  | SideEffectClassNoneOnDryRun
  deriving DecidableEq, Repr

/-- Go `metav1.LabelSelectorOperator`. -/
inductive LabelSelectorOperator where
  | LabelSelectorOpIn
  | LabelSelectorOpNotIn
  | LabelSelectorOpExists
  | LabelSelectorOpDoesNotExist
  deriving DecidableEq, Repr

/-- Go `metav1.LabelSelectorRequirement`. -/
structure LabelSelectorRequirement where
  Key : GoString
  Operator : LabelSelectorOperator
  Values : List GoString
  deriving DecidableEq, Repr

/-- Go `metav1.LabelSelector`, its match expressions. -/
structure LabelSelector where
  MatchExpressions : List LabelSelectorRequirement
  deriving DecidableEq, Repr

/-- Go `admissionregistrationv1.RuleWithOperations`. -/
structure RuleWithOperations where
  Operations : List OperationType
  APIGroups : List GoString
  APIVersions : List GoString
  Resources : List GoString
  deriving DecidableEq, Repr

/-- Go `admissionregistrationv1.ServiceReference`. -/
structure ServiceReference where
  Name : GoString
  Namespace : GoString
  Path : Option GoString
  deriving DecidableEq, Repr

/-- Go `admissionregistrationv1.WebhookClientConfig`. -/
structure WebhookClientConfig where
  CABundle : List Nat
  Service : Option ServiceReference
  deriving DecidableEq, Repr

/-- Go `admissionregistrationv1.ValidatingWebhook`. -/
structure ValidatingWebhook where
  AdmissionReviewVersions : List GoString
  ClientConfig : WebhookClientConfig
  FailurePolicy : Option FailurePolicyType
  MatchPolicy : Option MatchPolicyType
  Name : GoString
  SideEffects : Option SideEffectClass
  TimeoutSeconds : Option Int
  Rules : List RuleWithOperations
  NamespaceSelector : Option LabelSelector
  deriving DecidableEq, Repr

/-- Go `admissionregistrationv1.ValidatingWebhookConfiguration`: name, labels and
resource version of its object meta, and its webhooks. -/
structure ValidatingWebhookConfiguration where
  Name : GoString
  Labels : Labels
  ResourceVersion : GoString
  Webhooks : List ValidatingWebhook
  deriving DecidableEq, Repr

/-- The constants of the package `internal/consts` that the controller reads;
the package is not part of the sources at hand, so its values are parameters. -/
structure Consts where
  WebhookName : GoString
  WebhookNamespace : GoString
  WebhookServicePath : GoString
  WebhookDNSName : GoString

/-- Function `webhookName` of `policy_controller.go`. -/
def webhookName (c : Consts) (policyName : GoString) : GoString :=
  c.WebhookName ++ ascii "-" ++ policyName

/-- Function `constructWebhookFromPolicy` of `policy_controller.go`. `certBytes` is the
value of `getCertBytes()`, the cached certificate. -/
def constructWebhookFromPolicy (c : Consts) (certBytes : List Nat) (recyclePolicy : RecyclePolicy) :
    ValidatingWebhookConfiguration :=
  let namespaceSelector : LabelSelectorRequirement :=
    if recyclePolicy.Namespaces.length = 0 ∨ recyclePolicy.Namespaces.contains (ascii "")
        ∨ recyclePolicy.Namespaces.contains (ascii "*") then
      { Key := ascii "kubernetes.io/metadata.name"
        Operator := .LabelSelectorOpExists
        Values := [] }
    else
      { Key := ascii "kubernetes.io/metadata.name"
        Operator := .LabelSelectorOpIn
        Values := recyclePolicy.Namespaces }
  { Name := webhookName c recyclePolicy.Name
    Labels := [(ascii "krb.wcrum.dev/recycle-policy", recyclePolicy.Name)]
    ResourceVersion := []
    Webhooks := [
      { AdmissionReviewVersions := [ascii "v1"]
        ClientConfig :=
          { CABundle := certBytes
            Service := some
              { Name := c.WebhookName
                Namespace := c.WebhookNamespace
                Path := some c.WebhookServicePath } }
        FailurePolicy := some .Fail
        MatchPolicy := some .Exact
        Name := c.WebhookDNSName
        SideEffects := some .SideEffectClassNone
        TimeoutSeconds := some 5
        Rules := [
          { Operations := [.Delete]
            APIGroups := [recyclePolicy.Group]
            APIVersions := [ascii "*"]
            Resources := [recyclePolicy.Resource] }]
        NamespaceSelector := some { MatchExpressions := [namespaceSelector] } }] }

/-- A call of the reconciler to the cluster through its client. -/
inductive Call where
  | getPolicy (name : GoString)
  | listPolicies
  | getWebhook (name : GoString)
  | createWebhook (webhook : ValidatingWebhookConfiguration)
  | updateWebhook (webhook : ValidatingWebhookConfiguration)
  | deleteWebhook (name : GoString)
  deriving DecidableEq, Repr

/-- The cluster as the reconciler sees it: the answer to each call, given the
calls made before it in this reconciliation (`none` is success). -/
structure Cluster where
  getPolicy : List Call → GoString → Except Err RecyclePolicy
  listPolicies : List Call → Option Err
  getWebhook : List Call → GoString → Except Err ValidatingWebhookConfiguration
  createWebhook : List Call → ValidatingWebhookConfiguration → Option Err
  updateWebhook : List Call → ValidatingWebhookConfiguration → Option Err
  deleteWebhook : List Call → GoString → Option Err

/-- What the closure of `tryBuildWebhook` reads and writes: the variable
`currentWebhook` and the calls made so far. -/
structure UpdateState where
  currentWebhook : ValidatingWebhookConfiguration
  calls : List Call
  deriving DecidableEq, Repr

/-- Go `SetResourceVersion` on the registration. -/
def ValidatingWebhookConfiguration.SetResourceVersion (webhook : ValidatingWebhookConfiguration)
    (resourceVersion : GoString) : ValidatingWebhookConfiguration :=
  { webhook with ResourceVersion := resourceVersion }

/-- The closure that `tryBuildWebhook` hands to `retry.RetryOnConflict`. -/
def updateOnce (k : Cluster) (webhook : ValidatingWebhookConfiguration) (s : UpdateState) :
    Option Err × UpdateState :=
  let webhook := webhook.SetResourceVersion s.currentWebhook.ResourceVersion
  let calls := s.calls ++ [.updateWebhook webhook]
  match k.updateWebhook s.calls webhook with
  | some _ =>
    match k.getWebhook calls webhook.Name with
    | .error err => (some err, ⟨s.currentWebhook, calls ++ [.getWebhook webhook.Name]⟩)
    | .ok latest => (none, ⟨latest, calls ++ [.getWebhook webhook.Name]⟩)
  | none => (none, ⟨s.currentWebhook, calls⟩)

/-- Function `tryBuildWebhook` of `policy_controller.go`, started after the calls `calls`:
the returned error (`none` is nil) and the calls made. -/
def tryBuildWebhook (c : Consts) (certBytes : List Nat) (k : Cluster) (calls : List Call)
    (recyclePolicy : RecyclePolicy) : Option Err × List Call :=
  match k.listPolicies calls with
  | some err => (some err, calls ++ [.listPolicies])
  | none =>
    let calls := calls ++ [.listPolicies]
    let webhook := constructWebhookFromPolicy c certBytes recyclePolicy
    match k.getWebhook calls webhook.Name with
    | .error err =>
      let calls := calls ++ [.getWebhook webhook.Name]
      if IsNotFound err then
        match k.createWebhook calls webhook with
        | some err => (some err, calls ++ [.createWebhook webhook])
        | none => (none, calls ++ [.createWebhook webhook])
      else (some err, calls)
    | .ok currentWebhook =>
      let calls := calls ++ [.getWebhook webhook.Name]
      let run := retryOnError IsConflict (updateOnce k webhook) DefaultRetrySteps none
        ⟨currentWebhook, calls⟩
      (run.1, run.2.calls)

/-- Function `tryReclaimWebhook` of `policy_controller.go`. -/
def tryReclaimWebhook (c : Consts) (k : Cluster) (calls : List Call)
    (recyclePolicyName : GoString) : Option Err × List Call :=
  (k.deleteWebhook calls (webhookName c recyclePolicyName),
    calls ++ [.deleteWebhook (webhookName c recyclePolicyName)])

/-- Go `ctrl.Result`: the requeue delay in seconds, 0 for the empty result. -/
structure Result where
  RequeueAfterSeconds : Nat
  deriving DecidableEq, Repr

/-- A run of `Reconcile`: its result, its error (`none` is nil) and the calls made. -/
structure Reconciled where
  result : Result
  err : Option Err
  calls : List Call
  deriving DecidableEq, Repr

/-- Function `Reconcile` of `policy_controller.go` for the request name `name`. -/
def Reconcile (c : Consts) (certBytes : List Nat) (k : Cluster) (name : GoString) : Reconciled :=
  match k.getPolicy [] name with
  | .error err =>
    if IsNotFound err then
      match tryReclaimWebhook c k [.getPolicy name] name with
      | (some err, calls) => ⟨⟨10⟩, some err, calls⟩
      | (none, calls) => ⟨⟨0⟩, none, calls⟩
    else ⟨⟨0⟩, some err, [.getPolicy name]⟩
  | .ok recyclePolicy =>
    match tryBuildWebhook c certBytes k [.getPolicy name] recyclePolicy with
    | (some err, calls) => ⟨⟨0⟩, some err, calls⟩
    | (none, calls) => ⟨⟨0⟩, none, calls⟩

/-- The number of `Update` calls in a list of calls. -/
def countUpdates (calls : List Call) : Nat :=
  (calls.filter fun call => match call with
    | .updateWebhook _ => true
    | _ => false).length

/-- The number of Create calls of a handler run that the store answered with success. -/
def countCreated (creates : List (RecycleItem × Option Err)) : Nat :=
  (creates.filter fun e => e.2.isNone).length

/-- Every rune of the string is a code point below U+0100 or U+FFFD (what an
invalid byte decodes to): the code points on which the Unicode tables are fixed. -/
def latin1Runes (s : GoString) : Bool :=
  (runes s).all fun r => decide (r ≤ 0xFF) || decide (r = RuneError)

/-- The bytes that the resource-name grammar allows: a-z, 0-9, `-` and `.`. -/
def isNameByte (b : Nat) : Bool :=
  (0x61 ≤ b && b ≤ 0x7A) || (0x30 ≤ b && b ≤ 0x39) || b == 0x2D || b == 0x2E

/-- The bytes that the label-value grammar allows: a-z, A-Z, 0-9, `-`, `_`, `.`. -/
def isLabelByte (b : Nat) : Bool :=
  (0x61 ≤ b && b ≤ 0x7A) || (0x41 ≤ b && b ≤ 0x5A) || (0x30 ≤ b && b ≤ 0x39) || b == 0x2D
    || b == 0x5F || b == 0x2E

/-- An ASCII letter or digit. -/
def isAsciiAlnum (b : Nat) : Bool :=
  (0x61 ≤ b && b ≤ 0x7A) || (0x41 ≤ b && b ≤ 0x5A) || (0x30 ≤ b && b ≤ 0x39)

/-! ## Concrete clusters and notifications -/

/-- A discovery endpoint that knows `apps/v1` with the namespaced resource
`deployments`, and `rbac.authorization.k8s.io/v1` with the cluster-scoped
resource `clusterroles`. -/
def demoDiscovery : Discovery where
  ServerResourcesForGroupVersion := fun gv =>
    if gv = ascii "apps/v1" then
      .ok ⟨gv, [⟨ascii "deployments", ascii "deployment", [ascii "deploy"], true, ascii "Deployment"⟩]⟩
    else if gv = ascii "rbac.authorization.k8s.io/v1" then
      .ok ⟨gv, [⟨ascii "clusterroles", ascii "clusterrole", [], false, ascii "ClusterRole"⟩]⟩
    else .error .notFound
  ServerPreferredResources := .error .notFound

/-- The delete notification of the deployment `nginx` in the namespace `ns`,
with a payload of 64 bytes. -/
def deleteNginx (ns : GoString) : AdmissionRequest where
  UID := ascii "705ab4f5-6393-11e8-b7cc-42010a800002"
  Kind := ascii "Deployment"
  Resource := ⟨ascii "apps", ascii "v1", ascii "deployments"⟩
  Namespace := ns
  Name := ascii "nginx"
  OldObjectRaw := List.replicate 64 0x20

/-- The admission review that carries `deleteNginx ns`. -/
def reviewNginx (ns : GoString) : AdmissionReview :=
  ⟨ascii "admission.k8s.io/v1", ascii "AdmissionReview", some (deleteNginx ns)⟩

/-- A store that accepts every Create. -/
def acceptingStore : ItemStore := ⟨fun _ _ => none⟩

/-- A store that answers the first Create with a transient error (code 503) and
accepts every later one. -/
def transientThenOk : ItemStore :=
  ⟨fun done _ => if done.length = 0 then some (.other 503) else none⟩

/-- A store that answers the first Create with AlreadyExists and accepts every
later one. -/
def existsThenOk : ItemStore :=
  ⟨fun done _ => if done.length = 0 then some .alreadyExists else none⟩

/-- The name of 62 letters `a` followed by `é` (bytes C3 A9): 64 bytes. -/
def name62e : GoString := List.replicate 62 0x61 ++ [0xC3, 0xA9]

/-- The deployment `team--a/nginx` of the group `apps`, as the handler records it. -/
def nginxInTeamA : RecycledObject :=
  ⟨ascii "apps", ascii "v1", ascii "Deployment", ascii "deployments", ascii "team--a",
    ascii "nginx", List.replicate 64 0x20⟩

/-- A deployment of the namespace `dev` whose name is 245 letters `a`. -/
def longNamed : RecycledObject :=
  ⟨ascii "apps", ascii "v1", ascii "Deployment", ascii "deployments", ascii "dev",
    List.replicate 245 0x61, List.replicate 64 0x20⟩

/-- Constants for the examples: the webhook is named `krb-webhook`. -/
def demoConsts : Consts :=
  ⟨ascii "krb-webhook", ascii "krb-system", ascii "/recycle", ascii "krb-webhook.krb-system.svc"⟩

/-- The policy `recycle-deployments` on `deployments.apps` in the namespace `dev`. -/
def demoPolicy : RecyclePolicy :=
  ⟨ascii "recycle-deployments", ascii "apps", ascii "deployments", [ascii "dev"]⟩

/-- A cluster in which the policy and its registration exist, the registration
at resource version `7`, and every Update fails with a conflict. -/
def conflictingCluster : Cluster where
  getPolicy := fun _ _ => .ok demoPolicy
  listPolicies := fun _ => none
  getWebhook := fun _ name => .ok ⟨name, [], ascii "7", []⟩
  createWebhook := fun _ _ => some .alreadyExists
  updateWebhook := fun _ _ => some .conflict
  deleteWebhook := fun _ _ => none

/-- Go `labels.Requirement.Matches` for the requirement that
`metav1.LabelSelectorAsSelector` builds from a `LabelSelectorRequirement`. -/
def requirementMatches (req : LabelSelectorRequirement) (labels : Labels) : Bool :=
  match req.Operator with
  | .LabelSelectorOpIn =>
    match labelOf labels req.Key with
    | some v => req.Values.contains v
    | none => false
  | .LabelSelectorOpNotIn =>
    match labelOf labels req.Key with
    | some v => !req.Values.contains v
    | none => true
  | .LabelSelectorOpExists => (labelOf labels req.Key).isSome
  | .LabelSelectorOpDoesNotExist => (labelOf labels req.Key).isNone

/-- A label selector matches a label set when every match expression does. -/
def labelSelectorMatches (selector : LabelSelector) (labels : Labels) : Bool :=
  selector.MatchExpressions.all fun req => requirementMatches req labels

/-- The namespace selectors of the webhooks of a registration, in order. -/
def namespaceSelectors (registration : ValidatingWebhookConfiguration) :
    List (Option LabelSelector) :=
  registration.Webhooks.map fun w => w.NamespaceSelector

/-- The policy targets all namespaces: its namespace list is empty or contains
`metav1.NamespaceAll` (the empty string) or `*`. -/
def targetsAllNamespaces (recyclePolicy : RecyclePolicy) : Prop :=
  recyclePolicy.Namespaces = [] ∨ ascii "" ∈ recyclePolicy.Namespaces
    ∨ ascii "*" ∈ recyclePolicy.Namespaces

/-- The namespace requirement that `constructWebhookFromPolicy` compiles for a policy. -/
def namespaceRequirement (recyclePolicy : RecyclePolicy) : LabelSelectorRequirement :=
  if recyclePolicy.Namespaces.length = 0 ∨ recyclePolicy.Namespaces.contains (ascii "")
      ∨ recyclePolicy.Namespaces.contains (ascii "*") then
    { Key := ascii "kubernetes.io/metadata.name"
      Operator := .LabelSelectorOpExists
      Values := [] }
  else
    { Key := ascii "kubernetes.io/metadata.name"
      Operator := .LabelSelectorOpIn
      Values := recyclePolicy.Namespaces }

/-- A cluster in which neither the policy nor its registration exists: the Get
of the policy and the Delete of the registration both report NotFound. -/
def goneCluster : Cluster where
  getPolicy := fun _ _ => .error .notFound
  listPolicies := fun _ => none
  getWebhook := fun _ _ => .error .notFound
  createWebhook := fun _ _ => none
  updateWebhook := fun _ _ => none
  deleteWebhook := fun _ _ => some .notFound

/-! ## The resolver of `pkg/kube/gvkr.go` -/

/-- Go `strings.Cut(s, sep)` for a one-byte separator: the parts before and
after the first separator, `none` when there is none. -/
def stringsCut (sep : Nat) : GoString → Option (GoString × GoString)
  | [] => none
  | b :: rest =>
    if b = sep then some ([], rest)
    else (stringsCut sep rest).map fun p => (b :: p.1, p.2)

/-- Go `strings.Count(s, sep)` for a one-byte separator. -/
def stringsCount (sep : Nat) (s : GoString) : Nat := s.count sep

/-- Go `strings.SplitN(s, sep, 3)` for a one-byte separator. -/
def stringsSplitN3 (sep : Nat) (s : GoString) : List GoString :=
  match stringsCut sep s with
  | none => [s]
  | some (s0, rest) =>
    match stringsCut sep rest with
    | none => [s0, rest]
    | some (s1, s2) => [s0, s1, s2]

/-- Go `schema.ParseGroupResource`: the resource up to the first dot, the group
after it. -/
def ParseGroupResource (gr : GoString) : GroupResource :=
  match stringsCut 0x2E gr with
  | some (resource, group) => ⟨group, resource⟩
  | none => ⟨[], gr⟩

/-- Go `schema.ParseResourceArg`: with two dots or more also the reading
`resource.version.group`; `none` is the nil pointer. The split of an argument
with two dots has three parts (`stringsSplitN3_of_count`), so the last case of
the match is never taken. -/
def ParseResourceArg (arg : GoString) : Option GroupVersionResource × GroupResource :=
  (if stringsCount 0x2E arg ≥ 2 then
      match stringsSplitN3 0x2E arg with
      | [s0, s1, s2] => some ⟨s2, s1, s0⟩
      | _ => none
    else none,
   ParseGroupResource arg)

/-- The error of `schema.ParseGroupVersion` on a string with two slashes or more. -/
def unexpectedGroupVersion : Err := .other 1

/-- Go `schema.ParseGroupVersion`. -/
def ParseGroupVersion (gv : GoString) : Except Err GroupVersion :=
  if gv.length = 0 ∨ gv = ascii "/" then .ok ⟨[], []⟩
  else
    match stringsCount 0x2F gv with
    | 0 => .ok ⟨[], gv⟩
    | 1 =>
      match stringsCut 0x2F gv with
      | some (group, version) => .ok ⟨group, version⟩
      | none => .error unexpectedGroupVersion
    | _ => .error unexpectedGroupVersion

/-- The test of the inner loop of `GetPreferredGroupVersionResourceFor`: the
plural name, the singular name or a short name of the entry is the resource. -/
def resourceMatches (resource : GoString) (res : APIResource) : Bool :=
  res.Name == resource || res.SingularName == resource || res.ShortNames.contains resource

/-- The inner loop of `GetPreferredGroupVersionResourceFor`: the first entry of
the list that matches. -/
def findResource (resource : GoString) : List APIResource → Option APIResource
  | [] => none
  | res :: rest => if resourceMatches resource res then some res else findResource resource rest

/-- The test before the inner loop of `GetPreferredGroupVersionResourceFor`: a
group is pinned and the list's group differs from both readings of it. -/
def excludedByPin (gr : GroupResource) (gvr : GroupVersionResource) (gv : GroupVersion) : Bool :=
  decide (gr.Group ≠ [] ∧ gv.Group ≠ gr.Group ∧ gvr.Group ≠ [] ∧ gv.Group ≠ gvr.Group)

/-- The outer loop of `GetPreferredGroupVersionResourceFor`; `none` when the
loop ends without a return. -/
def scanResourceLists (gr : GroupResource) (gvr : GroupVersionResource) :
    List APIResourceList → Option GroupVersionResource
  | [] => none
  | resourceList :: rest =>
    match ParseGroupVersion resourceList.GroupVersion with
    | .error _ => scanResourceLists gr gvr rest
    | .ok gv =>
      if excludedByPin gr gvr gv then scanResourceLists gr gvr rest
      else
        match findResource gr.Resource resourceList.APIResources with
        | some res => some ⟨gv.Group, gv.Version, res.Name⟩
        | none => scanResourceLists gr gvr rest

/-- The variable `gvr` of `GetPreferredGroupVersionResourceFor` after its first
statements: the three-part reading, or else the group and resource of the
two-part reading. -/
def pinnedGroupVersionResource (resource : GoString) : GroupVersionResource :=
  match (ParseResourceArg resource).1 with
  | some gvr => gvr
  | none => ⟨(ParseResourceArg resource).2.Group, [], (ParseResourceArg resource).2.Resource⟩

/-- Function `GetPreferredGroupVersionResourceFor` of `gvkr.go`. -/
def GetPreferredGroupVersionResourceFor (d : Discovery) (resource : GoString) :
    Except Err GroupVersionResource :=
  match d.ServerPreferredResources with
  | .error err => .error err
  | .ok apiResourceLists =>
    match scanResourceLists (ParseResourceArg resource).2 (pinnedGroupVersionResource resource)
        apiResourceLists with
    | some found => .ok found
    | none => .error resolutionError

/-- The candidates of a listing in the words of the specification: the entries
of the resource lists, in the order returned and in listed order within a list,
each with its list's group and version; lists that are `skipped`, and lists
whose group-version string does not parse, contribute none. -/
def candidates (skipped : GroupVersion → Bool) (lists : List APIResourceList) :
    List (GroupVersion × APIResource) :=
  lists.flatMap fun resourceList =>
    match ParseGroupVersion resourceList.GroupVersion with
    | .error _ => []
    | .ok gv => if skipped gv then [] else resourceList.APIResources.map fun res => (gv, res)

/-- The first matching candidate in the words of the specification: the list's
group and version and the entry's plural name. -/
def firstMatch (resource : GoString) (cands : List (GroupVersion × APIResource)) :
    Option GroupVersionResource :=
  (cands.find? fun cand => resourceMatches resource cand.2).map fun cand =>
    ⟨cand.1.Group, cand.1.Version, cand.2.Name⟩

/-- A preferred-resources listing: the core group with `pods` (short name `po`),
then `extensions/v1beta1` and `apps/v1`, both with `deployments`. -/
def preferredListing : List APIResourceList := [
  ⟨ascii "v1", [⟨ascii "pods", ascii "pod", [ascii "po"], true, ascii "Pod"⟩]⟩,
  ⟨ascii "extensions/v1beta1",
    [⟨ascii "deployments", ascii "deployment", [ascii "deploy"], true, ascii "Deployment"⟩]⟩,
  ⟨ascii "apps/v1",
    [⟨ascii "deployments", ascii "deployment", [ascii "deploy"], true, ascii "Deployment"⟩]⟩]

/-- A discovery endpoint that answers with `preferredListing`. -/
def preferredDiscovery : Discovery where
  ServerResourcesForGroupVersion := fun _ => .error .notFound
  ServerPreferredResources := .ok preferredListing

/-- A discovery endpoint whose only resource list, with the entry `pods`, has
the group-version string `a/b/c`. -/
def malformedDiscovery : Discovery where
  ServerResourcesForGroupVersion := fun _ => .error .notFound
  ServerPreferredResources :=
    .ok [⟨ascii "a/b/c", [⟨ascii "pods", ascii "pod", [ascii "po"], true, ascii "Pod"⟩]⟩]

/-! ## `RecycledObject.Unstructured` -/

/-- A decoded JSON value, as `json.Unmarshal` stores it in an `interface{}`; an
object is a Go `map[string]interface{}`, kept as an association list that is
read with `fieldOf`. -/
inductive JSONValue where
  | null
  | bool (b : Bool)
  | number (text : GoString)
  | string (s : GoString)
  | array (items : List JSONValue)
  | object (fields : List (GoString × JSONValue))

/-- The fields of a decoded JSON object: a Go `map[string]interface{}`. -/
abbrev JSONObject := List (GoString × JSONValue)

/-- The map read `m[k]` with its presence flag. -/
def fieldOf : JSONObject → GoString → Option JSONValue
  | [], _ => none
  | (key, v) :: rest, k => if key = k then some v else fieldOf rest k

/-- Go `delete(m, k)`. -/
def deleteField (m : JSONObject) (k : GoString) : JSONObject :=
  m.filter fun kv => decide (kv.1 ≠ k)

/-- The state of the map `m` after the map stored under the key `k` has been
changed in place to `v`. -/
def replaceField (m : JSONObject) (k : GoString) (v : JSONValue) : JSONObject :=
  m.map fun kv => if kv.1 = k then (kv.1, v) else kv

/-- Go `unstructured.RemoveNestedField(obj, fields...)` with
`fields = parents ++ [last]`: walk down the maps named by `parents`, give up
when one of them is missing or is no map, and delete `last` from the map reached.
The result is the state of `obj` after the call. -/
def RemoveNestedField (obj : JSONObject) : List GoString → GoString → JSONObject
  | [], last => deleteField obj last
  | field :: rest, last =>
    match fieldOf obj field with
    | some (.object x) => replaceField obj field (.object (RemoveNestedField x rest last))
    | _ => obj

/-- The value at a path of field names below a JSON value; `none` when a field
of the path is missing or a value on the way is no object. -/
def valueAt : JSONValue → List GoString → Option JSONValue
  | v, [] => some v
  | .object fields, k :: rest =>
    match fieldOf fields k with
    | some v => valueAt v rest
    | none => none
  | _, _ :: _ => none

/-- The method `Unstructured` of `RecycledObject` in `recycle_item_types.go`.
`jsonUnmarshal` is the decoding `json.Unmarshal(obj.Raw, unstructuredObj)` of
the standard library and apimachinery; the result is paired with the receiver
as the call leaves it. -/
def RecycledObject.Unstructured (jsonUnmarshal : List Nat → Except Err JSONObject)
    (obj : RecycledObject) : Except Err JSONObject × RecycledObject :=
  match jsonUnmarshal obj.Raw with
  | .error err => (.error err, obj)
  | .ok unstructuredObj =>
    (.ok (RemoveNestedField unstructuredObj [ascii "metadata"] (ascii "resourceVersion")), obj)

/-- The decoded payload of the deployment `dev/nginx` at resource version 42. -/
def nginxPayload : JSONObject := [
  (ascii "apiVersion", .string (ascii "apps/v1")),
  (ascii "kind", .string (ascii "Deployment")),
  (ascii "metadata", .object [
    (ascii "name", .string (ascii "nginx")),
    (ascii "namespace", .string (ascii "dev")),
    (ascii "resourceVersion", .string (ascii "42"))]),
  (ascii "spec", .object [(ascii "replicas", .number (ascii "3"))])]

/-- A decoder that knows one payload: the 64 blanks of the examples decode to
`nginxPayload`, everything else is an error. -/
def demoUnmarshal (raw : List Nat) : Except Err JSONObject :=
  if raw = List.replicate 64 0x20 then .ok nginxPayload else .error (.other 2)

/-- The deployment `dev/nginx` of the group `apps`, as the handler records it. -/
def nginxInDev : RecycledObject :=
  ⟨ascii "apps", ascii "v1", ascii "Deployment", ascii "deployments", ascii "dev",
    ascii "nginx", List.replicate 64 0x20⟩

/-- A store in which the record's name is taken and stays taken: every Create
is answered with AlreadyExists. -/
def occupiedStore : ItemStore := ⟨fun _ _ => some .alreadyExists⟩

/-! ## `internal/webhook/cert.go` -/

/-- A Go `[]byte` that may be nil: `none` is the nil slice. -/
abbrev Bytes := Option (List Nat)

/-- Go `corev1.Secret`, its `Data` map; a key that is absent reads as nil. -/
structure Secret where
  Data : List (GoString × List Nat)
  deriving DecidableEq, Repr

/-- The map read `secret.Data[k]`. -/
def Secret.dataOf (secret : Secret) (k : GoString) : Bytes := secret.Data.lookup k

/-- Go `corev1.TLSCertKey`. -/
def TLSCertKey : GoString := ascii "tls.crt"

/-- Go `corev1.TLSPrivateKeyKey`. -/
def TLSPrivateKeyKey : GoString := ascii "tls.key"

/-- A request of `FetchWebhookCertAndKey` to the secret store. -/
inductive SecretCall where
  | get
  | create (secret : Secret)
  deriving DecidableEq, Repr

/-- The secret store as the process sees it: the answers to the Get and the
Create of the well-known secret, given the requests made before. -/
structure SecretStore where
  Get : List SecretCall → Except Err Secret
  Create : List SecretCall → Secret → Option Err

/-- The package variables `cert` and `key` of `cert.go`, and the requests made
to the secret store so far. -/
structure CertState where
  cert : Bytes
  key : Bytes
  calls : List SecretCall
  deriving DecidableEq, Repr

/-- How a call of `FetchWebhookCertAndKey` ends: it returns the two slices, or
`tlog.Fatalf` ends the process. -/
inductive Fetched where
  | returned (cert key : Bytes)
  | fatal
  deriving DecidableEq, Repr

/-- Function `FetchWebhookCertAndKey` of `cert.go`. `generate` is the result of
`certutil.GenerateSelfSignedCertKey` in this call. -/
def FetchWebhookCertAndKey (store : SecretStore) (generate : Except Err (List Nat × List Nat))
    (s : CertState) : Fetched × CertState :=
  if s.cert = none then
    match store.Get s.calls with
    | .error err =>
      let calls := s.calls ++ [.get]
      if IsNotFound err then
        match generate with
        | .error _ => (.fatal, ⟨s.cert, s.key, calls⟩)
        | .ok (cert, key) =>
          let secret : Secret := ⟨[(TLSCertKey, cert), (TLSPrivateKeyKey, key)]⟩
          match store.Create calls secret with
          | some err =>
            if !IsAlreadyExists err then (.fatal, ⟨some cert, some key, calls ++ [.create secret]⟩)
            else (.returned (some cert) (some key), ⟨some cert, some key, calls ++ [.create secret]⟩)
          | none =>
            (.returned (some cert) (some key), ⟨some cert, some key, calls ++ [.create secret]⟩)
      else (.fatal, ⟨s.cert, s.key, calls⟩)
    | .ok secret =>
      (.returned (secret.dataOf TLSCertKey) (secret.dataOf TLSPrivateKeyKey),
        ⟨secret.dataOf TLSCertKey, secret.dataOf TLSPrivateKeyKey, s.calls ++ [.get]⟩)
  else (.returned s.cert s.key, s)

/-- The state of a process that has not resolved the trust material yet. -/
def freshCertState : CertState := ⟨none, none, []⟩

/-- A secret store whose well-known secret exists and holds a key but no
certificate. -/
def keyOnlyStore : SecretStore where
  Get := fun _ => .ok ⟨[(TLSPrivateKeyKey, [1, 2, 3])]⟩
  Create := fun _ _ => some .alreadyExists

/-- A secret store without the well-known secret, in which the Create loses the
race: the Get reports NotFound and the Create AlreadyExists. -/
def racedStore : SecretStore where
  Get := fun _ => .error .notFound
  Create := fun _ _ => some .alreadyExists

/-! ## The restore paths: `cmd/krb-cli/cmd/restore.go` and `cmd/krb-server/main.go` -/

/-- The method `GroupVersionResource` of `RecycledObject`. -/
def RecycledObject.GroupVersionResource (obj : RecycledObject) : GroupVersionResource :=
  ⟨obj.Group, obj.Version, obj.Resource⟩

/-- A call of a restore path to the cluster: the Get and the Delete of a
RecycleItem, and the Create of the restored object through the dynamic client
`Resource(gvr).Namespace(ns)`. -/
inductive RestoreCall where
  | getItem (name : GoString)
  | createObject (gvr : GroupVersionResource) (ns : GoString) (object : JSONObject)
  | deleteItem (name : GoString)

/-- The cluster as a restore path sees it: the answer to each call, given the
calls made before it (`none` is success). -/
structure RestoreCluster where
  getItem : List RestoreCall → GoString → Except Err RecycleItem
  createObject : List RestoreCall → GroupVersionResource → GoString → JSONObject → Option Err
  deleteItem : List RestoreCall → GoString → Option Err

/-- The body of the loop of `runRestore` for one argument: the calls it makes,
given the calls made before it. -/
def restoreItem (jsonUnmarshal : List Nat → Except Err JSONObject) (k : RestoreCluster)
    (before : List RestoreCall) (recycleItemName : GoString) : List RestoreCall :=
  match k.getItem before recycleItemName with
  | .error _ => [.getItem recycleItemName]
  | .ok recycleItem =>
    match (recycleItem.Object.Unstructured jsonUnmarshal).1 with
    | .error _ => [.getItem recycleItemName]
    | .ok unstructuredObj =>
      match k.createObject (before ++ [.getItem recycleItemName])
          recycleItem.Object.GroupVersionResource recycleItem.Object.Namespace unstructuredObj with
      | some _ =>
        [.getItem recycleItemName,
          .createObject recycleItem.Object.GroupVersionResource recycleItem.Object.Namespace
            unstructuredObj]
      | none =>
        [.getItem recycleItemName,
          .createObject recycleItem.Object.GroupVersionResource recycleItem.Object.Namespace
            unstructuredObj,
          .deleteItem recycleItemName]

/-- The loop of `runRestore` over its arguments: the calls made, after `calls`. -/
def runRestoreLoop (jsonUnmarshal : List Nat → Except Err JSONObject) (k : RestoreCluster) :
    List RestoreCall → List GoString → List RestoreCall
  | calls, [] => calls
  | calls, recycleItemName :: rest =>
    runRestoreLoop jsonUnmarshal k (calls ++ restoreItem jsonUnmarshal k calls recycleItemName) rest

/-- Function `runRestore` of `restore.go`: the calls made; `none` is the exit of
`tlog.Panicf` on an empty argument list. -/
def runRestore (jsonUnmarshal : List Nat → Except Err JSONObject) (k : RestoreCluster)
    (args : List GoString) : Option (List RestoreCall) :=
  if args.length = 0 then none else some (runRestoreLoop jsonUnmarshal k [] args)

/-- Function `handleRestore` of `krb-server/main.go`: the HTTP status it writes
and the calls it makes, given the calls made before it. -/
def handleRestore (jsonUnmarshal : List Nat → Except Err JSONObject) (k : RestoreCluster)
    (before : List RestoreCall) (name : GoString) : Nat × List RestoreCall :=
  match k.getItem before name with
  | .error _ => (404, [.getItem name])
  | .ok item =>
    match (item.Object.Unstructured jsonUnmarshal).1 with
    | .error _ => (500, [.getItem name])
    | .ok unstructuredObj =>
      match k.createObject (before ++ [.getItem name]) item.Object.GroupVersionResource
          item.Object.Namespace unstructuredObj with
      | some _ =>
        (500, [.getItem name,
          .createObject item.Object.GroupVersionResource item.Object.Namespace unstructuredObj])
      | none =>
        (200, [.getItem name,
          .createObject item.Object.GroupVersionResource item.Object.Namespace unstructuredObj,
          .deleteItem name])

/-- The three steps before the Delete all succeed for the record `name`: the
Get, the decoding of its payload, and the Create of the decoded object at the
record's stored group, version, resource and namespace. -/
def restoreSucceeds (jsonUnmarshal : List Nat → Except Err JSONObject) (k : RestoreCluster)
    (before : List RestoreCall) (name : GoString) : Prop :=
  ∃ item object, k.getItem before name = .ok item
    ∧ (item.Object.Unstructured jsonUnmarshal).1 = .ok object
    ∧ k.createObject (before ++ [.getItem name]) item.Object.GroupVersionResource
        item.Object.Namespace object = none

/-! ## `cmd/krb-cli/cmd/recycle.go` -/

/-- Type `RecyclePolicy` as `NewRecyclePolicy` builds it: the policy with the
labels of its object meta. -/
structure RecyclePolicyObject where
  policy : RecyclePolicy
  Labels : Labels
  deriving DecidableEq, Repr

/-- Function `NewRecyclePolicy` of `recycle_policy_types.go`. `suffix` is the
value of `rand.String(8)` in this call. -/
def NewRecyclePolicy (gvr : GroupVersionResource) (targetNamespaces : List GoString)
    (suffix : GoString) : RecyclePolicyObject :=
  let targetNamespaces := targetNamespaces.filter fun ns => ns != ascii ""
  { policy :=
      { Name := ascii "recycle-" ++ gvr.Resource ++ ascii "-" ++ suffix
        Group := gvr.Group
        Resource := gvr.Resource
        Namespaces := targetNamespaces }
    Labels := targetNamespaces.foldl
      (fun labels ns => setLabel labels (ascii "krb.wcrum.dev/target-namespace-" ++ ns) (ascii "true"))
      [(ascii "krb.wcrum.dev/target-gr", gvr.GroupResource.String)] }

/-- The RecyclePolicy store as `runRecycle` sees it: the answer to a Create,
given the Create calls made before it. -/
structure PolicyStore where
  Create : List RecyclePolicyObject → RecyclePolicyObject → Option Err

/-- A run of `runRecycle`: the Create calls made with their answers, the number
of arguments the loop has taken up, and whether `tlog.Panicf` ended the process. -/
structure RecycleRun where
  creates : List (RecyclePolicyObject × Option Err)
  visited : Nat
  exited : Bool
  deriving DecidableEq, Repr

/-- The loop of `runRecycle`. `targetNamespaces` and `suffix` give the value of
the flag and of `rand.String(8)` in the call of `NewRecyclePolicy` that follows
the given number of earlier calls. `tlog.Panicf` calls `os.Exit(1)`, so the
`continue` after it is not reached. -/
def runRecycleLoop (d : Discovery) (store : PolicyStore) (targetNamespaces : Nat → List GoString)
    (suffix : Nat → GoString) :
    List (RecyclePolicyObject × Option Err) → Nat → List GoString → RecycleRun
  | creates, visited, [] => ⟨creates, visited, false⟩
  | creates, visited, resource :: rest =>
    match GetPreferredGroupVersionResourceFor d resource with
    | .error _ => runRecycleLoop d store targetNamespaces suffix creates (visited + 1) rest
    | .ok gvr =>
      let recycleItem :=
        NewRecyclePolicy gvr (targetNamespaces creates.length) (suffix creates.length)
      match store.Create (creates.map Prod.fst) recycleItem with
      | some err => ⟨creates ++ [(recycleItem, some err)], visited + 1, true⟩
      | none =>
        runRecycleLoop d store targetNamespaces suffix (creates ++ [(recycleItem, none)])
          (visited + 1) rest

/-- Function `runRecycle` of `recycle.go`. -/
def runRecycle (d : Discovery) (store : PolicyStore) (targetNamespaces : Nat → List GoString)
    (suffix : Nat → GoString) (args : List GoString) : RecycleRun :=
  if args.length = 0 then ⟨[], 0, true⟩
  else runRecycleLoop d store targetNamespaces suffix [] 0 args

/-- A cluster that holds the record `nginx-bcdfghjk` of the deployment
`dev/nginx` and accepts every Create and Delete. -/
def restorableCluster : RestoreCluster where
  getItem := fun _ name =>
    if name = ascii "nginx-bcdfghjk" then
      .ok ⟨ascii "krb.wcrum.dev/v1", ascii "RecycleItem", name, [], nginxInDev⟩
    else .error .notFound
  createObject := fun _ _ _ _ => none
  deleteItem := fun _ _ => none

/-- A policy store that refuses every Create with the error code 403. -/
def refusingPolicyStore : PolicyStore := ⟨fun _ _ => some (.other 403)⟩

/-- A lower-case ASCII letter or a digit. -/
def isLowerAlnum (b : Nat) : Bool :=
  (0x61 ≤ b && b ≤ 0x7A) || (0x30 ≤ b && b ≤ 0x39)

/-! ## Strings: indexing, slicing and the collapsing loops -/

theorem byteAt_zero (b : Nat) (s : GoString) : byteAt (b :: s) 0 = .ok b := rfl

theorem byteAt_last (s : GoString) (h : s ≠ []) :
    byteAt s (s.length - 1) = .ok (s.getLastD 0) := by
  obtain ⟨t, b, rfl⟩ : ∃ t b, s = t ++ [b] := ⟨s.dropLast, s.getLast h, (List.dropLast_append_getLast h).symm⟩
  simp [byteAt, List.get?_eq_getElem?, List.getLastD_eq_getLast?]

theorem sliceTo_ok (s : GoString) (n : Nat) (h : n ≤ s.length) : sliceTo s n = .ok (s.take n) := by
  simp [sliceTo, h]

theorem padEnds_ne_nil (s : GoString) (h : s ≠ []) : padEnds s ≠ [] := by
  unfold padEnds
  cases s with
  | nil => exact absurd rfl h
  | cons b t => simp only []; split <;> split <;> simp [ascii]

theorem padAndTruncate_nil (limit : Nat) : padAndTruncate limit [] = .ok (ascii "unnamed") := rfl

/-- The closed form of `padAndTruncate` on a non-empty string: no index of the
Go code is out of range. -/
theorem padAndTruncate_eq (limit : Nat) (hl : 0 < limit) (s : GoString) (h : s ≠ []) :
    padAndTruncate limit s = .ok (truncateFix limit (padEnds s)) := by
  obtain ⟨b, t, rfl⟩ : ∃ b t, s = b :: t := List.exists_cons_of_ne_nil h
  have h1 : (if notAlnum b then ascii "x" ++ b :: t else b :: t) ≠ [] := by
    split <;> simp [ascii]
  have h2 : padEnds (b :: t) ≠ [] := padEnds_ne_nil _ h
  have key : padEnds (b :: t) =
      if notAlnum ((if notAlnum b then ascii "x" ++ b :: t else b :: t).getLastD 0) then
        (if notAlnum b then ascii "x" ++ b :: t else b :: t) ++ ascii "x"
      else (if notAlnum b then ascii "x" ++ b :: t else b :: t) := by
    simp [padEnds]
  unfold padAndTruncate
  simp only [h, if_false, byteAt_zero, bind, Except.bind, pure, Except.pure, byteAt_last _ h1]
  rw [key] at h2 ⊢
  generalize (if notAlnum b then ascii "x" ++ b :: t else b :: t) = r1 at h1 h2 ⊢
  generalize (if notAlnum (r1.getLastD 0) then r1 ++ ascii "x" else r1) = r2 at h2 ⊢
  unfold truncateFix
  by_cases hlen : r2.length > limit
  · have htake : (r2.take limit) ≠ [] := by
      intro hnil
      have := congrArg List.length hnil
      rw [List.length_take, List.length_nil] at this
      omega
    have hle : (r2.take limit).length - 1 ≤ (r2.take limit).length := Nat.sub_le _ _
    simp only [hlen, if_true, sliceTo_ok r2 limit (Nat.le_of_lt hlen), byteAt_last _ htake]
    split
    · simp only [sliceTo_ok _ _ hle, List.dropLast_eq_take]
    · rfl
  · simp [hlen]

theorem truncateFix_length_le (limit : Nat) (hl : 0 < limit) (s : GoString) :
    (truncateFix limit s).length ≤ limit := by
  unfold truncateFix
  by_cases hlen : s.length > limit
  · simp only [hlen, if_true]
    split
    · have e : (ascii "x").length = 1 := rfl
      rw [List.length_append, List.length_dropLast, List.length_take, e]
      omega
    · rw [List.length_take]; omega
  · simp only [hlen, if_false]; omega

theorem truncateFix_ne_nil (limit : Nat) (hl : 0 < limit) (s : GoString) (h : s ≠ []) :
    truncateFix limit s ≠ [] := by
  unfold truncateFix
  split
  · split
    · simp [ascii]
    · intro hnil
      have := congrArg List.length hnil
      rw [List.length_take, List.length_nil] at this
      omega
  · exact h

/-- Totality: `padAndTruncate` always returns: a non-empty string of at most `limit` bytes. -/
theorem padAndTruncate_total (limit : Nat) (hl : 7 ≤ limit) (s : GoString) :
    ∃ out, padAndTruncate limit s = .ok out ∧ out ≠ [] ∧ out.length ≤ limit := by
  by_cases h : s = []
  · subst h
    exact ⟨ascii "unnamed", rfl, by decide, by simpa [ascii] using hl⟩
  · exact ⟨_, padAndTruncate_eq limit (by omega) s h,
      truncateFix_ne_nil limit (by omega) _ (padEnds_ne_nil s h),
      truncateFix_length_le limit (by omega) _⟩

theorem replaceAll2_length_le (a b c : Nat) (s : GoString) :
    (replaceAll2 a b [c] s).length ≤ s.length := by
  induction s using replaceAll2.induct a b [c] with
  | case1 x y rest hxy ih => rw [replaceAll2, if_pos hxy]; simp; omega
  | case2 x y rest hxy ih => rw [replaceAll2, if_neg hxy]; simp at ih ⊢; omega
  | case3 s hs => rw [replaceAll2.eq_2 _ _ _ _ hs]

theorem replaceAll2_length_lt (a b c : Nat) (s : GoString) (h : contains2 a b s = true) :
    (replaceAll2 a b [c] s).length < s.length := by
  induction s using replaceAll2.induct a b [c] with
  | case1 x y rest hxy ih =>
    rw [replaceAll2, if_pos hxy]
    have := replaceAll2_length_le a b c rest
    simp; omega
  | case2 x y rest hxy ih =>
    rw [replaceAll2, if_neg hxy]
    rw [contains2] at h
    have hne : (x == a && y == b) = false := by
      simpa using hxy
    rw [hne, Bool.false_or] at h
    have := ih h
    simp at this ⊢; omega
  | case3 s hs =>
    exfalso
    match s, hs with
    | [], _ => simp [contains2] at h
    | [x], _ => simp [contains2] at h
    | x :: y :: rest, hs => exact hs x y rest rfl

/-- The collapsing loop terminates within its fuel: it returns a string that no
longer contains the pattern and is no longer than its input. -/
theorem replaceWhileContains_total (a b c : Nat) (fuel : Nat) (s : GoString)
    (h : s.length < fuel) :
    ∃ out, replaceWhileContains a b [c] fuel s = .ok out ∧ contains2 a b out = false
      ∧ out.length ≤ s.length := by
  induction fuel generalizing s with
  | zero => omega
  | succ n ih =>
    rw [replaceWhileContains]
    by_cases hc : contains2 a b s = true
    · rw [if_pos hc]
      have hlt := replaceAll2_length_lt a b c s hc
      obtain ⟨out, h1, h2, h3⟩ := ih (replaceAll2 a b [c] s) (by omega)
      exact ⟨out, h1, h2, by omega⟩
    · rw [if_neg hc]
      exact ⟨s, rfl, by simpa using hc, le_refl _⟩

/-- The separator collapsing of `sanitizeResourceName` always returns. -/
theorem collapseName_total (s : GoString) : ∃ out, collapseName s = .ok out := by
  unfold collapseName
  obtain ⟨o1, h1, -, -⟩ := replaceWhileContains_total 0x2D 0x2D 0x2D
    ((replaceAll2 0x2E 0x2E (ascii ".") s).length + 1) (replaceAll2 0x2E 0x2E (ascii ".") s) (by omega)
  obtain ⟨o2, h2, -, -⟩ := replaceWhileContains_total 0x2D 0x2E 0x2D (o1.length + 1) o1 (by omega)
  obtain ⟨o3, h3, -, -⟩ := replaceWhileContains_total 0x2E 0x2D 0x2D (o2.length + 1) o2 (by omega)
  refine ⟨o3, ?_⟩
  have e : ascii "-" = [0x2D] := rfl
  simp only [e, bind, Except.bind, h1, h2, h3]

/-- Totality: `sanitizeResourceName` always returns a non-empty string of at most 253 bytes. -/
theorem sanitizeResourceName_total (U : UnicodeTables) (name : GoString) :
    ∃ out, sanitizeResourceName U name = .ok out ∧ out ≠ [] ∧ out.length ≤ 253 := by
  unfold sanitizeResourceName
  by_cases h : name = []
  · exact ⟨ascii "unnamed", by simp [h], by decide, by decide⟩
  · obtain ⟨c, hc⟩ := collapseName_total (replaceInvalidName U (stringsToLower U name))
    obtain ⟨out, ho, h1, h2⟩ := padAndTruncate_total 253 (by omega) (stringsTrim (ascii "-.") c)
    exact ⟨out, by simp only [h, if_false, bind, Except.bind, hc, ho], h1, h2⟩

/-- Totality: `sanitizeLabelValue` always returns a non-empty string of at most 63 bytes. -/
theorem sanitizeLabelValue_total (U : UnicodeTables) (value : GoString) :
    ∃ out, sanitizeLabelValue U value = .ok out ∧ out ≠ [] ∧ out.length ≤ 63 := by
  unfold sanitizeLabelValue
  by_cases h : value = []
  · exact ⟨ascii "unnamed", by simp [h], by decide, by decide⟩
  · obtain ⟨c, hc, -, -⟩ := replaceWhileContains_total 0x2D 0x2D 0x2D
      ((replaceInvalidLabel U value).length + 1) (replaceInvalidLabel U value) (by omega)
    obtain ⟨out, ho, h1, h2⟩ := padAndTruncate_total 63 (by omega) (stringsTrim (ascii "-_.") c)
    have e : ascii "-" = [0x2D] := rfl
    exact ⟨out, by simp only [h, if_false, e, bind, Except.bind, hc, ho], h1, h2⟩

/-! ## The sanitizers on strings whose runes lie below U+0100 or are U+FFFD -/

theorem isLetter_latin1 (U V : UnicodeTables) (r : Nat) (h : r ≤ 0xFF ∨ r = RuneError) :
    isLetter U r = isLetter V r := by
  rcases h with h | h
  · simp [isLetter, h]
  · simp [isLetter, h, RuneError]

theorem isDigit_latin1 (U V : UnicodeTables) (r : Nat) (h : r ≤ 0xFF ∨ r = RuneError) :
    isDigit U r = isDigit V r := by
  rcases h with h | h
  · simp [isDigit, h]
  · simp [isDigit, h, RuneError]

theorem toLower_latin1 (U V : UnicodeTables) (r : Nat) (h : r ≤ 0xFF ∨ r = RuneError) :
    toLower U r = toLower V r := by
  rcases h with h | h
  · simp [toLower, h]
  · simp [toLower, h, RuneError]

theorem flatMap_congr_mem {α β : Type} (l : List α) (f g : α → List β)
    (h : ∀ a ∈ l, f a = g a) : l.flatMap f = l.flatMap g := by
  induction l with
  | nil => rfl
  | cons a t ih =>
    simp only [List.flatMap_cons]
    rw [h a (List.mem_cons_self a t), ih fun b hb => h b (List.mem_cons_of_mem a hb)]

theorem stringsToLower_latin1 (U V : UnicodeTables) (s : GoString) (h : latin1Runes s = true) :
    stringsToLower U s = stringsToLower V s := by
  unfold stringsToLower
  apply flatMap_congr_mem
  intro r hr
  have : r ≤ 0xFF ∨ r = RuneError := by simpa using (List.all_eq_true.mp h) r hr
  rw [toLower_latin1 U V r this]

theorem replaceInvalidName_latin1 (U V : UnicodeTables) (s : GoString)
    (h : latin1Runes s = true) : replaceInvalidName U s = replaceInvalidName V s := by
  unfold replaceInvalidName
  apply flatMap_congr_mem
  intro r hr
  have : r ≤ 0xFF ∨ r = RuneError := by simpa using (List.all_eq_true.mp h) r hr
  rw [isLetter_latin1 U V r this, isDigit_latin1 U V r this]

theorem replaceInvalidLabel_latin1 (U V : UnicodeTables) (s : GoString)
    (h : latin1Runes s = true) : replaceInvalidLabel U s = replaceInvalidLabel V s := by
  unfold replaceInvalidLabel
  apply flatMap_congr_mem
  intro r hr
  have : r ≤ 0xFF ∨ r = RuneError := by simpa using (List.all_eq_true.mp h) r hr
  rw [isLetter_latin1 U V r this, isDigit_latin1 U V r this]

/-- On a name whose runes, before and after lower-casing, lie below U+0100 or are U+FFFD,
`sanitizeResourceName` does not depend on the tables above Latin-1. -/
theorem sanitizeResourceName_latin1 (U : UnicodeTables) (name : GoString)
    (h1 : latin1Runes name = true) (h2 : latin1Runes (stringsToLower latin1Only name) = true) :
    sanitizeResourceName U name = sanitizeResourceName latin1Only name := by
  unfold sanitizeResourceName
  simp only [stringsToLower_latin1 U latin1Only name h1, replaceInvalidName_latin1 U latin1Only _ h2]

/-- On a value whose runes lie below U+0100 or are U+FFFD, `sanitizeLabelValue` does not
depend on the tables above Latin-1. -/
theorem sanitizeLabelValue_latin1 (U : UnicodeTables) (value : GoString)
    (h : latin1Runes value = true) :
    sanitizeLabelValue U value = sanitizeLabelValue latin1Only value := by
  unfold sanitizeLabelValue
  simp only [replaceInvalidLabel_latin1 U latin1Only value h]

/-- On an object whose name, group-resource string and namespace have all their
runes below U+0100 or equal to U+FFFD, `NewRecycleItem` does not depend on the tables above Latin-1. -/
theorem NewRecycleItem_latin1 (U : UnicodeTables) (suffix : GoString) (unixNow : Int)
    (obj : RecycledObject) (h1 : latin1Runes obj.Name = true)
    (h2 : latin1Runes (stringsToLower latin1Only obj.Name) = true)
    (h3 : latin1Runes obj.GroupResource.String = true) (h4 : latin1Runes obj.Namespace = true) :
    NewRecycleItem U suffix unixNow obj = NewRecycleItem latin1Only suffix unixNow obj := by
  unfold NewRecycleItem
  rw [sanitizeResourceName_latin1 U _ h1 h2, sanitizeLabelValue_latin1 U _ h1,
    sanitizeLabelValue_latin1 U _ h3, sanitizeLabelValue_latin1 U _ h4]

/-- The record that `NewRecycleItem` builds from the four sanitized strings. -/
theorem NewRecycleItem_eq (U : UnicodeTables) (suffix : GoString) (unixNow : Int)
    (obj : RecycledObject) (n ln lg lns : GoString)
    (hn : sanitizeResourceName U obj.Name = .ok n) (hln : sanitizeLabelValue U obj.Name = .ok ln)
    (hlg : sanitizeLabelValue U obj.GroupResource.String = .ok lg)
    (hlns : sanitizeLabelValue U obj.Namespace = .ok lns) :
    NewRecycleItem U suffix unixNow obj = .ok
      { APIVersion := apiGroupVersion.String
        Kind := RecycleItemKind
        Name := n ++ ascii "-" ++ suffix
        Labels :=
          if obj.Namespace ≠ [] then
            setLabel [(ascii "krb.wcrum.dev/object-name", ln), (ascii "krb.wcrum.dev/object-gr", lg),
              (ascii "krb.wcrum.dev/recycled-at", ascii (toString unixNow))]
              (ascii "krb.wcrum.dev/object-namespace") lns
          else [(ascii "krb.wcrum.dev/object-name", ln), (ascii "krb.wcrum.dev/object-gr", lg),
              (ascii "krb.wcrum.dev/recycled-at", ascii (toString unixNow))]
        Object := obj } := by
  unfold NewRecycleItem
  by_cases h : obj.Namespace = []
  · simp only [hn, hln, hlg, h, bind, Except.bind, pure, Except.pure, ne_eq,
      not_true_eq_false, if_false]
  · simp only [hn, hln, hlg, hlns, h, bind, Except.bind, pure, Except.pure, ne_eq,
      not_false_eq_true, if_true]

/-- Totality: `NewRecycleItem` always returns: no index of the sanitizers is out of range. -/
theorem NewRecycleItem_total (U : UnicodeTables) (suffix : GoString) (unixNow : Int)
    (obj : RecycledObject) : ∃ item, NewRecycleItem U suffix unixNow obj = .ok item := by
  obtain ⟨n, hn, -, -⟩ := sanitizeResourceName_total U obj.Name
  obtain ⟨ln, hln, -, -⟩ := sanitizeLabelValue_total U obj.Name
  obtain ⟨lg, hlg, -, -⟩ := sanitizeLabelValue_total U obj.GroupResource.String
  obtain ⟨lns, hlns, -, -⟩ := sanitizeLabelValue_total U obj.Namespace
  exact ⟨_, NewRecycleItem_eq U suffix unixNow obj n ln lg lns hn hln hlg hlns⟩

/-! ## The retry loop around the record creation -/

/-- The shape of the Create calls of the retry loop: the calls are appended to
those already made, there are at most `steps` of them, at least one when a step
is left, each submits the same record, and at most one is answered with success. -/
theorem retryCreate_trace (store : ItemStore) (item : RecycleItem) (steps : Nat)
    (last : Option Err) (done : List (RecycleItem × Option Err)) :
    ∃ new, (retryOnError IsAlreadyExists (createOnce store item) steps last done).2 = done ++ new
      ∧ new.length ≤ steps ∧ (0 < steps → new ≠ []) ∧ (∀ e ∈ new, e.1 = item)
      ∧ countCreated new ≤ 1 := by
  induction steps generalizing last done with
  | zero => exact ⟨[], by simp [retryOnError], by simp, by simp, by simp, by simp [countCreated]⟩
  | succ n ih =>
    rw [retryOnError]
    cases hans : store.Create (done.map Prod.fst) item with
    | none =>
      refine ⟨[(item, none)], by simp [createOnce, hans], by simp, by simp, by simp, ?_⟩
      simp [countCreated]
    | some err =>
      by_cases hr : IsAlreadyExists err = true
      · obtain ⟨new, h1, h2, -, h4, h5⟩ := ih (some err) (done ++ [(item, some err)])
        refine ⟨(item, some err) :: new, ?_, by simp; omega, by simp, ?_, ?_⟩
        · simp only [createOnce, hans, hr, if_true, h1, List.append_assoc, List.singleton_append]
        · intro e he
          rcases List.mem_cons.mp he with rfl | he
          · rfl
          · exact h4 e he
        · simpa [countCreated] using h5
      · refine ⟨[(item, some err)], ?_, by simp, by simp, by simp, by simp [countCreated]⟩
        simp only [createOnce, hans, hr]
        simp

/-- When the store answers the attempts before attempt `k` with AlreadyExists and
attempt `k` with success, and `k` is within the steps, the loop makes exactly
`k + 1` Create calls, the last of which succeeds, and returns nil. -/
theorem retryCreate_succeeds (store : ItemStore) (item : RecycleItem) (steps k : Nat)
    (last : Option Err) (done : List (RecycleItem × Option Err)) (hk : k < steps)
    (hdone : done.map Prod.fst = List.replicate done.length item)
    (hok : store.Create (List.replicate (done.length + k) item) item = none)
    (hprev : ∀ j, j < k →
      store.Create (List.replicate (done.length + j) item) item = some .alreadyExists) :
    retryOnError IsAlreadyExists (createOnce store item) steps last done =
      (none, done ++ List.replicate k (item, some .alreadyExists) ++ [(item, none)]) := by
  induction k generalizing steps last done with
  | zero =>
    obtain ⟨n, rfl⟩ : ∃ n, steps = n + 1 := ⟨steps - 1, by omega⟩
    rw [retryOnError]
    simp only [createOnce, hdone]
    simp only [Nat.add_zero] at hok
    simp [hok]
  | succ k ih =>
    obtain ⟨n, rfl⟩ : ∃ n, steps = n + 1 := ⟨steps - 1, by omega⟩
    rw [retryOnError]
    have h0 := hprev 0 (by omega)
    simp only [Nat.add_zero] at h0
    simp only [createOnce, hdone, h0, IsAlreadyExists, if_true]
    rw [ih n (some Err.alreadyExists) (done ++ [(item, some Err.alreadyExists)]) (by omega)]
    · simp [List.replicate_succ]
    · simp [hdone, List.replicate_succ']
    · simpa [Nat.add_assoc, Nat.add_comm 1 k] using hok
    · intro j hj
      simpa [Nat.add_assoc, Nat.add_comm 1 j] using hprev (j + 1) (by omega)

/-- The run of `recycleDeleteObjects` on a review that carries a request whose
type the lookup finds and whose payload is within the size limit. -/
theorem recycleDeleteObjects_recycles (U : UnicodeTables) (d : Discovery) (store : ItemStore)
    (suffix : GoString) (unixNow : Int) (apiVersion kind : GoString) (request : AdmissionRequest)
    (obj : RecycledObject) (hobj : buildRecycledObject d request = some obj)
    (hsize : obj.Raw.length ≤ maxResourceSize) :
    ∃ item, NewRecycleItem U suffix unixNow obj = .ok item ∧
      recycleDeleteObjects U d store suffix unixNow (some ⟨apiVersion, kind, some request⟩) =
        ⟨(retryOnError IsAlreadyExists (createOnce store item) DefaultRetrySteps none []).2,
          .review apiVersion kind request.UID true⟩ := by
  obtain ⟨item, hitem⟩ := NewRecycleItem_total U suffix unixNow obj
  refine ⟨item, hitem, ?_⟩
  have hs : ¬ obj.Raw.length > maxResourceSize := by omega
  simp only [recycleDeleteObjects, hobj, hs, if_false, hitem, response]

theorem buildRecycledObject_raw (d : Discovery) (request : AdmissionRequest) (obj : RecycledObject)
    (h : buildRecycledObject d request = some obj) : obj.Raw = request.OldObjectRaw := by
  unfold buildRecycledObject at h
  split at h
  · exact absurd h (by simp)
  · simp only [Option.some.injEq] at h
    rw [← h]

theorem buildRecycledObject_isSome (d : Discovery) (request : AdmissionRequest) (namespaced : Bool)
    (h : IsResourceNamespaced d request.Resource = .ok namespaced) :
    ∃ obj, buildRecycledObject d request = some obj := by
  unfold buildRecycledObject
  have e : (⟨request.Resource.Group, request.Resource.Version, request.Resource.Resource⟩ :
      GroupVersionResource) = request.Resource := rfl
  rw [e, h]
  exact ⟨_, rfl⟩


/-! ## The admission interceptor -/

/-- The reply of the handler to a review that carries a request. -/
theorem recycleDeleteObjects_reply (U : UnicodeTables) (d : Discovery) (store : ItemStore)
    (suffix : GoString) (unixNow : Int) (apiVersion kind : GoString) (request : AdmissionRequest) :
    (recycleDeleteObjects U d store suffix unixNow (some ⟨apiVersion, kind, some request⟩)).reply
      = .review apiVersion kind request.UID true := by
  cases hobj : buildRecycledObject d request with
  | none => simp only [recycleDeleteObjects, hobj, response]
  | some obj =>
    by_cases hs : obj.Raw.length > maxResourceSize
    · simp only [recycleDeleteObjects, hobj, hs, if_true, response]
    · obtain ⟨item, -, h⟩ := recycleDeleteObjects_recycles U d store suffix unixNow apiVersion kind
        request obj hobj (by omega)
      rw [h]

/-- C1: for every notification whose body decodes and carries a request, the
handler replies with the review's type meta, the request's UID and allowed =
true, whatever the discovery lookup, the payload size and the store answer. -/
theorem C1_reply_always_allowed (U : UnicodeTables) (d : Discovery) (store : ItemStore)
    (suffix : GoString) (unixNow : Int) (apiVersion kind : GoString) (request : AdmissionRequest) :
    (recycleDeleteObjects U d store suffix unixNow (some ⟨apiVersion, kind, some request⟩)).reply
      = .review apiVersion kind request.UID true :=
  recycleDeleteObjects_reply U d store suffix unixNow apiVersion kind request

/-- C2: when the namespaced-ness lookup finds the type, the handler makes a
Create call if and only if the payload has at most 5242880 bytes (so one of
exactly 5242880 bytes is recycled and one of 5242881 bytes is not), and the
reply is allowed = true in both cases. -/
theorem C2_create_iff_within_limit (U : UnicodeTables) (d : Discovery) (store : ItemStore)
    (suffix : GoString) (unixNow : Int) (apiVersion kind : GoString) (request : AdmissionRequest)
    (namespaced : Bool) (hfound : IsResourceNamespaced d request.Resource = .ok namespaced) :
    ((recycleDeleteObjects U d store suffix unixNow
        (some ⟨apiVersion, kind, some request⟩)).creates ≠ []
      ↔ request.OldObjectRaw.length ≤ 5242880)
    ∧ (recycleDeleteObjects U d store suffix unixNow
        (some ⟨apiVersion, kind, some request⟩)).reply = .review apiVersion kind request.UID true := by
  refine ⟨?_, recycleDeleteObjects_reply U d store suffix unixNow apiVersion kind request⟩
  obtain ⟨obj, hobj⟩ := buildRecycledObject_isSome d request namespaced hfound
  have hraw := buildRecycledObject_raw d request obj hobj
  have hmax : maxResourceSize = 5242880 := rfl
  by_cases hs : request.OldObjectRaw.length ≤ 5242880
  · obtain ⟨item, -, h⟩ := recycleDeleteObjects_recycles U d store suffix unixNow apiVersion kind
      request obj hobj (by rw [hraw, hmax]; exact hs)
    obtain ⟨new, h1, -, h3, -, -⟩ := retryCreate_trace store item DefaultRetrySteps none []
    rw [h]
    simp only [h1, List.nil_append, ne_eq, hs, iff_true]
    exact h3 (by decide)
  · have hgt : obj.Raw.length > maxResourceSize := by rw [hraw, hmax]; omega
    simp only [recycleDeleteObjects, hobj, hgt, if_true, ne_eq, not_true_eq_false, hs]

/-- C2 at the deletion of `dev/nginx` with a payload of 64 bytes. -/
theorem C2_create_iff_within_limit_witness :
    ((recycleDeleteObjects latin1Only demoDiscovery acceptingStore (ascii "bcdfghjk") 1700000000
        (some ⟨ascii "admission.k8s.io/v1", ascii "AdmissionReview",
          some (deleteNginx (ascii "dev"))⟩)).creates ≠ []
      ↔ (deleteNginx (ascii "dev")).OldObjectRaw.length ≤ 5242880)
    ∧ (recycleDeleteObjects latin1Only demoDiscovery acceptingStore (ascii "bcdfghjk") 1700000000
        (some ⟨ascii "admission.k8s.io/v1", ascii "AdmissionReview",
          some (deleteNginx (ascii "dev"))⟩)).reply
      = .review (ascii "admission.k8s.io/v1") (ascii "AdmissionReview")
          (deleteNginx (ascii "dev")).UID true :=
  C2_create_iff_within_limit latin1Only demoDiscovery acceptingStore (ascii "bcdfghjk") 1700000000
    (ascii "admission.k8s.io/v1") (ascii "AdmissionReview") (deleteNginx (ascii "dev")) true
    (by decide)

set_option maxRecDepth 100000

/-- The handler never gets more than one Create answered with success. -/
theorem recycleDeleteObjects_countCreated_le (U : UnicodeTables) (d : Discovery)
    (store : ItemStore) (suffix : GoString) (unixNow : Int) (parsed : Option AdmissionReview) :
    countCreated (recycleDeleteObjects U d store suffix unixNow parsed).creates ≤ 1 := by
  unfold recycleDeleteObjects
  split
  · simp [countCreated]
  · split
    · simp [countCreated]
    · split
      · simp [countCreated]
      · split
        · simp [countCreated]
        · split
          · simp [countCreated]
          · rename_i item _
            obtain ⟨new, h1, -, -, -, h5⟩ := retryCreate_trace store item DefaultRetrySteps none []
            simp only [h1, List.nil_append]
            exact h5

/-- C3, as the code has it: no run of the handler gets more than one Create
answered with success; and when the lookup finds the type, the payload has at
most 5242880 bytes, and the store answers attempt `k` (one of the 5) with success
and every earlier attempt with AlreadyExists, exactly one Create succeeds. -/
theorem C3_exactly_one_after_already_exists (U : UnicodeTables) (d : Discovery)
    (store : ItemStore) (suffix : GoString) (unixNow : Int) (apiVersion kind : GoString)
    (request : AdmissionRequest) :
    countCreated (recycleDeleteObjects U d store suffix unixNow
        (some ⟨apiVersion, kind, some request⟩)).creates ≤ 1
    ∧ ∀ (obj : RecycledObject) (item : RecycleItem) (k : Nat),
        buildRecycledObject d request = some obj →
        request.OldObjectRaw.length ≤ 5242880 →
        NewRecycleItem U suffix unixNow obj = .ok item →
        k < 5 →
        store.Create (List.replicate k item) item = none →
        (∀ j, j < k → store.Create (List.replicate j item) item = some .alreadyExists) →
        countCreated (recycleDeleteObjects U d store suffix unixNow
          (some ⟨apiVersion, kind, some request⟩)).creates = 1 := by
  refine ⟨recycleDeleteObjects_countCreated_le U d store suffix unixNow _, ?_⟩
  intro obj item k hobj hsize hitem hk hok hprev
  have hraw := buildRecycledObject_raw d request obj hobj
  have hmax : maxResourceSize = 5242880 := rfl
  obtain ⟨item', hitem', h⟩ := recycleDeleteObjects_recycles U d store suffix unixNow apiVersion
    kind request obj hobj (by rw [hraw, hmax]; exact hsize)
  rw [hitem] at hitem'
  cases hitem'
  rw [h, retryCreate_succeeds store item DefaultRetrySteps k none [] hk rfl
    (by simpa using hok) (by simpa using hprev)]
  simp [countCreated, List.filter_append, List.filter_replicate]

/-- C3 at the deletion of `dev/nginx` against a store that answers the first
Create with AlreadyExists and accepts the second. -/
theorem C3_exactly_one_after_already_exists_witness :
    countCreated (recycleDeleteObjects latin1Only demoDiscovery existsThenOk (ascii "bcdfghjk")
      1700000000 (some ⟨ascii "admission.k8s.io/v1", ascii "AdmissionReview",
        some (deleteNginx (ascii "dev"))⟩)).creates = 1 :=
  (C3_exactly_one_after_already_exists latin1Only demoDiscovery existsThenOk (ascii "bcdfghjk")
    1700000000 (ascii "admission.k8s.io/v1") (ascii "AdmissionReview")
    (deleteNginx (ascii "dev"))).2
    ⟨ascii "apps", ascii "v1", ascii "Deployment", ascii "deployments", ascii "dev",
      ascii "nginx", List.replicate 64 0x20⟩
    { APIVersion := ascii "krb.wcrum.dev/v1"
      Kind := ascii "RecycleItem"
      Name := ascii "nginx-bcdfghjk"
      Labels := [
        (ascii "krb.wcrum.dev/object-namespace", ascii "dev"),
        (ascii "krb.wcrum.dev/object-name", ascii "nginx"),
        (ascii "krb.wcrum.dev/object-gr", ascii "deployments.apps"),
        (ascii "krb.wcrum.dev/recycled-at", ascii "1700000000")]
      Object := ⟨ascii "apps", ascii "v1", ascii "Deployment", ascii "deployments", ascii "dev",
        ascii "nginx", List.replicate 64 0x20⟩ }
    1 (by decide) (by show (List.replicate 64 0x20).length ≤ _; rw [List.length_replicate]; omega) (by decide) (by decide) (by decide)
    (by intro j hj; obtain rfl : j = 0 := by omega
        decide)

/-- C3 fails as stated: against a store that answers the first Create with a
transient error and would accept the second, the handler makes one Create call
and none succeeds, for a payload of 64 bytes whose type the lookup finds. -/
theorem C3_counterexample :
    countCreated (recycleDeleteObjects latin1Only demoDiscovery transientThenOk (ascii "bcdfghjk")
      1700000000 (some (reviewNginx (ascii "dev")))).creates = 0
    ∧ (recycleDeleteObjects latin1Only demoDiscovery transientThenOk (ascii "bcdfghjk")
      1700000000 (some (reviewNginx (ascii "dev")))).creates.length = 1
    ∧ IsResourceNamespaced demoDiscovery (deleteNginx (ascii "dev")).Resource = .ok true
    ∧ (deleteNginx (ascii "dev")).OldObjectRaw.length ≤ 5242880
    ∧ (¬ ∃ item : RecycleItem, transientThenOk.Create [item] item ≠ none) := by
  refine ⟨by decide, by decide, by decide, by show (List.replicate 64 0x20).length ≤ _; rw [List.length_replicate]; omega, ?_⟩
  rintro ⟨item, h⟩
  exact h rfl

/-! ## The sanitizers -/

/-- C4 at `a...b` and `a-.-b`: `sanitizeResourceName` returns `a..b` and `a--b`,
and applied to these it returns `a.b` and `a-b`: it is not idempotent. -/
theorem C4_sanitizeResourceName_not_idempotent (U : UnicodeTables) :
    sanitizeResourceName U (ascii "a...b") = .ok (ascii "a..b")
    ∧ sanitizeResourceName U (ascii "a..b") = .ok (ascii "a.b")
    ∧ sanitizeResourceName U (ascii "a-.-b") = .ok (ascii "a--b")
    ∧ sanitizeResourceName U (ascii "a--b") = .ok (ascii "a-b") := by
  refine ⟨?_, ?_, ?_, ?_⟩ <;>
    (rw [sanitizeResourceName_latin1 U _ (by decide) (by decide)]; decide)

/-- C5 at 62 letters `a` followed by `é`: `sanitizeLabelValue` cuts the `é` in
half and returns the 62 letters followed by the byte C3, and applied to that it
returns the 62 letters alone: it is not idempotent. -/
theorem C5_sanitizeLabelValue_not_idempotent (U : UnicodeTables) :
    sanitizeLabelValue U name62e = .ok (List.replicate 62 0x61 ++ [0xC3])
    ∧ sanitizeLabelValue U (List.replicate 62 0x61 ++ [0xC3]) = .ok (List.replicate 62 0x61) := by
  refine ⟨?_, ?_⟩ <;>
    (rw [sanitizeLabelValue_latin1 U _ (by decide)]; decide)

/-- C6 at `é` (bytes C3 A9): both sanitizers return `éx`, whose first two bytes
are outside the grammar and whose first byte is no ASCII letter or digit. -/
theorem C6_non_ascii_letter_kept (U : UnicodeTables) :
    sanitizeResourceName U [0xC3, 0xA9] = .ok [0xC3, 0xA9, 0x78]
    ∧ sanitizeLabelValue U [0xC3, 0xA9] = .ok [0xC3, 0xA9, 0x78]
    ∧ [0xC3, 0xA9, 0x78].all isNameByte = false
    ∧ [0xC3, 0xA9, 0x78].all isLabelByte = false
    ∧ isAsciiAlnum ([0xC3, 0xA9, 0x78].headD 0) = false := by
  refine ⟨?_, ?_, by decide, by decide, by decide⟩
  · rw [sanitizeResourceName_latin1 U _ (by decide) (by decide)]; decide
  · rw [sanitizeLabelValue_latin1 U _ (by decide)]; decide

/-- C7: for every input string both sanitizers return (no index out of range,
no loop outliving its fuel) a non-empty string, of at most 253 bytes for
`sanitizeResourceName` and at most 63 bytes for `sanitizeLabelValue`. -/
theorem C7_sanitizers_total_and_bounded (U : UnicodeTables) (x : GoString) :
    (∃ out, sanitizeResourceName U x = .ok out ∧ out ≠ [] ∧ out.length ≤ 253)
    ∧ (∃ out, sanitizeLabelValue U x = .ok out ∧ out ≠ [] ∧ out.length ≤ 63) :=
  ⟨sanitizeResourceName_total U x, sanitizeLabelValue_total U x⟩

/-- C8 at a deployment whose name is 245 letters `a`: the record name that
`NewRecycleItem` builds is the 245 letters, `-` and the 8 characters of the
suffix, 254 bytes. -/
theorem C8_record_name_too_long (U : UnicodeTables) :
    (NewRecycleItem U (ascii "bcdfghjk") 1700000000 longNamed).map (fun item => item.Name)
      = .ok (List.replicate 245 0x61 ++ ascii "-bcdfghjk")
    ∧ (List.replicate 245 0x61 ++ ascii "-bcdfghjk").length = 254 := by
  refine ⟨?_, by decide⟩
  rw [NewRecycleItem_latin1 U _ _ _ (by decide) (by decide) (by decide) (by decide)]
  decide

/-- C9 at the deployment `team--a/nginx`: the record carries the label
`object-namespace = team-a`, the label set of `krb-cli get ri --object-namespace
team--a` asks for `team--a`, and the selector does not match the record. -/
theorem C9_namespace_label_collapsed (U : UnicodeTables) :
    (NewRecycleItem U (ascii "bcdfghjk") 1700000000 nginxInTeamA).map
        (fun item => labelOf item.Labels (ascii "krb.wcrum.dev/object-namespace"))
      = .ok (some (ascii "team-a"))
    ∧ listLabelSet ⟨[], ascii "team--a"⟩ (.error .notFound)
      = some [(ascii "krb.wcrum.dev/object-namespace", ascii "team--a")]
    ∧ (NewRecycleItem U (ascii "bcdfghjk") 1700000000 nginxInTeamA).map
        (fun item => selectorMatches
          [(ascii "krb.wcrum.dev/object-namespace", ascii "team--a")] item.Labels)
      = .ok false := by
  rw [NewRecycleItem_latin1 U _ _ _ (by decide) (by decide) (by decide) (by decide)]
  exact ⟨by decide, by decide, by decide⟩

/-! ## The policy reconciler -/

/-- The retry loop ends at once when the first call of the closure returns nil. -/
theorem retryOnError_first_nil {σ : Type} (retriable : Err → Bool) (fn : σ → Option Err × σ)
    (steps : Nat) (last : Option Err) (s s1 : σ) (h : fn s = (none, s1)) :
    retryOnError retriable fn (steps + 1) last s = (none, s1) := by
  rw [retryOnError, h]

/-- The closure of `tryBuildWebhook` returns nil when its Update fails and its
re-fetch succeeds. -/
theorem updateOnce_refetched (k : Cluster) (webhook latest : ValidatingWebhookConfiguration)
    (s : UpdateState) (err : Err)
    (hupdate : k.updateWebhook s.calls
      (webhook.SetResourceVersion s.currentWebhook.ResourceVersion) = some err)
    (hrefetch : k.getWebhook
      (s.calls ++ [.updateWebhook (webhook.SetResourceVersion s.currentWebhook.ResourceVersion)])
      webhook.Name = .ok latest) :
    updateOnce k webhook s = (none, ⟨latest, s.calls ++
      [.updateWebhook (webhook.SetResourceVersion s.currentWebhook.ResourceVersion)] ++
      [.getWebhook webhook.Name]⟩) := by
  have hname : (webhook.SetResourceVersion s.currentWebhook.ResourceVersion).Name = webhook.Name :=
    rfl
  simp only [updateOnce, hupdate, hname, hrefetch]

/-- C10, what the code does: when the registration exists, the first Update
fails (with a conflict or any other error) and the re-fetch succeeds, the
closure returns nil, so `tryBuildWebhook` returns nil after one Update and one
re-fetch, with no further Update. -/
theorem C10_conflict_ends_without_retry (c : Consts) (certBytes : List Nat) (k : Cluster)
    (calls : List Call) (recyclePolicy : RecyclePolicy)
    (currentWebhook latest : ValidatingWebhookConfiguration) (err : Err)
    (hlist : k.listPolicies calls = none)
    (hget : k.getWebhook (calls ++ [.listPolicies]) (webhookName c recyclePolicy.Name)
      = .ok currentWebhook)
    (hupdate : k.updateWebhook
      (calls ++ [.listPolicies] ++ [.getWebhook (webhookName c recyclePolicy.Name)])
      ((constructWebhookFromPolicy c certBytes recyclePolicy).SetResourceVersion
        currentWebhook.ResourceVersion) = some err)
    (hrefetch : k.getWebhook
      (calls ++ [.listPolicies] ++ [.getWebhook (webhookName c recyclePolicy.Name)] ++
        [.updateWebhook ((constructWebhookFromPolicy c certBytes recyclePolicy).SetResourceVersion
          currentWebhook.ResourceVersion)])
      (webhookName c recyclePolicy.Name) = .ok latest) :
    tryBuildWebhook c certBytes k calls recyclePolicy =
      (none, calls ++ [.listPolicies] ++ [.getWebhook (webhookName c recyclePolicy.Name)] ++
        [.updateWebhook ((constructWebhookFromPolicy c certBytes recyclePolicy).SetResourceVersion
          currentWebhook.ResourceVersion)] ++
        [.getWebhook (webhookName c recyclePolicy.Name)]) := by
  have hname : (constructWebhookFromPolicy c certBytes recyclePolicy).Name
      = webhookName c recyclePolicy.Name := rfl
  have hstep := updateOnce_refetched k (constructWebhookFromPolicy c certBytes recyclePolicy) latest
    ⟨currentWebhook, calls ++ [.listPolicies] ++ [.getWebhook (webhookName c recyclePolicy.Name)]⟩
    err hupdate hrefetch
  unfold tryBuildWebhook
  simp only [hlist, hname, hget]
  rw [show DefaultRetrySteps = 4 + 1 from rfl, retryOnError_first_nil _ _ _ _ _ _ hstep]
  rfl

/-- C10 on a cluster whose registration exists and where every Update
conflicts: `tryBuildWebhook` and `Reconcile` return nil after a single Update. -/
theorem C10_conflict_ends_without_retry_witness :
    tryBuildWebhook demoConsts [] conflictingCluster [.getPolicy (ascii "recycle-deployments")]
        demoPolicy =
      (none, [.getPolicy (ascii "recycle-deployments"), .listPolicies,
        .getWebhook (ascii "krb-webhook-recycle-deployments"),
        .updateWebhook ((constructWebhookFromPolicy demoConsts [] demoPolicy).SetResourceVersion
          (ascii "7")),
        .getWebhook (ascii "krb-webhook-recycle-deployments")])
    ∧ (Reconcile demoConsts [] conflictingCluster (ascii "recycle-deployments")).err = none
    ∧ countUpdates
        (Reconcile demoConsts [] conflictingCluster (ascii "recycle-deployments")).calls = 1 :=
  ⟨C10_conflict_ends_without_retry demoConsts [] conflictingCluster
      [.getPolicy (ascii "recycle-deployments")] demoPolicy
      ⟨ascii "krb-webhook-recycle-deployments", [], ascii "7", []⟩
      ⟨ascii "krb-webhook-recycle-deployments", [], ascii "7", []⟩ .conflict rfl rfl rfl rfl,
    by decide, by decide⟩

/-- C11 fails on the code: when the Get of the policy reports NotFound and the
Delete of the registration `webhookName(name)` reports NotFound too, `Reconcile`
returns that NotFound error together with a requeue after 10 seconds. -/
theorem C11_teardown_not_found_is_error (c : Consts) (certBytes : List Nat) (k : Cluster)
    (name : GoString) (hget : k.getPolicy [] name = .error .notFound)
    (hdelete : k.deleteWebhook [.getPolicy name] (webhookName c name) = some .notFound) :
    Reconcile c certBytes k name =
      ⟨⟨10⟩, some .notFound, [.getPolicy name, .deleteWebhook (webhookName c name)]⟩ := by
  simp only [Reconcile, hget, IsNotFound, if_true, tryReclaimWebhook, hdelete, List.singleton_append]

/-- C11 on the cluster in which neither the policy nor the registration exists. -/
theorem C11_teardown_not_found_is_error_witness :
    Reconcile demoConsts [] goneCluster (ascii "recycle-deployments") =
      ⟨⟨10⟩, some .notFound, [.getPolicy (ascii "recycle-deployments"),
        .deleteWebhook (webhookName demoConsts (ascii "recycle-deployments"))]⟩ :=
  C11_teardown_not_found_is_error demoConsts [] goneCluster (ascii "recycle-deployments") rfl rfl

/-- The calls of the update loop of `tryBuildWebhook`: as long as the loop runs,
every Update submits the recomputed registration with the resource version
fetched before the loop, and the only other calls are re-fetches. -/
theorem retryUpdate_trace (k : Cluster) (webhook : ValidatingWebhookConfiguration)
    (steps : Nat) (last : Option Err) (s : UpdateState) :
    ∃ rest, (retryOnError IsConflict (updateOnce k webhook) steps last s).2.calls = s.calls ++ rest
      ∧ (0 < steps → rest.head? =
          some (.updateWebhook (webhook.SetResourceVersion s.currentWebhook.ResourceVersion)))
      ∧ ∀ call ∈ rest,
          call = .updateWebhook (webhook.SetResourceVersion s.currentWebhook.ResourceVersion)
          ∨ call = .getWebhook webhook.Name := by
  induction steps generalizing last s with
  | zero => exact ⟨[], by simp [retryOnError], by simp, by simp⟩
  | succ n ih =>
    have hname : (webhook.SetResourceVersion s.currentWebhook.ResourceVersion).Name
        = webhook.Name := rfl
    rw [retryOnError]
    cases hupd : k.updateWebhook s.calls
        (webhook.SetResourceVersion s.currentWebhook.ResourceVersion) with
    | none =>
      refine ⟨[.updateWebhook (webhook.SetResourceVersion s.currentWebhook.ResourceVersion)],
        by simp [updateOnce, hupd], by simp, by simp⟩
    | some e =>
      cases hget : k.getWebhook (s.calls ++
          [.updateWebhook (webhook.SetResourceVersion s.currentWebhook.ResourceVersion)])
          webhook.Name with
      | ok latest =>
        refine ⟨[.updateWebhook (webhook.SetResourceVersion s.currentWebhook.ResourceVersion),
          .getWebhook webhook.Name], by simp [updateOnce, hupd, hname, hget], by simp, by simp⟩
      | error err =>
        by_cases hr : IsConflict err = true
        · obtain ⟨rest, h1, -, h3⟩ := ih (some err) ⟨s.currentWebhook, s.calls ++
            [.updateWebhook (webhook.SetResourceVersion s.currentWebhook.ResourceVersion)] ++
            [.getWebhook webhook.Name]⟩
          refine ⟨.updateWebhook (webhook.SetResourceVersion s.currentWebhook.ResourceVersion)
            :: .getWebhook webhook.Name :: rest, ?_, by simp, ?_⟩
          · simp only [updateOnce, hupd, hname, hget, hr, if_true, h1]
            simp
          · intro call hc
            rcases List.mem_cons.mp hc with rfl | hc
            · exact Or.inl rfl
            · rcases List.mem_cons.mp hc with rfl | hc
              · exact Or.inr rfl
              · exact h3 call hc
        · refine ⟨[.updateWebhook (webhook.SetResourceVersion s.currentWebhook.ResourceVersion),
            .getWebhook webhook.Name], ?_, by simp, by simp⟩
          simp only [updateOnce, hupd, hname, hget, hr]
          simp

/-- C12: once the listing of the policies has succeeded, `tryBuildWebhook`
fetches the registration `webhookName(policy.Name)` and acts on the result: on
NotFound it issues one Create of `constructWebhookFromPolicy(policy)` and no
Update, and returns the Create's result; on any other error it issues neither
and returns that error; on success every Update it issues (there is at least
one, right after the fetch) submits the recomputed registration with only its
resource version set to the fetched one, and it issues no Create. -/
theorem C12_tryBuildWebhook_acts_on_fetch (c : Consts) (certBytes : List Nat) (k : Cluster)
    (calls : List Call) (recyclePolicy : RecyclePolicy)
    (hlist : k.listPolicies calls = none) :
    (k.getWebhook (calls ++ [.listPolicies]) (webhookName c recyclePolicy.Name) = .error .notFound →
      tryBuildWebhook c certBytes k calls recyclePolicy =
        (k.createWebhook
            (calls ++ [.listPolicies] ++ [.getWebhook (webhookName c recyclePolicy.Name)])
            (constructWebhookFromPolicy c certBytes recyclePolicy),
          calls ++ [.listPolicies] ++ [.getWebhook (webhookName c recyclePolicy.Name)] ++
            [.createWebhook (constructWebhookFromPolicy c certBytes recyclePolicy)]))
    ∧ (∀ err, k.getWebhook (calls ++ [.listPolicies]) (webhookName c recyclePolicy.Name)
          = .error err → IsNotFound err = false →
        tryBuildWebhook c certBytes k calls recyclePolicy =
          (some err, calls ++ [.listPolicies] ++ [.getWebhook (webhookName c recyclePolicy.Name)]))
    ∧ (∀ currentWebhook,
        k.getWebhook (calls ++ [.listPolicies]) (webhookName c recyclePolicy.Name)
          = .ok currentWebhook →
        ∃ rest, (tryBuildWebhook c certBytes k calls recyclePolicy).2 =
            calls ++ [.listPolicies] ++ [.getWebhook (webhookName c recyclePolicy.Name)] ++
              [.updateWebhook ((constructWebhookFromPolicy c certBytes recyclePolicy).SetResourceVersion
                currentWebhook.ResourceVersion)] ++ rest
          ∧ ∀ call ∈ rest,
              call = .updateWebhook
                ((constructWebhookFromPolicy c certBytes recyclePolicy).SetResourceVersion
                  currentWebhook.ResourceVersion)
              ∨ call = .getWebhook (webhookName c recyclePolicy.Name)) := by
  have hname : (constructWebhookFromPolicy c certBytes recyclePolicy).Name
      = webhookName c recyclePolicy.Name := rfl
  refine ⟨?_, ?_, ?_⟩
  · intro hget
    unfold tryBuildWebhook
    simp only [hlist, hname, hget, IsNotFound, if_true]
    cases k.createWebhook
      (calls ++ [.listPolicies] ++ [.getWebhook (webhookName c recyclePolicy.Name)])
      (constructWebhookFromPolicy c certBytes recyclePolicy) <;> rfl
  · intro err hget hnf
    unfold tryBuildWebhook
    simp only [hlist, hname, hget, hnf]
    simp
  · intro currentWebhook hget
    obtain ⟨rest, h1, h2, h3⟩ := retryUpdate_trace k
      (constructWebhookFromPolicy c certBytes recyclePolicy) DefaultRetrySteps none
      ⟨currentWebhook, calls ++ [.listPolicies] ++ [.getWebhook (webhookName c recyclePolicy.Name)]⟩
    have h2' := h2 (by decide)
    cases rest with
    | nil => simp at h2'
    | cons first rest =>
      simp only [List.head?_cons, Option.some.injEq] at h2'
      subst h2'
      refine ⟨rest, ?_, fun call hc => ?_⟩
      · unfold tryBuildWebhook
        simp only [hlist, hname, hget, h1]
        simp
      · simpa [hname] using h3 call (List.mem_cons_of_mem _ hc)

/-- C12 on the cluster whose registration exists at resource version 7: the
first call after the fetch is the Update of the recomputed registration with
resource version 7. -/
theorem C12_tryBuildWebhook_acts_on_fetch_witness :
    ∃ rest, (tryBuildWebhook demoConsts [] conflictingCluster [] demoPolicy).2 =
        [] ++ [.listPolicies] ++ [.getWebhook (webhookName demoConsts demoPolicy.Name)] ++
          [.updateWebhook ((constructWebhookFromPolicy demoConsts [] demoPolicy).SetResourceVersion
            (ascii "7"))] ++ rest
      ∧ ∀ call ∈ rest,
          call = .updateWebhook
            ((constructWebhookFromPolicy demoConsts [] demoPolicy).SetResourceVersion (ascii "7"))
          ∨ call = .getWebhook (webhookName demoConsts demoPolicy.Name) :=
  (C12_tryBuildWebhook_acts_on_fetch demoConsts [] conflictingCluster [] demoPolicy rfl).2.2
    ⟨webhookName demoConsts demoPolicy.Name, [], ascii "7", []⟩ rfl

theorem targetsAllNamespaces_iff (recyclePolicy : RecyclePolicy) :
    (recyclePolicy.Namespaces.length = 0 ∨ recyclePolicy.Namespaces.contains (ascii "") = true
      ∨ recyclePolicy.Namespaces.contains (ascii "*") = true) ↔ targetsAllNamespaces recyclePolicy := by
  simp [targetsAllNamespaces, List.length_eq_zero]

theorem namespaceRequirement_all (recyclePolicy : RecyclePolicy)
    (h : targetsAllNamespaces recyclePolicy) :
    namespaceRequirement recyclePolicy =
      ⟨ascii "kubernetes.io/metadata.name", .LabelSelectorOpExists, []⟩ := by
  unfold namespaceRequirement
  rw [if_pos ((targetsAllNamespaces_iff recyclePolicy).mpr h)]

theorem namespaceRequirement_explicit (recyclePolicy : RecyclePolicy)
    (h : ¬ targetsAllNamespaces recyclePolicy) :
    namespaceRequirement recyclePolicy =
      ⟨ascii "kubernetes.io/metadata.name", .LabelSelectorOpIn, recyclePolicy.Namespaces⟩ := by
  unfold namespaceRequirement
  rw [if_neg (fun hc => h ((targetsAllNamespaces_iff recyclePolicy).mp hc))]

theorem targetsAllNamespaces_perm (p q : RecyclePolicy) (h : p.Namespaces.Perm q.Namespaces) :
    targetsAllNamespaces p ↔ targetsAllNamespaces q := by
  unfold targetsAllNamespaces
  rw [h.mem_iff, h.mem_iff]
  constructor
  · rintro (h0 | h1)
    · left
      rw [h0] at h
      exact h.symm.eq_nil
    · exact Or.inr h1
  · rintro (h0 | h1)
    · left
      rw [h0] at h
      exact h.eq_nil
    · exact Or.inr h1

/-- Policies whose namespace lists are permutations of each other compile to
namespace requirements that match the same label sets. -/
theorem namespaceRequirement_perm (p q : RecyclePolicy) (h : p.Namespaces.Perm q.Namespaces)
    (labels : Labels) :
    requirementMatches (namespaceRequirement p) labels
      = requirementMatches (namespaceRequirement q) labels := by
  by_cases hp : targetsAllNamespaces p
  · rw [namespaceRequirement_all p hp,
      namespaceRequirement_all q ((targetsAllNamespaces_perm p q h).mp hp)]
  · rw [namespaceRequirement_explicit p hp,
      namespaceRequirement_explicit q (fun hq => hp ((targetsAllNamespaces_perm p q h).mpr hq))]
    simp only [requirementMatches]
    cases labelOf labels (ascii "kubernetes.io/metadata.name") with
    | none => rfl
    | some v =>
      simp only []
      rw [Bool.eq_iff_iff]
      simp [h.mem_iff]

/-- C13: the registration of a policy has one webhook, whose namespace selector
is the single requirement on the key `kubernetes.io/metadata.name`; the
requirement is Exists without values exactly when the namespace list is empty or
contains the empty string or `*`, otherwise it is In with the namespace list as
its values; and policies whose namespace lists are permutations of each other
get selectors that match the same label sets. -/
theorem C13_namespace_selector (c : Consts) (certBytes : List Nat) (p : RecyclePolicy) :
    namespaceSelectors (constructWebhookFromPolicy c certBytes p)
      = [some ⟨[namespaceRequirement p]⟩]
    ∧ (namespaceRequirement p).Key = ascii "kubernetes.io/metadata.name"
    ∧ (((namespaceRequirement p).Operator = .LabelSelectorOpExists
        ∧ (namespaceRequirement p).Values = []) ↔ targetsAllNamespaces p)
    ∧ (¬ targetsAllNamespaces p → (namespaceRequirement p).Operator = .LabelSelectorOpIn
        ∧ (namespaceRequirement p).Values = p.Namespaces)
    ∧ (∀ q : RecyclePolicy, p.Namespaces.Perm q.Namespaces → ∀ labels : Labels,
        labelSelectorMatches ⟨[namespaceRequirement p]⟩ labels
          = labelSelectorMatches ⟨[namespaceRequirement q]⟩ labels) := by
  refine ⟨rfl, ?_, ?_, ?_, ?_⟩
  · by_cases hp : targetsAllNamespaces p
    · rw [namespaceRequirement_all p hp]
    · rw [namespaceRequirement_explicit p hp]
  · constructor
    · intro h
      by_contra hp
      rw [namespaceRequirement_explicit p hp] at h
      exact absurd h.1 (by simp)
    · intro hp
      rw [namespaceRequirement_all p hp]
      exact ⟨rfl, rfl⟩
  · intro hp
    rw [namespaceRequirement_explicit p hp]
    exact ⟨rfl, rfl⟩
  · intro q h labels
    simp only [labelSelectorMatches, List.all_cons, List.all_nil, Bool.and_true]
    exact namespaceRequirement_perm p q h labels

/-- C13 on explicit lists: `[dev, prod]` and `[prod, dev]` compile to the In
requirement over their lists and match the same namespaces. -/
theorem C13_namespace_selector_witness :
    ((namespaceRequirement ⟨ascii "p", ascii "apps", ascii "deployments",
        [ascii "dev", ascii "prod"]⟩).Operator = .LabelSelectorOpIn
      ∧ (namespaceRequirement ⟨ascii "p", ascii "apps", ascii "deployments",
        [ascii "dev", ascii "prod"]⟩).Values = [ascii "dev", ascii "prod"])
    ∧ labelSelectorMatches ⟨[namespaceRequirement ⟨ascii "p", ascii "apps", ascii "deployments",
        [ascii "dev", ascii "prod"]⟩]⟩ [(ascii "kubernetes.io/metadata.name", ascii "prod")]
      = labelSelectorMatches ⟨[namespaceRequirement ⟨ascii "q", ascii "apps", ascii "deployments",
        [ascii "prod", ascii "dev"]⟩]⟩ [(ascii "kubernetes.io/metadata.name", ascii "prod")] :=
  ⟨(C13_namespace_selector demoConsts [] ⟨ascii "p", ascii "apps", ascii "deployments",
      [ascii "dev", ascii "prod"]⟩).2.2.2.1 (by unfold targetsAllNamespaces; decide),
    (C13_namespace_selector demoConsts [] ⟨ascii "p", ascii "apps", ascii "deployments",
      [ascii "dev", ascii "prod"]⟩).2.2.2.2 ⟨ascii "q", ascii "apps", ascii "deployments",
      [ascii "prod", ascii "dev"]⟩ (List.Perm.swap _ _ _) _⟩

/-- C14: the registration of a policy has exactly one webhook with exactly one
rule; the rule's operations are `[DELETE]`, its API groups `[policy.Target.Group]`,
its API versions `[*]` and its resources `[policy.Target.Resource]`; the
webhook's failure policy is Fail, its timeout 5 seconds, its side-effect class None. -/
theorem C14_single_delete_rule (c : Consts) (certBytes : List Nat) (p : RecyclePolicy) :
    ∃ w rule, (constructWebhookFromPolicy c certBytes p).Webhooks = [w] ∧ w.Rules = [rule]
      ∧ rule.Operations = [.Delete] ∧ rule.APIGroups = [p.Group]
      ∧ rule.APIVersions = [ascii "*"] ∧ rule.Resources = [p.Resource]
      ∧ w.FailurePolicy = some .Fail ∧ w.TimeoutSeconds = some 5
      ∧ w.SideEffects = some .SideEffectClassNone :=
  ⟨_, _, rfl, rfl, rfl, rfl, rfl, rfl, rfl, rfl, rfl⟩

/-- C15: `webhookName` is one-to-one in the policy name, and the registration
that `constructWebhookFromPolicy` builds for a policy and the registration that
`tryReclaimWebhook` deletes for the policy's name both carry
`webhookName(policy name)`. -/
theorem C15_webhookName_injective (c : Consts) :
    (∀ p q : GoString, webhookName c p = webhookName c q → p = q)
    ∧ (∀ (certBytes : List Nat) (policy : RecyclePolicy),
        (constructWebhookFromPolicy c certBytes policy).Name = webhookName c policy.Name)
    ∧ (∀ (k : Cluster) (calls : List Call) (name : GoString),
        (tryReclaimWebhook c k calls name).2 = calls ++ [.deleteWebhook (webhookName c name)]) :=
  ⟨fun _ _ h => List.append_cancel_left h, fun _ _ => rfl, fun _ _ _ => rfl⟩

/-- C15 on two names: the policies `a` and `b` get different registration names. -/
theorem C15_webhookName_injective_witness :
    webhookName demoConsts (ascii "a") ≠ webhookName demoConsts (ascii "b") :=
  fun h => absurd ((C15_webhookName_injective demoConsts).1 (ascii "a") (ascii "b") h) (by decide)

/-! ## The resolver -/

theorem stringsCut_append (sep : Nat) (a b : GoString) (h : sep ∉ a) :
    stringsCut sep (a ++ sep :: b) = some (a, b) := by
  induction a with
  | nil => simp [stringsCut]
  | cons x t ih =>
    have hx : x ≠ sep := fun e => h (by simp [e])
    have ht : sep ∉ t := fun m => h (List.mem_cons_of_mem _ m)
    simp [stringsCut, hx, ih ht]

theorem stringsCut_none (sep : Nat) (a : GoString) (h : sep ∉ a) : stringsCut sep a = none := by
  induction a with
  | nil => rfl
  | cons x t ih =>
    have hx : x ≠ sep := fun e => h (by simp [e])
    have ht : sep ∉ t := fun m => h (List.mem_cons_of_mem _ m)
    simp [stringsCut, hx, ih ht]

/-- A cut succeeds when the separator occurs, and it takes one occurrence away. -/
theorem stringsCut_of_count (sep : Nat) (s : GoString) (h : 0 < stringsCount sep s) :
    ∃ a b, stringsCut sep s = some (a, b) ∧ stringsCount sep b + 1 = stringsCount sep s := by
  induction s with
  | nil => simp [stringsCount] at h
  | cons x t ih =>
    by_cases hx : x = sep
    · subst hx
      exact ⟨[], t, by simp [stringsCut], by simp [stringsCount]⟩
    · have ht : 0 < stringsCount sep t := by
        simpa [stringsCount, List.count_cons, hx] using h
      obtain ⟨a, b, h1, h2⟩ := ih ht
      refine ⟨x :: a, b, by simp [stringsCut, hx, h1], ?_⟩
      simpa [stringsCount, List.count_cons, hx] using h2

/-- The split of a string with two separators or more has three parts: the
indexing `s[0]`, `s[1]`, `s[2]` of `schema.ParseResourceArg` is in range. -/
theorem stringsSplitN3_of_count (sep : Nat) (s : GoString) (h : 2 ≤ stringsCount sep s) :
    ∃ s0 s1 s2, stringsSplitN3 sep s = [s0, s1, s2] := by
  obtain ⟨a, b, h1, h2⟩ := stringsCut_of_count sep s (by omega)
  obtain ⟨a', b', h3, -⟩ := stringsCut_of_count sep b (by omega)
  exact ⟨a, a', b', by simp [stringsSplitN3, h1, h3]⟩

/-- The parse of `resource.group` when neither part has a dot. -/
theorem ParseResourceArg_two (resource group : GoString) (hr : 0x2E ∉ resource)
    (hg : 0x2E ∉ group) :
    ParseResourceArg (resource ++ ascii "." ++ group) = (none, ⟨group, resource⟩) := by
  have e : resource ++ ascii "." ++ group = resource ++ 0x2E :: group := by simp [ascii]
  have hc : stringsCount 0x2E (resource ++ 0x2E :: group) = 1 := by
    simp [stringsCount, List.count_append, List.count_cons, List.count_eq_zero.mpr hr,
      List.count_eq_zero.mpr hg]
  rw [e]
  simp [ParseResourceArg, hc, ParseGroupResource, stringsCut_append _ _ _ hr]

/-- The parse of `resource.version.group` when resource and version have no dot. -/
theorem ParseResourceArg_three (resource version group : GoString) (hr : 0x2E ∉ resource)
    (hv : 0x2E ∉ version) :
    ParseResourceArg (resource ++ ascii "." ++ version ++ ascii "." ++ group) =
      (some ⟨group, version, resource⟩, ⟨version ++ ascii "." ++ group, resource⟩) := by
  have e : resource ++ ascii "." ++ version ++ ascii "." ++ group
      = resource ++ 0x2E :: (version ++ 0x2E :: group) := by simp [ascii]
  have e' : version ++ ascii "." ++ group = version ++ 0x2E :: group := by simp [ascii]
  have hc : 2 ≤ stringsCount 0x2E (resource ++ 0x2E :: (version ++ 0x2E :: group)) := by
    simp [stringsCount, List.count_append, List.count_cons]
    omega
  rw [e, e']
  simp [ParseResourceArg, hc, ParseGroupResource, stringsSplitN3, stringsCut_append _ _ _ hr,
    stringsCut_append _ _ _ hv]

theorem findResource_eq_find (resource : GoString) (l : List APIResource) :
    findResource resource l = l.find? (resourceMatches resource) := by
  induction l with
  | nil => rfl
  | cons res rest ih =>
    simp only [findResource, List.find?_cons]
    cases resourceMatches resource res <;> simp [ih]

/-- The loops of the code return the first matching candidate of the listing. -/
theorem scanResourceLists_eq_firstMatch (gr : GroupResource) (gvr : GroupVersionResource)
    (lists : List APIResourceList) :
    scanResourceLists gr gvr lists
      = firstMatch gr.Resource (candidates (excludedByPin gr gvr) lists) := by
  induction lists with
  | nil => rfl
  | cons l rest ih =>
    simp only [scanResourceLists, candidates, firstMatch, List.flatMap_cons] at ih ⊢
    cases hp : ParseGroupVersion l.GroupVersion with
    | error e => simpa using ih
    | ok gv =>
      by_cases hx : excludedByPin gr gvr gv = true
      · simpa [hx] using ih
      · simp only [hx, Bool.false_eq_true, if_false, List.find?_append, findResource_eq_find]
        rw [List.find?_map]
        cases hf : l.APIResources.find? ((fun cand : GroupVersion × APIResource =>
            resourceMatches gr.Resource cand.2) ∘ fun res => (gv, res)) with
        | none =>
          have hf' : l.APIResources.find? (resourceMatches gr.Resource) = none := hf
          simpa [hf'] using ih
        | some res =>
          have hf' : l.APIResources.find? (resourceMatches gr.Resource) = some res := hf
          simp [hf']

/-- Where a successful scan takes its result from: a list of the listing that
the pin does not exclude, whose group-version string parses to the result's
group and version, and an entry of that list that matches. -/
theorem scanResourceLists_some (gr : GroupResource) (gvr : GroupVersionResource)
    (lists : List APIResourceList) (found : GroupVersionResource)
    (h : scanResourceLists gr gvr lists = some found) :
    ∃ l ∈ lists, ParseGroupVersion l.GroupVersion = .ok ⟨found.Group, found.Version⟩
      ∧ excludedByPin gr gvr ⟨found.Group, found.Version⟩ = false
      ∧ ∃ res ∈ l.APIResources, resourceMatches gr.Resource res = true ∧ found.Resource = res.Name := by
  induction lists with
  | nil => simp [scanResourceLists] at h
  | cons l rest ih =>
    have hrest : scanResourceLists gr gvr rest = some found →
        ∃ l' ∈ l :: rest, ParseGroupVersion l'.GroupVersion = .ok ⟨found.Group, found.Version⟩
          ∧ excludedByPin gr gvr ⟨found.Group, found.Version⟩ = false
          ∧ ∃ res ∈ l'.APIResources, resourceMatches gr.Resource res = true
            ∧ found.Resource = res.Name := by
      intro h'
      obtain ⟨l', hl', rest'⟩ := ih h'
      exact ⟨l', List.mem_cons_of_mem _ hl', rest'⟩
    rw [scanResourceLists] at h
    cases hp : ParseGroupVersion l.GroupVersion with
    | error e => rw [hp] at h; exact hrest h
    | ok gv =>
      rw [hp] at h
      simp only [] at h
      by_cases hx : excludedByPin gr gvr gv = true
      · rw [if_pos hx] at h; exact hrest h
      · rw [if_neg hx] at h
        cases hf : findResource gr.Resource l.APIResources with
        | none => rw [hf] at h; exact hrest h
        | some res =>
          rw [hf] at h
          simp only [Option.some.injEq] at h
          subst h
          rw [findResource_eq_find] at hf
          exact ⟨l, List.mem_cons_self _ _, hp, by simpa using hx, res, List.mem_of_find?_eq_some hf,
            List.find?_some hf, rfl⟩

/-- The result of `GetPreferredGroupVersionResourceFor` in terms of the first
matching candidate. -/
theorem GetPreferredGroupVersionResourceFor_eq (d : Discovery) (resource : GoString) :
    GetPreferredGroupVersionResourceFor d resource =
      (match d.ServerPreferredResources with
       | .error err => .error err
       | .ok lists =>
         match firstMatch (ParseResourceArg resource).2.Resource
             (candidates (excludedByPin (ParseResourceArg resource).2
               (pinnedGroupVersionResource resource)) lists) with
         | some found => .ok found
         | none => .error resolutionError) := by
  unfold GetPreferredGroupVersionResourceFor
  cases d.ServerPreferredResources with
  | error err => rfl
  | ok lists => simp only [scanResourceLists_eq_firstMatch]

/-- Where a successful resolution takes its result from. -/
theorem GetPreferredGroupVersionResourceFor_ok (d : Discovery) (resource : GoString)
    (found : GroupVersionResource)
    (h : GetPreferredGroupVersionResourceFor d resource = .ok found) :
    ∃ lists, d.ServerPreferredResources = .ok lists ∧
      ∃ l ∈ lists, ParseGroupVersion l.GroupVersion = .ok ⟨found.Group, found.Version⟩
        ∧ excludedByPin (ParseResourceArg resource).2 (pinnedGroupVersionResource resource)
            ⟨found.Group, found.Version⟩ = false
        ∧ ∃ res ∈ l.APIResources,
            resourceMatches (ParseResourceArg resource).2.Resource res = true
            ∧ found.Resource = res.Name := by
  unfold GetPreferredGroupVersionResourceFor at h
  cases hd : d.ServerPreferredResources with
  | error err => rw [hd] at h; exact absurd h (by simp)
  | ok lists =>
    rw [hd] at h
    simp only [] at h
    cases hs : scanResourceLists (ParseResourceArg resource).2
        (pinnedGroupVersionResource resource) lists with
    | none => rw [hs] at h; exact absurd h (by simp)
    | some r =>
      rw [hs] at h
      simp only [Except.ok.injEq] at h
      subst h
      exact ⟨lists, rfl, scanResourceLists_some _ _ _ _ hs⟩

/-- C16, as the code has it: the result is the first matching candidate of the
listing, where the candidates are the entries of the resource lists in the
order returned (listed order within a list), leaving out the lists whose
group-version string does not parse and the lists excluded by the pinned group;
an entry matches when its plural name, singular name or a short name is the
resource part of the reference; the result is the list's group and version and
the entry's plural name; the call fails exactly when discovery fails or no
candidate matches; and `po` resolves to `pods` of the core group in a listing
that has it there. -/
theorem C16_first_match_in_listing_order (d : Discovery) (resource : GoString) :
    GetPreferredGroupVersionResourceFor d resource =
      (match d.ServerPreferredResources with
       | .error err => .error err
       | .ok lists =>
         match firstMatch (ParseResourceArg resource).2.Resource
             (candidates (excludedByPin (ParseResourceArg resource).2
               (pinnedGroupVersionResource resource)) lists) with
         | some found => .ok found
         | none => .error resolutionError)
    ∧ ((∃ err, GetPreferredGroupVersionResourceFor d resource = .error err) ↔
        ((∃ err, d.ServerPreferredResources = .error err)
          ∨ ∃ lists, d.ServerPreferredResources = .ok lists
              ∧ ∀ cand ∈ candidates (excludedByPin (ParseResourceArg resource).2
                    (pinnedGroupVersionResource resource)) lists,
                  resourceMatches (ParseResourceArg resource).2.Resource cand.2 = false))
    ∧ GetPreferredGroupVersionResourceFor preferredDiscovery (ascii "po")
        = .ok ⟨[], ascii "v1", ascii "pods"⟩ := by
  refine ⟨GetPreferredGroupVersionResourceFor_eq d resource, ?_, by decide⟩
  rw [GetPreferredGroupVersionResourceFor_eq]
  cases d.ServerPreferredResources with
  | error err => simp
  | ok lists =>
    simp only [firstMatch]
    cases hf : (candidates (excludedByPin (ParseResourceArg resource).2
        (pinnedGroupVersionResource resource)) lists).find?
        (fun cand => resourceMatches (ParseResourceArg resource).2.Resource cand.2) with
    | none =>
      have := List.find?_eq_none.mp hf
      simp only [Option.map_none']
      constructor
      · intro _
        exact Or.inr ⟨lists, rfl, fun cand hc => by simpa using this cand hc⟩
      · intro _
        exact ⟨resolutionError, rfl⟩
    | some cand =>
      simp only [Option.map_some']
      constructor
      · rintro ⟨err, h⟩
        exact absurd h (by simp)
      · rintro (⟨err, h⟩ | ⟨lists', h, hall⟩)
        · exact absurd h (by simp)
        · simp only [Except.ok.injEq] at h
          subst h
          have h1 := hall cand (List.mem_of_find?_eq_some hf)
          have h2 := List.find?_some hf
          simp only [h1] at h2
          exact absurd h2 (by simp)

/-- C16 fails as stated: the listing holds an entry `pods`, no group is pinned
by the reference `pods`, discovery succeeds, and the call fails, because the
group-version string `a/b/c` of the entry's list does not parse. -/
theorem C16_counterexample :
    GetPreferredGroupVersionResourceFor malformedDiscovery (ascii "pods") = .error resolutionError
    ∧ malformedDiscovery.ServerPreferredResources
        = .ok [⟨ascii "a/b/c", [⟨ascii "pods", ascii "pod", [ascii "po"], true, ascii "Pod"⟩]⟩]
    ∧ resourceMatches (ParseResourceArg (ascii "pods")).2.Resource
        ⟨ascii "pods", ascii "pod", [ascii "po"], true, ascii "Pod"⟩ = true
    ∧ (ParseResourceArg (ascii "pods")).2.Group = [] := by
  refine ⟨by decide, rfl, by decide, by decide⟩

/-- C17: for a reference `resource.group` with a non-empty group and no other
dot, a successful resolution returns the pinned group. -/
theorem C17_pinned_group_returned (d : Discovery) (resource group : GoString)
    (found : GroupVersionResource) (hr : 0x2E ∉ resource) (hg : 0x2E ∉ group) (hne : group ≠ [])
    (h : GetPreferredGroupVersionResourceFor d (resource ++ ascii "." ++ group) = .ok found) :
    found.Group = group := by
  obtain ⟨lists, -, l, -, -, hx, -⟩ := GetPreferredGroupVersionResourceFor_ok d _ found h
  have hp := ParseResourceArg_two resource group hr hg
  simp only [pinnedGroupVersionResource, hp, excludedByPin, decide_eq_false_iff_not] at hx
  by_contra hc
  exact hx ⟨hne, hc, hne, hc⟩

/-- C17 on `deployments.apps` against a listing in which `deployments` of the
group `extensions` comes first: the resolution succeeds with the group `apps`. -/
theorem C17_pinned_group_returned_witness :
    GetPreferredGroupVersionResourceFor preferredDiscovery (ascii "deployments" ++ ascii "." ++ ascii "apps")
        = .ok ⟨ascii "apps", ascii "v1", ascii "deployments"⟩
    ∧ (⟨ascii "apps", ascii "v1", ascii "deployments"⟩ : GroupVersionResource).Group = ascii "apps" :=
  ⟨by decide, C17_pinned_group_returned preferredDiscovery (ascii "deployments") (ascii "apps")
    ⟨ascii "apps", ascii "v1", ascii "deployments"⟩ (by decide) (by decide) (by decide) (by decide)⟩

/-- The group test of the resolver on a reference `resource.version.group`: a
list is skipped when its group is neither `version.group` nor `group`. -/
theorem excludedByPin_three (resource version group : GoString) (hr : 0x2E ∉ resource)
    (hv : 0x2E ∉ version) (hne : group ≠ []) (gv : GroupVersion) :
    excludedByPin (ParseResourceArg (resource ++ ascii "." ++ version ++ ascii "." ++ group)).2
        (pinnedGroupVersionResource (resource ++ ascii "." ++ version ++ ascii "." ++ group)) gv
      = decide (gv.Group ≠ version ++ ascii "." ++ group ∧ gv.Group ≠ group) := by
  have hp := ParseResourceArg_three resource version group hr hv
  have hd : version ++ ascii "." ++ group ≠ [] := by simp [ascii]
  simp only [pinnedGroupVersionResource, hp, excludedByPin]
  congr 1
  apply propext
  constructor
  · rintro ⟨-, h1, -, h2⟩
    exact ⟨h1, h2⟩
  · rintro ⟨h1, h2⟩
    exact ⟨hd, h1, hne, h2⟩

/-- C18, as the code has it: for a reference `resource.version.group` (resource
and version without a dot, group non-empty), a successful resolution returns
the pinned group or the dotted string `version.group` as its group; its result
is the first matching entry of the listing among the lists of those two groups,
so its version is the version of the listed group-version in which the match
was found and its resource the plural name of the matching entry; the pinned
version is not compared with the version of a list. -/
theorem C18_group_pin_only (d : Discovery) (resource version group : GoString)
    (found : GroupVersionResource) (hr : 0x2E ∉ resource) (hv : 0x2E ∉ version) (hne : group ≠ [])
    (h : GetPreferredGroupVersionResourceFor d
      (resource ++ ascii "." ++ version ++ ascii "." ++ group) = .ok found) :
    (found.Group = group ∨ found.Group = version ++ ascii "." ++ group)
    ∧ ∃ lists, d.ServerPreferredResources = .ok lists
        ∧ firstMatch resource
            (candidates (fun gv => decide (gv.Group ≠ version ++ ascii "." ++ group ∧ gv.Group ≠ group))
              lists) = some found
        ∧ ∃ l ∈ lists, ParseGroupVersion l.GroupVersion = .ok ⟨found.Group, found.Version⟩
            ∧ ∃ res ∈ l.APIResources, resourceMatches resource res = true
                ∧ found.Resource = res.Name := by
  obtain ⟨lists, hl, l, hmem, hparse, hx, res, hres, hmatch, hname⟩ :=
    GetPreferredGroupVersionResourceFor_ok d _ found h
  have hp := ParseResourceArg_three resource version group hr hv
  have hfun : excludedByPin
      (ParseResourceArg (resource ++ ascii "." ++ version ++ ascii "." ++ group)).2
      (pinnedGroupVersionResource (resource ++ ascii "." ++ version ++ ascii "." ++ group))
      = fun gv => decide (gv.Group ≠ version ++ ascii "." ++ group ∧ gv.Group ≠ group) :=
    funext fun gv => excludedByPin_three resource version group hr hv hne gv
  have hres' : (ParseResourceArg (resource ++ ascii "." ++ version ++ ascii "." ++ group)).2.Resource
      = resource := by rw [hp]
  rw [hfun] at hx
  rw [hres'] at hmatch
  refine ⟨?_, lists, hl, ?_, l, hmem, hparse, res, hres, hmatch, hname⟩
  · simp only [decide_eq_false_iff_not, not_and, not_not] at hx
    by_cases hc : found.Group = version ++ ascii "." ++ group
    · exact Or.inr hc
    · exact Or.inl (hx hc)
  · rw [GetPreferredGroupVersionResourceFor_eq, hl, hfun, hres'] at h
    simp only [] at h
    cases hf : firstMatch resource
        (candidates (fun gv => decide (gv.Group ≠ version ++ ascii "." ++ group ∧ gv.Group ≠ group))
          lists) with
    | none => rw [hf] at h; exact absurd h (by simp)
    | some r =>
      rw [hf] at h
      simp only [Except.ok.injEq] at h
      rw [h]

/-- C18 on `deployments.v1beta1.apps` against the listing with `apps/v1`. -/
theorem C18_group_pin_only_witness :
    ((⟨ascii "apps", ascii "v1", ascii "deployments"⟩ : GroupVersionResource).Group = ascii "apps"
      ∨ (⟨ascii "apps", ascii "v1", ascii "deployments"⟩ : GroupVersionResource).Group
          = ascii "v1beta1" ++ ascii "." ++ ascii "apps")
    ∧ ∃ lists, preferredDiscovery.ServerPreferredResources = .ok lists
        ∧ firstMatch (ascii "deployments")
            (candidates (fun gv => decide (gv.Group ≠ ascii "v1beta1" ++ ascii "." ++ ascii "apps"
              ∧ gv.Group ≠ ascii "apps")) lists)
            = some ⟨ascii "apps", ascii "v1", ascii "deployments"⟩
        ∧ ∃ l ∈ lists, ParseGroupVersion l.GroupVersion = .ok
            ⟨(⟨ascii "apps", ascii "v1", ascii "deployments"⟩ : GroupVersionResource).Group,
              (⟨ascii "apps", ascii "v1", ascii "deployments"⟩ : GroupVersionResource).Version⟩
            ∧ ∃ res ∈ l.APIResources, resourceMatches (ascii "deployments") res = true
                ∧ (⟨ascii "apps", ascii "v1", ascii "deployments"⟩ : GroupVersionResource).Resource
                    = res.Name :=
  C18_group_pin_only preferredDiscovery (ascii "deployments") (ascii "v1beta1") (ascii "apps")
    ⟨ascii "apps", ascii "v1", ascii "deployments"⟩ (by decide) (by decide) (by decide) (by decide)

/-- C18 fails as stated: the reference `deployments.v1beta1.apps` pins the
version `v1beta1`, and against a listing that has `apps/v1` the resolution
succeeds with the version `v1`. -/
theorem C18_counterexample :
    GetPreferredGroupVersionResourceFor preferredDiscovery (ascii "deployments.v1beta1.apps")
      = .ok ⟨ascii "apps", ascii "v1", ascii "deployments"⟩
    ∧ (ParseResourceArg (ascii "deployments.v1beta1.apps")).1
      = some ⟨ascii "apps", ascii "v1beta1", ascii "deployments"⟩
    ∧ ascii "v1" ≠ ascii "v1beta1" := by
  refine ⟨by decide, by decide, by decide⟩

theorem findNamespaced_eq_find (resource : GoString) (l : List APIResource) :
    findNamespaced resource l =
      match l.find? (fun res => decide (res.Name = resource)) with
      | some res => .ok res.Namespaced
      | none => .error resolutionError := by
  induction l with
  | nil => rfl
  | cons res rest ih =>
    simp only [findNamespaced, List.find?_cons]
    by_cases h : res.Name = resource
    · simp [h]
    · simp [h, ih]

/-- C19: `IsResourceNamespaced` asks discovery for the resource list of the
group-version of its argument; it returns the namespaced flag of the first
entry of that list whose plural name is the resource, the discovery error when
the lookup fails, and an error when no entry of the list has that plural name. -/
theorem C19_namespaced_flag_or_error (d : Discovery) (gvr : GroupVersionResource) :
    (∀ err, d.ServerResourcesForGroupVersion gvr.GroupVersion.String = .error err →
      IsResourceNamespaced d gvr = .error err)
    ∧ (∀ list res, d.ServerResourcesForGroupVersion gvr.GroupVersion.String = .ok list →
        list.APIResources.find? (fun res => decide (res.Name = gvr.Resource)) = some res →
        IsResourceNamespaced d gvr = .ok res.Namespaced)
    ∧ (∀ list, d.ServerResourcesForGroupVersion gvr.GroupVersion.String = .ok list →
        (∀ res ∈ list.APIResources, res.Name ≠ gvr.Resource) →
        IsResourceNamespaced d gvr = .error resolutionError) := by
  refine ⟨?_, ?_, ?_⟩
  · intro err h
    simp only [IsResourceNamespaced, h]
  · intro list res h hf
    simp only [IsResourceNamespaced, h, findNamespaced_eq_find, hf]
  · intro list h hall
    have hf : list.APIResources.find? (fun res => decide (res.Name = gvr.Resource)) = none := by
      rw [List.find?_eq_none]
      intro res hres
      simpa using hall res hres
    simp only [IsResourceNamespaced, h, findNamespaced_eq_find, hf]

/-- C19 on `deployments` of `apps/v1` (namespaced), and on `pods` of `apps/v1`,
which that list does not have. -/
theorem C19_namespaced_flag_or_error_witness :
    IsResourceNamespaced demoDiscovery ⟨ascii "apps", ascii "v1", ascii "deployments"⟩ = .ok true
    ∧ IsResourceNamespaced demoDiscovery ⟨ascii "apps", ascii "v1", ascii "pods"⟩
        = .error resolutionError :=
  ⟨(C19_namespaced_flag_or_error demoDiscovery ⟨ascii "apps", ascii "v1", ascii "deployments"⟩).2.1
      ⟨ascii "apps/v1",
        [⟨ascii "deployments", ascii "deployment", [ascii "deploy"], true, ascii "Deployment"⟩]⟩
      ⟨ascii "deployments", ascii "deployment", [ascii "deploy"], true, ascii "Deployment"⟩
      (by decide) (by decide),
    (C19_namespaced_flag_or_error demoDiscovery ⟨ascii "apps", ascii "v1", ascii "pods"⟩).2.2
      ⟨ascii "apps/v1",
        [⟨ascii "deployments", ascii "deployment", [ascii "deploy"], true, ascii "Deployment"⟩]⟩
      (by decide) (by decide)⟩

/-! ## Restoring the payload -/

theorem fieldOf_cons (key : GoString) (v : JSONValue) (rest : JSONObject) (k : GoString) :
    fieldOf ((key, v) :: rest) k = if key = k then some v else fieldOf rest k := rfl

theorem deleteField_cons (key : GoString) (v : JSONValue) (rest : JSONObject) (k : GoString) :
    deleteField ((key, v) :: rest) k =
      if key = k then deleteField rest k else (key, v) :: deleteField rest k := by
  by_cases h : key = k <;> simp [deleteField, h]

theorem replaceField_cons (key : GoString) (w : JSONValue) (rest : JSONObject) (k : GoString)
    (v : JSONValue) :
    replaceField ((key, w) :: rest) k v =
      (if key = k then (key, v) else (key, w)) :: replaceField rest k v := by
  simp only [replaceField, List.map_cons]

theorem fieldOf_deleteField_self (m : JSONObject) (k : GoString) :
    fieldOf (deleteField m k) k = none := by
  induction m with
  | nil => rfl
  | cons kv rest ih =>
    obtain ⟨key, v⟩ := kv
    rw [deleteField_cons]
    by_cases h : key = k
    · rw [if_pos h]; exact ih
    · rw [if_neg h, fieldOf_cons, if_neg h]; exact ih

theorem fieldOf_deleteField_ne (m : JSONObject) (k k' : GoString) (h : k' ≠ k) :
    fieldOf (deleteField m k) k' = fieldOf m k' := by
  induction m with
  | nil => rfl
  | cons kv rest ih =>
    obtain ⟨key, v⟩ := kv
    rw [deleteField_cons, fieldOf_cons]
    by_cases hk : key = k
    · have hk' : key ≠ k' := fun e => h (e ▸ hk)
      rw [if_pos hk, if_neg hk']; exact ih
    · rw [if_neg hk, fieldOf_cons]
      by_cases hk' : key = k'
      · rw [if_pos hk', if_pos hk']
      · rw [if_neg hk', if_neg hk']; exact ih

theorem fieldOf_replaceField_ne (m : JSONObject) (k k' : GoString) (v : JSONValue) (h : k' ≠ k) :
    fieldOf (replaceField m k v) k' = fieldOf m k' := by
  induction m with
  | nil => rfl
  | cons kv rest ih =>
    obtain ⟨key, w⟩ := kv
    rw [replaceField_cons, fieldOf_cons]
    by_cases hk : key = k
    · have hk' : key ≠ k' := fun e => h (e ▸ hk)
      rw [if_pos hk, fieldOf_cons, if_neg hk', if_neg hk']; exact ih
    · rw [if_neg hk, fieldOf_cons]
      by_cases hk' : key = k'
      · rw [if_pos hk', if_pos hk']
      · rw [if_neg hk', if_neg hk']; exact ih

theorem fieldOf_replaceField_self (m : JSONObject) (k : GoString) (v w : JSONValue)
    (h : fieldOf m k = some w) : fieldOf (replaceField m k v) k = some v := by
  induction m with
  | nil => exact absurd h (by simp [fieldOf])
  | cons kv rest ih =>
    obtain ⟨key, u⟩ := kv
    rw [replaceField_cons]
    rw [fieldOf_cons] at h
    by_cases hk : key = k
    · rw [if_pos hk, fieldOf_cons, if_pos hk]
    · rw [if_neg hk] at h
      rw [if_neg hk, fieldOf_cons, if_neg hk]; exact ih h

/-- What `RemoveNestedField` leaves of the top-level fields: a field other than
the first parent is untouched. -/
theorem fieldOf_RemoveNestedField_ne (obj : JSONObject) (field : GoString) (rest : List GoString)
    (last k : GoString) (h : k ≠ field) :
    fieldOf (RemoveNestedField obj (field :: rest) last) k = fieldOf obj k := by
  rw [RemoveNestedField]
  split
  · exact fieldOf_replaceField_ne _ _ _ _ h
  · rfl

/-- The run of `Unstructured` on a payload that decodes. -/
theorem Unstructured_eq (jsonUnmarshal : List Nat → Except Err JSONObject) (obj : RecycledObject)
    (payload : JSONObject) (h : jsonUnmarshal obj.Raw = .ok payload) :
    obj.Unstructured jsonUnmarshal =
      (.ok (RemoveNestedField payload [ascii "metadata"] (ascii "resourceVersion")), obj) := by
  simp only [RecycledObject.Unstructured, h]

/-- After the removal no value is left at `metadata.resourceVersion` or below it. -/
theorem valueAt_removed (payload : JSONObject) (rest : List GoString) :
    valueAt (.object (RemoveNestedField payload [ascii "metadata"] (ascii "resourceVersion")))
      (ascii "metadata" :: ascii "resourceVersion" :: rest) = none := by
  rw [RemoveNestedField]
  cases hm : fieldOf payload (ascii "metadata") with
  | none => simp [valueAt, hm]
  | some v =>
    cases v with
    | object x =>
      simp only [valueAt, fieldOf_replaceField_self payload _ _ _ hm, RemoveNestedField,
        fieldOf_deleteField_self]
    | null => simp [valueAt, hm]
    | bool b => simp [valueAt, hm]
    | number t => simp [valueAt, hm]
    | string s => simp [valueAt, hm]
    | array a => simp [valueAt, hm]

/-- The removal keeps every value at a path that leaves `metadata.resourceVersion`
aside: a path that starts with another top-level field, or with `metadata` and
another field of it. -/
theorem valueAt_kept (payload : JSONObject) (k : GoString) (rest : List GoString)
    (h : k ≠ ascii "metadata" ∨ ∃ k' rest', rest = k' :: rest' ∧ k' ≠ ascii "resourceVersion") :
    valueAt (.object (RemoveNestedField payload [ascii "metadata"] (ascii "resourceVersion")))
      (k :: rest) = valueAt (.object payload) (k :: rest) := by
  by_cases hk : k = ascii "metadata"
  · subst hk
    rcases h with h | ⟨k', rest', rfl, hk'⟩
    · exact absurd rfl h
    · rw [RemoveNestedField]
      cases hm : fieldOf payload (ascii "metadata") with
      | none => rfl
      | some v =>
        cases v with
        | object x =>
          simp only [valueAt, fieldOf_replaceField_self payload _ _ _ hm, RemoveNestedField, hm,
            fieldOf_deleteField_ne x _ _ hk']
        | null => rfl
        | bool b => rfl
        | number t => rfl
        | string s => rfl
        | array a => rfl
  · simp only [valueAt, fieldOf_RemoveNestedField_ne payload _ _ _ _ hk]

/-- The removal keeps `metadata` itself present when it was present. -/
theorem fieldOf_metadata_isSome (payload : JSONObject) :
    (fieldOf (RemoveNestedField payload [ascii "metadata"] (ascii "resourceVersion"))
        (ascii "metadata")).isSome = (fieldOf payload (ascii "metadata")).isSome := by
  rw [RemoveNestedField]
  cases hm : fieldOf payload (ascii "metadata") with
  | none => simp [hm]
  | some v =>
    cases v with
    | object x => simp [fieldOf_replaceField_self payload _ _ _ hm]
    | null => simp [hm]
    | bool b => simp [hm]
    | number t => simp [hm]
    | string s => simp [hm]
    | array a => simp [hm]

/-- C20: when the payload decodes to a JSON object, `Unstructured` returns the
decoded object in which nothing is left at `metadata.resourceVersion`, the
value at every path that leaves `metadata.resourceVersion` aside (another
top-level field such as `kind` or `apiVersion`, or another field of `metadata`
such as `name` or `namespace`) is the captured one, and `metadata` is present
if it was; the recycled object, its raw bytes included, is as before the call. -/
theorem C20_unstructured_strips_resourceVersion
    (jsonUnmarshal : List Nat → Except Err JSONObject) (obj : RecycledObject)
    (payload : JSONObject) (h : jsonUnmarshal obj.Raw = .ok payload) :
    ∃ result, obj.Unstructured jsonUnmarshal = (.ok result, obj)
      ∧ (∀ rest, valueAt (.object result)
          (ascii "metadata" :: ascii "resourceVersion" :: rest) = none)
      ∧ (∀ k rest, (k ≠ ascii "metadata"
            ∨ ∃ k' rest', rest = k' :: rest' ∧ k' ≠ ascii "resourceVersion") →
          valueAt (.object result) (k :: rest) = valueAt (.object payload) (k :: rest))
      ∧ (fieldOf result (ascii "metadata")).isSome = (fieldOf payload (ascii "metadata")).isSome
      ∧ (obj.Unstructured jsonUnmarshal).2.Raw = obj.Raw :=
  ⟨_, Unstructured_eq jsonUnmarshal obj payload h, valueAt_removed payload,
    valueAt_kept payload, fieldOf_metadata_isSome payload,
    by rw [Unstructured_eq jsonUnmarshal obj payload h]⟩

/-- C20 on the deployment `dev/nginx`, whose payload decodes to `nginxPayload`. -/
theorem C20_unstructured_strips_resourceVersion_witness :
    ∃ result, nginxInDev.Unstructured demoUnmarshal = (.ok result, nginxInDev)
      ∧ (∀ rest, valueAt (.object result)
          (ascii "metadata" :: ascii "resourceVersion" :: rest) = none)
      ∧ (∀ k rest, (k ≠ ascii "metadata"
            ∨ ∃ k' rest', rest = k' :: rest' ∧ k' ≠ ascii "resourceVersion") →
          valueAt (.object result) (k :: rest) = valueAt (.object nginxPayload) (k :: rest))
      ∧ (fieldOf result (ascii "metadata")).isSome
          = (fieldOf nginxPayload (ascii "metadata")).isSome
      ∧ (nginxInDev.Unstructured demoUnmarshal).2.Raw = nginxInDev.Raw :=
  C20_unstructured_strips_resourceVersion demoUnmarshal nginxInDev nginxPayload rfl

/-! ## The handler: missing request, retry bound, resubmitted record -/

/-- In the Create calls of the retry loop every call but the last was answered
with AlreadyExists. -/
theorem retryCreate_dropLast (store : ItemStore) (item : RecycleItem) (steps : Nat)
    (last : Option Err) (done : List (RecycleItem × Option Err)) :
    ∃ new, (retryOnError IsAlreadyExists (createOnce store item) steps last done).2 = done ++ new
      ∧ ∀ e ∈ new.dropLast, e.2 = some .alreadyExists := by
  induction steps generalizing last done with
  | zero => exact ⟨[], by simp [retryOnError], by simp⟩
  | succ n ih =>
    rw [retryOnError]
    cases hans : store.Create (done.map Prod.fst) item with
    | none => exact ⟨[(item, none)], by simp [createOnce, hans], by simp⟩
    | some err =>
      by_cases hr : IsAlreadyExists err = true
      · obtain ⟨new, h1, h2⟩ := ih (some err) (done ++ [(item, some err)])
        have herr : err = .alreadyExists := by
          cases err <;> simp [IsAlreadyExists] at hr ⊢
        refine ⟨(item, some err) :: new, ?_, ?_⟩
        · simp only [createOnce, hans, hr, if_true, h1, List.append_assoc, List.singleton_append]
        · intro e he
          cases new with
          | nil => simp at he
          | cons x t =>
            rw [List.dropLast_cons₂] at he
            rcases List.mem_cons.mp he with rfl | he
            · simp [herr]
            · exact h2 e he
      · refine ⟨[(item, some err)], ?_, by simp⟩
        simp only [createOnce, hans, hr]
        simp

/-- When the store answers every Create of the record with AlreadyExists, the
loop uses up its steps: one Create per step, each answered with AlreadyExists. -/
theorem retryCreate_exhausted (store : ItemStore) (item : RecycleItem) (steps : Nat)
    (last : Option Err) (done : List (RecycleItem × Option Err))
    (h : ∀ before, store.Create before item = some .alreadyExists) :
    (retryOnError IsAlreadyExists (createOnce store item) steps last done).2
      = done ++ List.replicate steps (item, some .alreadyExists) := by
  induction steps generalizing last done with
  | zero => simp [retryOnError]
  | succ n ih =>
    rw [retryOnError]
    simp only [createOnce, h, IsAlreadyExists, if_true]
    rw [ih]
    simp [List.replicate_succ]

/-- The Create calls of a run of the handler: none, or those of the retry loop
for the one record that `NewRecycleItem` built. -/
theorem recycleDeleteObjects_creates (U : UnicodeTables) (d : Discovery) (store : ItemStore)
    (suffix : GoString) (unixNow : Int) (parsed : Option AdmissionReview) :
    (recycleDeleteObjects U d store suffix unixNow parsed).creates = []
    ∨ ∃ item, (recycleDeleteObjects U d store suffix unixNow parsed).creates
        = (retryOnError IsAlreadyExists (createOnce store item) DefaultRetrySteps none []).2 := by
  unfold recycleDeleteObjects
  split
  · exact Or.inl rfl
  · split
    · exact Or.inl rfl
    · split
      · exact Or.inl rfl
      · split
        · exact Or.inl rfl
        · split
          · exact Or.inl rfl
          · rename_i item _
            exact Or.inr ⟨item, rfl⟩

/-- C23 fails on the code: on a body that decodes to a review without a request
the handler dereferences the missing request in `buildRecycledObject` and
panics: it makes no Create call and writes no reply. -/
theorem C23_missing_request_panics (U : UnicodeTables) (d : Discovery) (store : ItemStore)
    (suffix : GoString) (unixNow : Int) (apiVersion kind : GoString) :
    recycleDeleteObjects U d store suffix unixNow (some ⟨apiVersion, kind, none⟩)
      = ⟨[], .panicked⟩ := rfl

/-- C24 fails on the code: `sanitizeResourceName` returns `a..b` for `a...b` and
`a--b` for `a-.-b`, outputs that contain `..` and `--`. -/
theorem C24_adjacent_separators_left (U : UnicodeTables) :
    sanitizeResourceName U (ascii "a...b") = .ok (ascii "a..b")
    ∧ contains2 0x2E 0x2E (ascii "a..b") = true
    ∧ sanitizeResourceName U (ascii "a-.-b") = .ok (ascii "a--b")
    ∧ contains2 0x2D 0x2D (ascii "a--b") = true := by
  refine ⟨?_, by decide, ?_, by decide⟩ <;>
    (rw [sanitizeResourceName_latin1 U _ (by decide) (by decide)]; decide)

theorem labelOf_setLabel (labels : Labels) (k v : GoString) :
    labelOf (setLabel labels k v) k = some v := by
  simp [labelOf, setLabel, List.lookup]

/-- C25: the record name that `NewRecycleItem` builds is
`sanitizeResourceName(object name)` followed by `-` and the suffix, 9 bytes
longer than the sanitized name for a suffix of 8; for the object name `nginx`
it is `nginx-` followed by the suffix; and the record carries the label
`krb.wcrum.dev/object-namespace` exactly when the namespace is not empty. -/
theorem C25_record_name_and_namespace_label (U : UnicodeTables) (suffix : GoString)
    (unixNow : Int) (obj : RecycledObject) (hsuffix : suffix.length = 8) :
    ∃ sanitized item, sanitizeResourceName U obj.Name = .ok sanitized
      ∧ NewRecycleItem U suffix unixNow obj = .ok item
      ∧ item.Name = sanitized ++ ascii "-" ++ suffix
      ∧ item.Name.length = sanitized.length + 9
      ∧ (obj.Name = ascii "nginx" → item.Name = ascii "nginx-" ++ suffix ∧ item.Name.length = 14)
      ∧ ((labelOf item.Labels (ascii "krb.wcrum.dev/object-namespace")).isSome
          ↔ obj.Namespace ≠ []) := by
  obtain ⟨n, hn, -, -⟩ := sanitizeResourceName_total U obj.Name
  obtain ⟨ln, hln, -, -⟩ := sanitizeLabelValue_total U obj.Name
  obtain ⟨lg, hlg, -, -⟩ := sanitizeLabelValue_total U obj.GroupResource.String
  obtain ⟨lns, hlns, -, -⟩ := sanitizeLabelValue_total U obj.Namespace
  refine ⟨n, _, hn, NewRecycleItem_eq U suffix unixNow obj n ln lg lns hn hln hlg hlns, rfl, ?_,
    ?_, ?_⟩
  · simp [ascii, hsuffix]
  · intro hname
    have hnginx : sanitizeResourceName U (ascii "nginx") = .ok (ascii "nginx") := by
      rw [sanitizeResourceName_latin1 U _ (by decide) (by decide)]; decide
    rw [hname, hnginx] at hn
    simp only [Except.ok.injEq] at hn
    subst hn
    exact ⟨by simp [ascii], by simp [ascii, hsuffix]⟩
  · by_cases h : obj.Namespace = []
    · simp only [h, ne_eq, not_true_eq_false, if_false, iff_false, Bool.not_eq_true,
        Option.not_isSome, Option.isNone_iff_eq_none]
      simp [labelOf, List.lookup, ascii]
    · simp only [h, ne_eq, not_false_eq_true, if_true, iff_true, labelOf_setLabel, Option.isSome_some]

/-- C25 on the deployment `dev/nginx` with the suffix `bcdfghjk`. -/
theorem C25_record_name_and_namespace_label_witness :
    ∃ sanitized item, sanitizeResourceName latin1Only nginxInDev.Name = .ok sanitized
      ∧ NewRecycleItem latin1Only (ascii "bcdfghjk") 1700000000 nginxInDev = .ok item
      ∧ item.Name = sanitized ++ ascii "-" ++ ascii "bcdfghjk"
      ∧ item.Name.length = sanitized.length + 9
      ∧ (nginxInDev.Name = ascii "nginx" →
          item.Name = ascii "nginx-" ++ ascii "bcdfghjk" ∧ item.Name.length = 14)
      ∧ ((labelOf item.Labels (ascii "krb.wcrum.dev/object-namespace")).isSome
          ↔ nginxInDev.Namespace ≠ []) :=
  C25_record_name_and_namespace_label latin1Only (ascii "bcdfghjk") 1700000000 nginxInDev
    (by decide)

/-- C28: the handler makes at most 5 Create calls for a notification; every
call but the last was answered with AlreadyExists, so a call that succeeds or
fails with another error is the last one; and the reply is sent in every case. -/
theorem C28_bounded_retry (U : UnicodeTables) (d : Discovery) (store : ItemStore)
    (suffix : GoString) (unixNow : Int) (apiVersion kind : GoString) (request : AdmissionRequest) :
    (recycleDeleteObjects U d store suffix unixNow
        (some ⟨apiVersion, kind, some request⟩)).creates.length ≤ 5
    ∧ (∀ e ∈ (recycleDeleteObjects U d store suffix unixNow
          (some ⟨apiVersion, kind, some request⟩)).creates.dropLast, e.2 = some .alreadyExists)
    ∧ (recycleDeleteObjects U d store suffix unixNow
        (some ⟨apiVersion, kind, some request⟩)).reply = .review apiVersion kind request.UID true := by
  refine ⟨?_, ?_, recycleDeleteObjects_reply U d store suffix unixNow apiVersion kind request⟩
  · rcases recycleDeleteObjects_creates U d store suffix unixNow
      (some ⟨apiVersion, kind, some request⟩) with h | ⟨item, h⟩
    · simp [h]
    · obtain ⟨new, h1, h2, -, -, -⟩ := retryCreate_trace store item DefaultRetrySteps none []
      rw [h, h1]
      simpa [DefaultRetrySteps] using h2
  · rcases recycleDeleteObjects_creates U d store suffix unixNow
      (some ⟨apiVersion, kind, some request⟩) with h | ⟨item, h⟩
    · simp [h]
    · obtain ⟨new, h1, h2⟩ := retryCreate_dropLast store item DefaultRetrySteps none []
      rw [h, h1]
      simpa using h2

/-- C30: all Create calls of one run of the handler submit the same record, the
one that `NewRecycleItem` built before the loop; and when the store gives every
Create of that record the answer of the first, and that answer is
AlreadyExists, the handler makes 5 Create calls, all answered with
AlreadyExists, and none creates a record. -/
theorem C30_same_record_resubmitted (U : UnicodeTables) (d : Discovery) (store : ItemStore)
    (suffix : GoString) (unixNow : Int) (apiVersion kind : GoString) (request : AdmissionRequest) :
    (∀ e1 ∈ (recycleDeleteObjects U d store suffix unixNow
          (some ⟨apiVersion, kind, some request⟩)).creates,
      ∀ e2 ∈ (recycleDeleteObjects U d store suffix unixNow
          (some ⟨apiVersion, kind, some request⟩)).creates, e1.1 = e2.1)
    ∧ ∀ (obj : RecycledObject) (item : RecycleItem),
        buildRecycledObject d request = some obj →
        request.OldObjectRaw.length ≤ 5242880 →
        NewRecycleItem U suffix unixNow obj = .ok item →
        (∀ before, store.Create before item = store.Create [] item) →
        store.Create [] item = some .alreadyExists →
        (recycleDeleteObjects U d store suffix unixNow
            (some ⟨apiVersion, kind, some request⟩)).creates
          = List.replicate 5 (item, some .alreadyExists)
        ∧ countCreated (recycleDeleteObjects U d store suffix unixNow
            (some ⟨apiVersion, kind, some request⟩)).creates = 0 := by
  constructor
  · rcases recycleDeleteObjects_creates U d store suffix unixNow
      (some ⟨apiVersion, kind, some request⟩) with h | ⟨item, h⟩
    · simp [h]
    · obtain ⟨new, h1, -, -, h4, -⟩ := retryCreate_trace store item DefaultRetrySteps none []
      rw [h, h1]
      intro e1 he1 e2 he2
      rw [h4 e1 (by simpa using he1), h4 e2 (by simpa using he2)]
  · intro obj item hobj hsize hitem hsame hfirst
    have hraw := buildRecycledObject_raw d request obj hobj
    have hmax : maxResourceSize = 5242880 := rfl
    obtain ⟨item', hitem', h⟩ := recycleDeleteObjects_recycles U d store suffix unixNow apiVersion
      kind request obj hobj (by rw [hraw, hmax]; exact hsize)
    rw [hitem] at hitem'
    cases hitem'
    have hall : ∀ before, store.Create before item = some .alreadyExists := fun before => by
      rw [hsame before, hfirst]
    rw [h, retryCreate_exhausted store item DefaultRetrySteps none [] hall]
    refine ⟨by simp [DefaultRetrySteps], ?_⟩
    simp [countCreated, DefaultRetrySteps, List.filter_replicate]

/-- C30 on the deletion of `dev/nginx` against a store in which the record's
name stays taken. -/
theorem C30_same_record_resubmitted_witness :
    ∃ item, NewRecycleItem latin1Only (ascii "bcdfghjk") 1700000000 nginxInDev = .ok item
      ∧ (recycleDeleteObjects latin1Only demoDiscovery occupiedStore (ascii "bcdfghjk") 1700000000
          (some ⟨ascii "admission.k8s.io/v1", ascii "AdmissionReview",
            some (deleteNginx (ascii "dev"))⟩)).creates
        = List.replicate 5 (item, some .alreadyExists)
      ∧ countCreated (recycleDeleteObjects latin1Only demoDiscovery occupiedStore (ascii "bcdfghjk")
          1700000000 (some ⟨ascii "admission.k8s.io/v1", ascii "AdmissionReview",
            some (deleteNginx (ascii "dev"))⟩)).creates = 0 := by
  obtain ⟨item, hitem⟩ := NewRecycleItem_total latin1Only (ascii "bcdfghjk") 1700000000 nginxInDev
  exact ⟨item, hitem,
    (C30_same_record_resubmitted latin1Only demoDiscovery occupiedStore (ascii "bcdfghjk")
      1700000000 (ascii "admission.k8s.io/v1") (ascii "AdmissionReview")
      (deleteNginx (ascii "dev"))).2 nginxInDev item (by decide)
      (by show (List.replicate 64 0x20).length ≤ _; rw [List.length_replicate]; omega)
      hitem (fun _ => rfl) rfl⟩

/-! ## The trust material -/

/-- Once the variable `cert` is not nil, `FetchWebhookCertAndKey` returns the
cached pair and makes no request. -/
theorem FetchWebhookCertAndKey_cached (store : SecretStore)
    (generate : Except Err (List Nat × List Nat)) (s : CertState) (h : s.cert ≠ none) :
    FetchWebhookCertAndKey store generate s = (.returned s.cert s.key, s) := by
  simp only [FetchWebhookCertAndKey, h, if_false]

/-- What a call that returns leaves in the package variables: the pair it returned. -/
theorem FetchWebhookCertAndKey_returned (store : SecretStore)
    (generate : Except Err (List Nat × List Nat)) (s s1 : CertState) (cert key : Bytes)
    (h : FetchWebhookCertAndKey store generate s = (.returned cert key, s1)) :
    s1.cert = cert ∧ s1.key = key := by
  by_cases hc : s.cert = none
  · cases hget : store.Get s.calls with
    | ok secret =>
      simp only [FetchWebhookCertAndKey, hc, if_true, hget, Prod.mk.injEq,
        Fetched.returned.injEq] at h
      obtain ⟨⟨h1, h2⟩, h3⟩ := h
      subst h3
      exact ⟨h1, h2⟩
    | error err =>
      by_cases hnf : IsNotFound err = true
      · cases hg : generate with
        | error e => simp [FetchWebhookCertAndKey, hc, hget, hnf, hg] at h
        | ok p =>
          obtain ⟨c, k⟩ := p
          cases hcr : store.Create (s.calls ++ [.get])
              ⟨[(TLSCertKey, c), (TLSPrivateKeyKey, k)]⟩ with
          | none =>
            simp only [FetchWebhookCertAndKey, hc, if_true, hget, hnf, hg, hcr, Prod.mk.injEq,
              Fetched.returned.injEq] at h
            obtain ⟨⟨h1, h2⟩, h3⟩ := h
            subst h3
            exact ⟨h1, h2⟩
          | some e =>
            by_cases hae : IsAlreadyExists e = true
            · simp only [FetchWebhookCertAndKey, hc, if_true, hget, hnf, hg, hcr, hae,
                Bool.not_true, Bool.false_eq_true, if_false, Prod.mk.injEq,
                Fetched.returned.injEq] at h
              obtain ⟨⟨h1, h2⟩, h3⟩ := h
              subst h3
              exact ⟨h1, h2⟩
            · simp [FetchWebhookCertAndKey, hc, hget, hnf, hg, hcr, hae] at h
      · simp [FetchWebhookCertAndKey, hc, hget, hnf] at h
  · simp only [FetchWebhookCertAndKey, hc, if_false, Prod.mk.injEq,
      Fetched.returned.injEq] at h
    obtain ⟨⟨h1, h2⟩, h3⟩ := h
    subst h3
    exact ⟨h1, h2⟩

/-- C26, as the code has it: once a call of `FetchWebhookCertAndKey` has returned
a certificate that is not nil, every later call, whatever the secret store and
the generator would answer, returns the same certificate and key and makes no
request to the secret store. -/
theorem C26_cached_when_cert_not_nil (store store' : SecretStore)
    (generate generate' : Except Err (List Nat × List Nat)) (s s1 : CertState)
    (cert : List Nat) (key : Bytes)
    (h : FetchWebhookCertAndKey store generate s = (.returned (some cert) key, s1)) :
    FetchWebhookCertAndKey store' generate' s1 = (.returned (some cert) key, s1) := by
  obtain ⟨h1, h2⟩ := FetchWebhookCertAndKey_returned store generate s s1 (some cert) key h
  have := FetchWebhookCertAndKey_cached store' generate' s1 (by rw [h1]; simp)
  rw [h1, h2] at this
  exact this

/-- C26 on a store without the secret, where the first call generates the pair
and loses the Create race: the second call returns the same pair with no request. -/
theorem C26_cached_when_cert_not_nil_witness :
    FetchWebhookCertAndKey keyOnlyStore (.error (.other 3))
        ⟨some [7], some [8], [.get, .create ⟨[(TLSCertKey, [7]), (TLSPrivateKeyKey, [8])]⟩]⟩
      = (.returned (some [7]) (some [8]),
        ⟨some [7], some [8], [.get, .create ⟨[(TLSCertKey, [7]), (TLSPrivateKeyKey, [8])]⟩]⟩) :=
  C26_cached_when_cert_not_nil racedStore keyOnlyStore (.ok ([7], [8])) (.error (.other 3))
    freshCertState _ [7] (some [8]) (by decide)

/-- C26 fails as stated: the well-known secret exists and holds no `tls.crt`;
the first call reads it and returns a nil certificate, and the second call asks
the secret store again. -/
theorem C26_counterexample :
    FetchWebhookCertAndKey keyOnlyStore (.ok ([7], [8])) freshCertState
      = (.returned none (some [1, 2, 3]), ⟨none, some [1, 2, 3], [.get]⟩)
    ∧ FetchWebhookCertAndKey keyOnlyStore (.ok ([7], [8])) ⟨none, some [1, 2, 3], [.get]⟩
      = (.returned none (some [1, 2, 3]), ⟨none, some [1, 2, 3], [.get, .get]⟩) := by
  refine ⟨by decide, by decide⟩

/-- C27: on first resolution (the variable `cert` is nil) a successful lookup
returns the secret's `tls.crt` and `tls.key` after the one Get, with no Create;
a lookup that reports NotFound makes the call generate a pair, try to create
the secret with it, and return that pair both when the Create succeeds and
when it reports AlreadyExists; any other lookup error, a generation error, and
any other Create error end the process. -/
theorem C27_first_resolution (store : SecretStore) (generate : Except Err (List Nat × List Nat))
    (s : CertState) (hfirst : s.cert = none) :
    (∀ secret, store.Get s.calls = .ok secret →
      FetchWebhookCertAndKey store generate s =
        (.returned (secret.dataOf TLSCertKey) (secret.dataOf TLSPrivateKeyKey),
          ⟨secret.dataOf TLSCertKey, secret.dataOf TLSPrivateKeyKey, s.calls ++ [.get]⟩))
    ∧ (∀ err, store.Get s.calls = .error err → IsNotFound err = false →
        (FetchWebhookCertAndKey store generate s).1 = .fatal)
    ∧ (∀ err, store.Get s.calls = .error .notFound → generate = .error err →
        FetchWebhookCertAndKey store generate s = (.fatal, ⟨s.cert, s.key, s.calls ++ [.get]⟩))
    ∧ (∀ cert key, store.Get s.calls = .error .notFound → generate = .ok (cert, key) →
        (store.Create (s.calls ++ [.get]) ⟨[(TLSCertKey, cert), (TLSPrivateKeyKey, key)]⟩ = none
          ∨ store.Create (s.calls ++ [.get]) ⟨[(TLSCertKey, cert), (TLSPrivateKeyKey, key)]⟩
              = some .alreadyExists) →
        FetchWebhookCertAndKey store generate s =
          (.returned (some cert) (some key), ⟨some cert, some key,
            s.calls ++ [.get] ++ [.create ⟨[(TLSCertKey, cert), (TLSPrivateKeyKey, key)]⟩]⟩))
    ∧ (∀ cert key err, store.Get s.calls = .error .notFound → generate = .ok (cert, key) →
        store.Create (s.calls ++ [.get]) ⟨[(TLSCertKey, cert), (TLSPrivateKeyKey, key)]⟩
          = some err → IsAlreadyExists err = false →
        (FetchWebhookCertAndKey store generate s).1 = .fatal) := by
  refine ⟨?_, ?_, ?_, ?_, ?_⟩
  · intro secret h
    simp only [FetchWebhookCertAndKey, hfirst, if_true, h]
  · intro err h hnf
    simp only [FetchWebhookCertAndKey, hfirst, if_true, h, hnf]
    simp
  · intro err h hg
    simp only [FetchWebhookCertAndKey, hfirst, if_true, h, hg, IsNotFound]
  · intro cert key h hg hc
    rcases hc with hc | hc
    · simp only [FetchWebhookCertAndKey, hfirst, if_true, h, hg, IsNotFound, hc]
    · simp only [FetchWebhookCertAndKey, hfirst, if_true, h, hg, IsNotFound, hc, IsAlreadyExists]
      simp
  · intro cert key err h hg hc hae
    simp only [FetchWebhookCertAndKey, hfirst, if_true, h, hg, IsNotFound, hc, hae]
    simp

/-- C27 on a store without the secret, where the Create loses the race. -/
theorem C27_first_resolution_witness :
    FetchWebhookCertAndKey racedStore (.ok ([7], [8])) freshCertState =
      (.returned (some [7]) (some [8]), ⟨some [7], some [8],
        freshCertState.calls ++ [.get] ++
          [.create ⟨[(TLSCertKey, [7]), (TLSPrivateKeyKey, [8])]⟩]⟩) :=
  (C27_first_resolution racedStore (.ok ([7], [8])) freshCertState rfl).2.2.2.1 [7] [8] rfl rfl
    (Or.inr rfl)

/-! ## Restore and policy management -/

/-- The calls of one restore, in both paths, by the outcome of its steps. -/
theorem restoreItem_cases (jsonUnmarshal : List Nat → Except Err JSONObject) (k : RestoreCluster)
    (before : List RestoreCall) (name : GoString) :
    (restoreSucceeds jsonUnmarshal k before name ∧
      ∃ item object, k.getItem before name = .ok item
        ∧ (item.Object.Unstructured jsonUnmarshal).1 = .ok object
        ∧ restoreItem jsonUnmarshal k before name =
            [.getItem name,
              .createObject item.Object.GroupVersionResource item.Object.Namespace object,
              .deleteItem name]
        ∧ handleRestore jsonUnmarshal k before name =
            (200, [.getItem name,
              .createObject item.Object.GroupVersionResource item.Object.Namespace object,
              .deleteItem name]))
    ∨ (¬ restoreSucceeds jsonUnmarshal k before name ∧
      ((restoreItem jsonUnmarshal k before name = [.getItem name]
          ∧ (handleRestore jsonUnmarshal k before name).2 = [.getItem name])
        ∨ ∃ item object, k.getItem before name = .ok item
            ∧ (item.Object.Unstructured jsonUnmarshal).1 = .ok object
            ∧ restoreItem jsonUnmarshal k before name =
                [.getItem name,
                  .createObject item.Object.GroupVersionResource item.Object.Namespace object]
            ∧ (handleRestore jsonUnmarshal k before name).2 =
                [.getItem name,
                  .createObject item.Object.GroupVersionResource item.Object.Namespace object])) := by
  cases hget : k.getItem before name with
  | error err =>
    refine Or.inr ⟨?_, Or.inl ⟨by simp [restoreItem, hget], by simp [handleRestore, hget]⟩⟩
    rintro ⟨item, object, h, -⟩
    rw [hget] at h
    exact absurd h (by simp)
  | ok item =>
    cases hdec : (item.Object.Unstructured jsonUnmarshal).1 with
    | error err =>
      refine Or.inr ⟨?_, Or.inl ⟨by simp [restoreItem, hget, hdec],
        by simp [handleRestore, hget, hdec]⟩⟩
      rintro ⟨item', object, h, h', -⟩
      rw [hget] at h
      simp only [Except.ok.injEq] at h
      subst h
      rw [hdec] at h'
      exact absurd h' (by simp)
    | ok object =>
      cases hcr : k.createObject (before ++ [.getItem name]) item.Object.GroupVersionResource
          item.Object.Namespace object with
      | some err =>
        refine Or.inr ⟨?_, Or.inr ⟨item, object, rfl, hdec, by simp [restoreItem, hget, hdec, hcr],
          by simp [handleRestore, hget, hdec, hcr]⟩⟩
        rintro ⟨item', object', h, h', h''⟩
        rw [hget] at h
        simp only [Except.ok.injEq] at h
        subst h
        rw [hdec] at h'
        simp only [Except.ok.injEq] at h'
        subst h'
        rw [hcr] at h''
        exact absurd h'' (by simp)
      | none =>
        exact Or.inl ⟨⟨item, object, hget, hdec, hcr⟩, item, object, rfl, hdec,
          by simp [restoreItem, hget, hdec, hcr], by simp [handleRestore, hget, hdec, hcr]⟩

theorem runRestoreLoop_append (jsonUnmarshal : List Nat → Except Err JSONObject)
    (k : RestoreCluster) (calls : List RestoreCall) (args1 args2 : List GoString) :
    runRestoreLoop jsonUnmarshal k calls (args1 ++ args2)
      = runRestoreLoop jsonUnmarshal k (runRestoreLoop jsonUnmarshal k calls args1) args2 := by
  induction args1 generalizing calls with
  | nil => rfl
  | cons n rest ih => exact ih _

theorem runRestoreLoop_extends (jsonUnmarshal : List Nat → Except Err JSONObject)
    (k : RestoreCluster) (calls : List RestoreCall) (args : List GoString) :
    ∃ later, runRestoreLoop jsonUnmarshal k calls args = calls ++ later := by
  induction args generalizing calls with
  | nil => exact ⟨[], by simp [runRestoreLoop]⟩
  | cons n rest ih =>
    obtain ⟨later, h⟩ := ih (calls ++ restoreItem jsonUnmarshal k calls n)
    exact ⟨restoreItem jsonUnmarshal k calls n ++ later, by
      rw [runRestoreLoop, h, List.append_assoc]⟩

/-- Every call of the loop of `runRestore` that was not made before the loop is
a call of the loop body for one of the arguments, made after the calls of the
loop for the arguments before it. -/
theorem runRestoreLoop_split (jsonUnmarshal : List Nat → Except Err JSONObject)
    (k : RestoreCluster) (args : List GoString) (calls pre : List RestoreCall) (x : RestoreCall)
    (post : List RestoreCall)
    (h : runRestoreLoop jsonUnmarshal k calls args = pre ++ x :: post) :
    (∃ post', calls = pre ++ x :: post')
    ∨ ∃ argsPre n argsPost segPre segPost, args = argsPre ++ n :: argsPost
        ∧ restoreItem jsonUnmarshal k (runRestoreLoop jsonUnmarshal k calls argsPre) n
            = segPre ++ x :: segPost
        ∧ pre = runRestoreLoop jsonUnmarshal k calls argsPre ++ segPre := by
  induction args generalizing calls with
  | nil => exact Or.inl ⟨post, h⟩
  | cons n rest ih =>
    rw [runRestoreLoop] at h
    rcases ih _ h with ⟨post', h'⟩ | ⟨argsPre, m, argsPost, segPre, segPost, h1, h2, h3⟩
    · rcases List.append_eq_append_iff.mp h' with ⟨a', ha, hs⟩ | ⟨c', hc, hs⟩
      · exact Or.inr ⟨[], n, rest, a', post', rfl, hs, ha⟩
      · cases c' with
        | nil =>
          exact Or.inr ⟨[], n, rest, [], post', rfl, by simpa using hs.symm, by simpa using hc.symm⟩
        | cons y c'' =>
          simp only [List.cons_append, List.cons.injEq] at hs
          exact Or.inl ⟨c'', by rw [hc, hs.1]⟩
    · exact Or.inr ⟨n :: argsPre, m, argsPost, segPre, segPost, by rw [h1]; rfl, h2, h3⟩

/-- A Delete among the calls of the loop body is the Delete of its record, made
right after the Get and the Create, which both succeeded, as did the decoding. -/
theorem restoreItem_delete (jsonUnmarshal : List Nat → Except Err JSONObject)
    (k : RestoreCluster) (before : List RestoreCall) (name n : GoString)
    (segPre segPost : List RestoreCall)
    (h : restoreItem jsonUnmarshal k before name = segPre ++ .deleteItem n :: segPost) :
    n = name ∧ ∃ item object,
      segPre = [.getItem name,
        .createObject item.Object.GroupVersionResource item.Object.Namespace object]
      ∧ k.getItem before name = .ok item
      ∧ (item.Object.Unstructured jsonUnmarshal).1 = .ok object
      ∧ k.createObject (before ++ [.getItem name]) item.Object.GroupVersionResource
          item.Object.Namespace object = none := by
  unfold restoreItem at h
  cases hget : k.getItem before name with
  | error err =>
    rw [hget] at h
    rcases segPre with _ | ⟨a, _ | ⟨b, s⟩⟩ <;> simp at h
  | ok item =>
    rw [hget] at h
    simp only [] at h
    cases hdec : (item.Object.Unstructured jsonUnmarshal).1 with
    | error err =>
      rw [hdec] at h
      rcases segPre with _ | ⟨a, _ | ⟨b, s⟩⟩ <;> simp at h
    | ok object =>
      rw [hdec] at h
      simp only [] at h
      cases hcr : k.createObject (before ++ [.getItem name]) item.Object.GroupVersionResource
          item.Object.Namespace object with
      | some err =>
        rw [hcr] at h
        rcases segPre with _ | ⟨a, _ | ⟨b, _ | ⟨c, s⟩⟩⟩ <;> simp at h
      | none =>
        rw [hcr] at h
        rcases segPre with _ | ⟨a, _ | ⟨b, _ | ⟨c, _ | ⟨e, s⟩⟩⟩⟩ <;> simp at h
        obtain ⟨rfl, rfl, rfl, -⟩ := h
        exact ⟨rfl, item, object, rfl, rfl, hdec, hcr⟩

/-- A Create among the calls of the loop body follows the Get of the record and
is submitted at the record's stored group, version, resource and namespace,
with the decoded payload. -/
theorem restoreItem_create (jsonUnmarshal : List Nat → Except Err JSONObject)
    (k : RestoreCluster) (before : List RestoreCall) (name : GoString)
    (gvr : GroupVersionResource) (ns : GoString) (object : JSONObject)
    (segPre segPost : List RestoreCall)
    (h : restoreItem jsonUnmarshal k before name = segPre ++ .createObject gvr ns object :: segPost) :
    ∃ item, segPre = [.getItem name] ∧ k.getItem before name = .ok item
      ∧ gvr = item.Object.GroupVersionResource ∧ ns = item.Object.Namespace
      ∧ (item.Object.Unstructured jsonUnmarshal).1 = .ok object := by
  unfold restoreItem at h
  cases hget : k.getItem before name with
  | error err =>
    rw [hget] at h
    rcases segPre with _ | ⟨a, _ | ⟨b, s⟩⟩ <;> simp at h
  | ok item =>
    rw [hget] at h
    simp only [] at h
    cases hdec : (item.Object.Unstructured jsonUnmarshal).1 with
    | error err =>
      rw [hdec] at h
      rcases segPre with _ | ⟨a, _ | ⟨b, s⟩⟩ <;> simp at h
    | ok object' =>
      rw [hdec] at h
      simp only [] at h
      cases hcr : k.createObject (before ++ [.getItem name]) item.Object.GroupVersionResource
          item.Object.Namespace object' with
      | some err =>
        rw [hcr] at h
        rcases segPre with _ | ⟨a, _ | ⟨b, _ | ⟨c, s⟩⟩⟩ <;> simp at h
        obtain ⟨rfl, ⟨rfl, rfl, rfl⟩, -⟩ := h
        exact ⟨item, rfl, rfl, rfl, rfl, hdec⟩
      | none =>
        rw [hcr] at h
        rcases segPre with _ | ⟨a, _ | ⟨b, _ | ⟨c, _ | ⟨e, s⟩⟩⟩⟩ <;> simp at h
        obtain ⟨rfl, ⟨rfl, rfl, rfl⟩, -⟩ := h
        exact ⟨item, rfl, rfl, rfl, rfl, hdec⟩

theorem restoreItem_of_succeeds (jsonUnmarshal : List Nat → Except Err JSONObject)
    (k : RestoreCluster) (before : List RestoreCall) (name : GoString) (item : RecycleItem)
    (object : JSONObject) (hget : k.getItem before name = .ok item)
    (hdec : (item.Object.Unstructured jsonUnmarshal).1 = .ok object)
    (hcr : k.createObject (before ++ [.getItem name]) item.Object.GroupVersionResource
      item.Object.Namespace object = none) :
    restoreItem jsonUnmarshal k before name =
      [.getItem name, .createObject item.Object.GroupVersionResource item.Object.Namespace object,
        .deleteItem name] := by
  simp [restoreItem, hget, hdec, hcr]

theorem runRestore_getD (jsonUnmarshal : List Nat → Except Err JSONObject) (k : RestoreCluster)
    (args : List GoString) :
    (runRestore jsonUnmarshal k args).getD [] = runRestoreLoop jsonUnmarshal k [] args := by
  cases args with
  | nil => rfl
  | cons n rest => simp [runRestore]

theorem runRestore_some (jsonUnmarshal : List Nat → Except Err JSONObject) (k : RestoreCluster)
    (args : List GoString) (calls : List RestoreCall)
    (h : runRestore jsonUnmarshal k args = some calls) :
    args ≠ [] ∧ calls = runRestoreLoop jsonUnmarshal k [] args := by
  cases args with
  | nil => simp [runRestore] at h
  | cons n rest =>
    simp only [runRestore, List.length_cons, Nat.add_one_ne_zero, if_false, Option.some.injEq] at h
    exact ⟨by simp, h.symm⟩

/-- C21: `runRestore` returns for every non-empty argument list. In its run,
every Delete of a record comes right after the Get of that record and the Create
of the decoded object at the record's stored group, version, resource and
namespace, where the Get, the decoding and the Create all succeeded, and the
record is one of the arguments; every Create comes right after the Get of an
argument's record and is submitted at that record's stored coordinates with the
decoded payload; and for every argument whose Get, decoding and Create succeed
after the calls made for the arguments before it, the Get, the Create and the
Delete of the record follow those calls. In `handleRestore`, and in the loop
body of `runRestore` alone, the Delete is among the calls made if and only if
the three steps succeeded, and every Create is submitted at the fetched
record's stored coordinates with the decoded payload. -/
theorem C21_delete_only_after_recreation (jsonUnmarshal : List Nat → Except Err JSONObject)
    (k : RestoreCluster) (before : List RestoreCall) (name : GoString) :
    (∀ args, args ≠ [] → ∃ calls, runRestore jsonUnmarshal k args = some calls)
    ∧ (∀ args calls, runRestore jsonUnmarshal k args = some calls →
        (∀ pre post n, calls = pre ++ .deleteItem n :: post →
          n ∈ args ∧ ∃ front item object,
            pre = front ++ [.getItem n,
              .createObject item.Object.GroupVersionResource item.Object.Namespace object]
            ∧ k.getItem front n = .ok item
            ∧ (item.Object.Unstructured jsonUnmarshal).1 = .ok object
            ∧ k.createObject (front ++ [.getItem n]) item.Object.GroupVersionResource
                item.Object.Namespace object = none)
        ∧ (∀ pre post gvr ns object, calls = pre ++ .createObject gvr ns object :: post →
            ∃ front n item, n ∈ args ∧ pre = front ++ [.getItem n]
              ∧ k.getItem front n = .ok item
              ∧ gvr = item.Object.GroupVersionResource ∧ ns = item.Object.Namespace
              ∧ (item.Object.Unstructured jsonUnmarshal).1 = .ok object)
        ∧ (∀ argsPre n argsPost item object, args = argsPre ++ n :: argsPost →
            k.getItem ((runRestore jsonUnmarshal k argsPre).getD []) n = .ok item →
            (item.Object.Unstructured jsonUnmarshal).1 = .ok object →
            k.createObject ((runRestore jsonUnmarshal k argsPre).getD [] ++ [.getItem n])
                item.Object.GroupVersionResource item.Object.Namespace object = none →
            ∃ later, calls = (runRestore jsonUnmarshal k argsPre).getD []
              ++ [.getItem n,
                  .createObject item.Object.GroupVersionResource item.Object.Namespace object,
                  .deleteItem n]
              ++ later))
    ∧ (.deleteItem name ∈ (handleRestore jsonUnmarshal k before name).2
      ↔ restoreSucceeds jsonUnmarshal k before name)
    ∧ (.deleteItem name ∈ restoreItem jsonUnmarshal k before name
      ↔ restoreSucceeds jsonUnmarshal k before name)
    ∧ (∀ gvr ns object,
        (.createObject gvr ns object ∈ restoreItem jsonUnmarshal k before name
          ∨ .createObject gvr ns object ∈ (handleRestore jsonUnmarshal k before name).2) →
        ∃ item, k.getItem before name = .ok item ∧ gvr = item.Object.GroupVersionResource
          ∧ ns = item.Object.Namespace
          ∧ (item.Object.Unstructured jsonUnmarshal).1 = .ok object) := by
  refine ⟨?_, ?_, ?_⟩
  · intro args hargs
    cases args with
    | nil => exact absurd rfl hargs
    | cons n rest => exact ⟨runRestoreLoop jsonUnmarshal k [] (n :: rest), by simp [runRestore]⟩
  · intro args calls hrun
    obtain ⟨-, hcalls⟩ := runRestore_some jsonUnmarshal k args calls hrun
    refine ⟨?_, ?_, ?_⟩
    · intro pre post n h
      rw [hcalls] at h
      rcases runRestoreLoop_split jsonUnmarshal k args [] pre _ post h with
        ⟨post', h'⟩ | ⟨argsPre, m, argsPost, segPre, segPost, h1, h2, h3⟩
      · exact absurd h' (by simp)
      · obtain ⟨rfl, item, object, hseg, hget, hdec, hcr⟩ :=
          restoreItem_delete jsonUnmarshal k _ m n segPre segPost h2
        exact ⟨by rw [h1]; simp, _, item, object, by rw [h3, hseg], hget, hdec, hcr⟩
    · intro pre post gvr ns object h
      rw [hcalls] at h
      rcases runRestoreLoop_split jsonUnmarshal k args [] pre _ post h with
        ⟨post', h'⟩ | ⟨argsPre, m, argsPost, segPre, segPost, h1, h2, h3⟩
      · exact absurd h' (by simp)
      · obtain ⟨item, hseg, hget, hgvr, hns, hdec⟩ :=
          restoreItem_create jsonUnmarshal k _ m gvr ns object segPre segPost h2
        exact ⟨_, m, item, by rw [h1]; simp, by rw [h3, hseg], hget, hgvr, hns, hdec⟩
    · intro argsPre n argsPost item object hargs hget hdec hcr
      rw [runRestore_getD] at hget hcr ⊢
      obtain ⟨later, hlater⟩ := runRestoreLoop_extends jsonUnmarshal k
        (runRestoreLoop jsonUnmarshal k [] argsPre
          ++ restoreItem jsonUnmarshal k (runRestoreLoop jsonUnmarshal k [] argsPre) n) argsPost
      refine ⟨later, ?_⟩
      rw [hcalls, hargs, runRestoreLoop_append, runRestoreLoop, hlater,
        restoreItem_of_succeeds jsonUnmarshal k _ n item object hget hdec hcr]
  · rcases restoreItem_cases jsonUnmarshal k before name with
      ⟨hs, item, object, hget, hdec, h1, h2⟩ | ⟨hs, ⟨h1, h2⟩ | ⟨item, object, hget, hdec, h1, h2⟩⟩
    · refine ⟨by simp [h2, hs], by simp [h1, hs], ?_⟩
      intro gvr ns o hmem
      rw [h1, h2] at hmem
      simp only [List.mem_cons, List.mem_singleton, RestoreCall.createObject.injEq, or_self,
        List.not_mem_nil, or_false, false_or, reduceCtorEq] at hmem
      obtain ⟨rfl, rfl, rfl⟩ := hmem
      exact ⟨item, hget, rfl, rfl, hdec⟩
    · refine ⟨by simp [h2, hs], by simp [h1, hs], ?_⟩
      intro gvr ns o hmem
      rw [h1, h2] at hmem
      simp at hmem
    · refine ⟨by simp [h2, hs], by simp [h1, hs], ?_⟩
      intro gvr ns o hmem
      rw [h1, h2] at hmem
      simp only [List.mem_cons, List.mem_singleton, RestoreCall.createObject.injEq, or_self,
        List.not_mem_nil, or_false, false_or, reduceCtorEq] at hmem
      obtain ⟨rfl, rfl, rfl⟩ := hmem
      exact ⟨item, hget, rfl, rfl, hdec⟩

/-- C21 on `krb-cli restore nginx-bcdfghjk gone` against a cluster that holds
the first record only and accepts the Create: the run makes the Get, the Create
and the Delete of the first record and the Get of the second, and the Delete is
the one that follows the successful Get and Create. -/
theorem C21_delete_only_after_recreation_witness :
    runRestore demoUnmarshal restorableCluster [ascii "nginx-bcdfghjk", ascii "gone"]
      = some [.getItem (ascii "nginx-bcdfghjk"),
          .createObject nginxInDev.GroupVersionResource nginxInDev.Namespace
            (RemoveNestedField nginxPayload [ascii "metadata"] (ascii "resourceVersion")),
          .deleteItem (ascii "nginx-bcdfghjk"),
          .getItem (ascii "gone")]
    ∧ ascii "nginx-bcdfghjk" ∈ [ascii "nginx-bcdfghjk", ascii "gone"]
    ∧ ∃ front item object,
        [RestoreCall.getItem (ascii "nginx-bcdfghjk"),
          .createObject nginxInDev.GroupVersionResource nginxInDev.Namespace
            (RemoveNestedField nginxPayload [ascii "metadata"] (ascii "resourceVersion"))]
          = front ++ [.getItem (ascii "nginx-bcdfghjk"),
              .createObject item.Object.GroupVersionResource item.Object.Namespace object]
        ∧ restorableCluster.getItem front (ascii "nginx-bcdfghjk") = .ok item
        ∧ (item.Object.Unstructured demoUnmarshal).1 = .ok object
        ∧ restorableCluster.createObject (front ++ [.getItem (ascii "nginx-bcdfghjk")])
            item.Object.GroupVersionResource item.Object.Namespace object = none :=
  ⟨rfl,
    ((C21_delete_only_after_recreation demoUnmarshal restorableCluster [] (ascii "nginx-bcdfghjk")).2.1
      [ascii "nginx-bcdfghjk", ascii "gone"] _ rfl).1
      [.getItem (ascii "nginx-bcdfghjk"),
        .createObject nginxInDev.GroupVersionResource nginxInDev.Namespace
          (RemoveNestedField nginxPayload [ascii "metadata"] (ascii "resourceVersion"))]
      [.getItem (ascii "gone")] (ascii "nginx-bcdfghjk") rfl⟩

/-- C22 fails on the code: when the first reference resolves and the Create of
its policy fails, `runRecycle` ends the process through `tlog.Panicf` after
that one Create, whatever arguments remain: it has taken up one argument and
made one Create call. -/
theorem C22_recycle_create_failure_exits (d : Discovery) (store : PolicyStore)
    (targetNamespaces : Nat → List GoString) (suffix : Nat → GoString)
    (resource : GoString) (rest : List GoString) (gvr : GroupVersionResource) (err : Err)
    (hresolve : GetPreferredGroupVersionResourceFor d resource = .ok gvr)
    (hcreate : store.Create [] (NewRecyclePolicy gvr (targetNamespaces 0) (suffix 0)) = some err) :
    runRecycle d store targetNamespaces suffix (resource :: rest) =
      ⟨[(NewRecyclePolicy gvr (targetNamespaces 0) (suffix 0), some err)], 1, true⟩ := by
  simp [runRecycle, runRecycleLoop, hresolve, hcreate]

/-- C22 on `krb-cli recycle deployments pods` against a store that refuses the
Create: the process exits after `deployments`, and `pods` is never taken up. -/
theorem C22_recycle_create_failure_exits_witness :
    runRecycle preferredDiscovery refusingPolicyStore (fun _ => []) (fun _ => ascii "bcdfghjk")
        (ascii "deployments" :: [ascii "pods"]) =
      ⟨[(NewRecyclePolicy ⟨ascii "extensions", ascii "v1beta1", ascii "deployments"⟩ []
          (ascii "bcdfghjk"), some (.other 403))], 1, true⟩ :=
  C22_recycle_create_failure_exits preferredDiscovery refusingPolicyStore (fun _ => [])
    (fun _ => ascii "bcdfghjk") (ascii "deployments") [ascii "pods"]
    ⟨ascii "extensions", ascii "v1beta1", ascii "deployments"⟩ (.other 403) (by decide) rfl

/-! ## The sanitizers on ASCII strings -/

theorem decodeRune_ascii (b : Nat) (tl : GoString) (h : b < 0x80) : decodeRune b tl = (b, 1) := by
  simp [decodeRune, h]

theorem runes_ascii (s : GoString) (h : ∀ b ∈ s, b < 0x80) : runes s = s := by
  unfold runes
  induction s with
  | nil => rfl
  | cons b tl ih =>
    have hb := h b (List.mem_cons_self _ _)
    rw [runesAux, decodeRune_ascii b tl hb]
    simp only [Nat.sub_self]
    rw [ih fun x hx => h x (List.mem_cons_of_mem _ hx)]

theorem encodeRune_ascii (r : Nat) (h : r < 0x80) : encodeRune r = [r] := by
  simp [encodeRune, h]

theorem toLower_ascii (U : UnicodeTables) (c : Nat) (h : c < 0x80) :
    toLower U c < 0x80 ∧ ¬ (0x41 ≤ toLower U c ∧ toLower U c ≤ 0x5A) := by
  have hc : c ≤ 0xFF := by omega
  unfold toLower
  rw [if_pos hc]
  split
  · rename_i hup
    simp only [Bool.or_eq_true, Bool.and_eq_true, decide_eq_true_eq] at hup
    omega
  · rename_i hup
    simp only [Bool.or_eq_true, Bool.and_eq_true, decide_eq_true_eq, not_or, not_and] at hup
    omega

/-- The lower-cased form of an ASCII string is ASCII and has no upper-case letter. -/
theorem mem_stringsToLower_ascii (U : UnicodeTables) (x : GoString) (h : ∀ b ∈ x, b < 0x80)
    (b : Nat) (hb : b ∈ stringsToLower U x) : b < 0x80 ∧ ¬ (0x41 ≤ b ∧ b ≤ 0x5A) := by
  unfold stringsToLower at hb
  rw [runes_ascii x h, List.mem_flatMap] at hb
  obtain ⟨c, hc, hbc⟩ := hb
  have := toLower_ascii U c (h c hc)
  rw [encodeRune_ascii _ this.1, List.mem_singleton] at hbc
  rw [hbc]
  exact this

theorem isLetter_ascii (U : UnicodeTables) (r : Nat) (h : r < 0x80) :
    isLetter U r = isLetterLatin1 r := by
  have : r ≤ 0xFF := by omega
  simp [isLetter, this]

theorem isDigit_ascii (U : UnicodeTables) (r : Nat) (h : r < 0x80) :
    isDigit U r = (decide (0x30 ≤ r) && decide (r ≤ 0x39)) := by
  have : r ≤ 0xFF := by omega
  simp [isDigit, this]

theorem nameByte_of_kept : ∀ r, r < 0x80 → ¬ (0x41 ≤ r ∧ r ≤ 0x5A) →
    (isLetterLatin1 r || (decide (0x30 ≤ r) && decide (r ≤ 0x39)) || r == 0x2D || r == 0x2E) = true →
    isNameByte r = true := by
  decide

theorem labelByte_of_kept : ∀ r, r < 0x80 →
    (isLetterLatin1 r || (decide (0x30 ≤ r) && decide (r ≤ 0x39)) || r == 0x2D || r == 0x5F
      || r == 0x2E) = true →
    isLabelByte r = true := by
  decide

/-- The first loop of `sanitizeResourceName` on a lower-cased ASCII string
writes only bytes of the name grammar. -/
theorem mem_replaceInvalidName_ascii (U : UnicodeTables) (s : GoString)
    (h : ∀ r ∈ s, r < 0x80 ∧ ¬ (0x41 ≤ r ∧ r ≤ 0x5A)) (b : Nat)
    (hb : b ∈ replaceInvalidName U s) : isNameByte b = true := by
  unfold replaceInvalidName at hb
  rw [runes_ascii s fun r hr => (h r hr).1, List.mem_flatMap] at hb
  obtain ⟨r, hr, hbr⟩ := hb
  have hr' := h r hr
  rw [isLetter_ascii U r hr'.1, isDigit_ascii U r hr'.1] at hbr
  split at hbr
  · rename_i hk
    rw [encodeRune_ascii r hr'.1, List.mem_singleton] at hbr
    rw [hbr]
    exact nameByte_of_kept r hr'.1 hr'.2 hk
  · rw [encodeRune_ascii 0x2D (by decide), List.mem_singleton] at hbr
    rw [hbr]
    decide

/-- The first loop of `sanitizeLabelValue` on an ASCII string writes only bytes
of the label-value grammar. -/
theorem mem_replaceInvalidLabel_ascii (U : UnicodeTables) (s : GoString)
    (h : ∀ r ∈ s, r < 0x80) (b : Nat) (hb : b ∈ replaceInvalidLabel U s) :
    isLabelByte b = true := by
  unfold replaceInvalidLabel at hb
  rw [runes_ascii s h, List.mem_flatMap] at hb
  obtain ⟨r, hr, hbr⟩ := hb
  have hr' := h r hr
  rw [isLetter_ascii U r hr', isDigit_ascii U r hr'] at hbr
  split at hbr
  · rename_i hk
    rw [encodeRune_ascii r hr', List.mem_singleton] at hbr
    rw [hbr]
    exact labelByte_of_kept r hr' hk
  · rw [encodeRune_ascii 0x2D (by decide), List.mem_singleton] at hbr
    rw [hbr]
    decide

theorem mem_replaceAll2 (a b : Nat) (new s : GoString) (x : Nat)
    (h : x ∈ replaceAll2 a b new s) : x ∈ s ∨ x ∈ new := by
  induction s using replaceAll2.induct a b new with
  | case1 y z rest hyz ih =>
    rw [replaceAll2, if_pos hyz, List.mem_append] at h
    rcases h with h | h
    · exact Or.inr h
    · rcases ih h with h | h
      · exact Or.inl (List.mem_cons_of_mem _ (List.mem_cons_of_mem _ h))
      · exact Or.inr h
  | case2 y z rest hyz ih =>
    rw [replaceAll2, if_neg hyz, List.mem_cons] at h
    rcases h with h | h
    · exact Or.inl (h ▸ List.mem_cons_self _ _)
    · rcases ih h with h | h
      · exact Or.inl (List.mem_cons_of_mem _ h)
      · exact Or.inr h
  | case3 s hs =>
    rw [replaceAll2.eq_2 _ _ _ _ hs] at h
    exact Or.inl h

theorem mem_replaceWhileContains (a b : Nat) (new : GoString) (fuel : Nat) (s out : GoString)
    (h : replaceWhileContains a b new fuel s = .ok out) (x : Nat) (hx : x ∈ out) :
    x ∈ s ∨ x ∈ new := by
  induction fuel generalizing s with
  | zero => simp [replaceWhileContains] at h
  | succ n ih =>
    rw [replaceWhileContains] at h
    split at h
    · rcases ih _ h with h' | h'
      · exact mem_replaceAll2 a b new s x h'
      · exact Or.inr h'
    · simp only [Except.ok.injEq] at h
      subst h
      exact Or.inl hx

theorem replaceWhileContains_not_contains (a b : Nat) (new : GoString) (fuel : Nat)
    (s out : GoString) (h : replaceWhileContains a b new fuel s = .ok out) :
    contains2 a b out = false := by
  induction fuel generalizing s with
  | zero => simp [replaceWhileContains] at h
  | succ n ih =>
    rw [replaceWhileContains] at h
    split at h
    · exact ih _ h
    · rename_i hc
      simp only [Except.ok.injEq] at h
      subst h
      simpa using hc

/-- The separator collapsing of `sanitizeResourceName` writes no byte that it
did not read, apart from `-` and `.`. -/
theorem mem_collapseName (s out : GoString) (h : collapseName s = .ok out) (x : Nat)
    (hx : x ∈ out) : x ∈ s ∨ x = 0x2D ∨ x = 0x2E := by
  unfold collapseName at h
  simp only [bind, Except.bind] at h
  split at h
  · simp at h
  · rename_i o1 h1
    split at h
    · simp at h
    · rename_i o2 h2
      have m3 := mem_replaceWhileContains _ _ _ _ _ _ h x hx
      have e1 : ∀ y, y ∈ ascii "-" → y = 0x2D := fun y hy => by simpa [ascii] using hy
      have e2 : ∀ y, y ∈ ascii "." → y = 0x2E := fun y hy => by simpa [ascii] using hy
      rcases m3 with m3 | m3
      · rcases mem_replaceWhileContains _ _ _ _ _ _ h2 x m3 with m2 | m2
        · rcases mem_replaceWhileContains _ _ _ _ _ _ h1 x m2 with m1 | m1
          · rcases mem_replaceAll2 _ _ _ _ x m1 with m0 | m0
            · exact Or.inl m0
            · exact Or.inr (Or.inr (e2 x m0))
          · exact Or.inr (Or.inl (e1 x m1))
        · exact Or.inr (Or.inl (e1 x m2))
      · exact Or.inr (Or.inl (e1 x m3))

theorem contains2_iff_occurs (a b : Nat) (s : GoString) :
    contains2 a b s = true ↔ [a, b] <:+: s := by
  induction s using contains2.induct a b with
  | case1 x y rest ih =>
    rw [contains2, Bool.or_eq_true, ih]
    constructor
    · rintro (h | h)
      · simp only [Bool.and_eq_true, beq_iff_eq] at h
        exact ⟨[], rest, by simp [h.1, h.2]⟩
      · obtain ⟨l1, l2, e⟩ := h
        exact ⟨x :: l1, l2, by simp [← e]⟩
    · rintro ⟨l1, l2, e⟩
      cases l1 with
      | nil =>
        left
        simp only [List.nil_append, List.cons_append, List.cons.injEq] at e
        simp [e.1, e.2.1]
      | cons z l1 =>
        right
        simp only [List.cons_append, List.cons.injEq] at e
        exact ⟨l1, l2, by simpa using e.2⟩
  | case2 s hs =>
    rw [contains2.eq_2 _ _ _ hs]
    simp only [Bool.false_eq_true, false_iff]
    rintro ⟨l1, l2, e⟩
    cases l1 with
    | nil => exact hs a b l2 (by simpa using e.symm)
    | cons z l1 =>
      cases l1 with
      | nil => exact hs z a (b :: l2) (by simpa using e.symm)
      | cons w l1 =>
        exact hs z w (l1 ++ [a, b] ++ l2) (by simpa using e.symm)

theorem contains2_false_of_inside (a b : Nat) (s t : GoString) (h : t <:+: s)
    (hs : contains2 a b s = false) : contains2 a b t = false := by
  rw [Bool.eq_false_iff] at hs ⊢
  intro ht
  exact hs ((contains2_iff_occurs a b s).mpr (((contains2_iff_occurs a b t).mp ht).trans h))

theorem contains2_append_singleton (a b x : Nat) (t : GoString) (hx : x ≠ b)
    (ht : contains2 a b t = false) : contains2 a b (t ++ [x]) = false := by
  rw [Bool.eq_false_iff] at ht ⊢
  intro h
  apply ht
  rw [contains2_iff_occurs] at h ⊢
  obtain ⟨l1, l2, e⟩ := h
  rcases List.eq_nil_or_concat l2 with rfl | ⟨l2', z, rfl⟩
  · have e' : (l1 ++ [a]) ++ [b] = t ++ [x] := by simpa using e
    have := List.append_inj_right' e' rfl
    simp only [List.cons.injEq, and_true] at this
    exact absurd this.symm hx
  · have e' : (l1 ++ [a, b] ++ l2') ++ [z] = t ++ [x] := by simpa using e
    have := List.append_inj_left' e' rfl
    exact ⟨l1, l2', this⟩

theorem stringsTrim_eq (cutset s : GoString) :
    stringsTrim cutset s
      = List.rdropWhile (fun b => decide (b ∈ cutset)) (s.dropWhile fun b => decide (b ∈ cutset)) :=
  rfl

theorem stringsTrim_inside (cutset s : GoString) : stringsTrim cutset s <:+: s := by
  rw [stringsTrim_eq]
  exact (List.rdropWhile_prefix _ _).isInfix.trans (List.dropWhile_suffix _).isInfix

theorem headD_eq_head (t : GoString) (h : t ≠ []) : t.headD 0 = t.head h := by
  cases t with
  | nil => exact absurd rfl h
  | cons b t => rfl

theorem getLastD_eq_getLast (t : GoString) (h : t ≠ []) : t.getLastD 0 = t.getLast h := by
  rw [List.getLastD_eq_getLast?, List.getLast?_eq_getLast _ h]
  rfl

/-- A trimmed string that is not empty starts and ends outside the cutset. -/
theorem stringsTrim_ends (cutset s : GoString) (h : stringsTrim cutset s ≠ []) :
    (stringsTrim cutset s).headD 0 ∉ cutset ∧ (stringsTrim cutset s).getLastD 0 ∉ cutset := by
  constructor
  · rw [headD_eq_head _ h]
    have hp : stringsTrim cutset s <+: s.dropWhile fun b => decide (b ∈ cutset) := by
      rw [stringsTrim_eq]; exact List.rdropWhile_prefix _ _
    rw [hp.head h]
    have := List.head_dropWhile_not (fun b => decide (b ∈ cutset)) s (hp.ne_nil h)
    simpa using this
  · rw [getLastD_eq_getLast _ h]
    have h' : List.rdropWhile (fun b => decide (b ∈ cutset))
        (s.dropWhile fun b => decide (b ∈ cutset)) ≠ [] := by
      rw [← stringsTrim_eq]; exact h
    have := List.rdropWhile_last_not (fun b => decide (b ∈ cutset))
      (s.dropWhile fun b => decide (b ∈ cutset)) h'
    simpa [stringsTrim_eq] using this

theorem headD_of_initial (t s : GoString) (h : t <+: s) (ht : t ≠ []) : t.headD 0 = s.headD 0 := by
  obtain ⟨r, rfl⟩ := h
  cases t with
  | nil => exact absurd rfl ht
  | cons b t => rfl

theorem headD_append (t r : GoString) (ht : t ≠ []) : (t ++ r).headD 0 = t.headD 0 :=
  (headD_of_initial t (t ++ r) (List.prefix_append t r) ht).symm

theorem getLastD_append_singleton (t : GoString) (x : Nat) : (t ++ [x]).getLastD 0 = x := by
  simp [List.getLastD_eq_getLast?]

/-- Padding leaves a string alone when it already starts and ends with a letter
or a digit. -/
theorem padEnds_eq_self (s : GoString) (h1 : notAlnum (s.headD 0) = false)
    (h2 : notAlnum (s.getLastD 0) = false) : padEnds s = s := by
  simp only [padEnds, h1, h2, Bool.false_eq_true, if_false]

theorem take_ne_nil (limit : Nat) (hl : 0 < limit) (s : GoString) (hs : s ≠ []) :
    s.take limit ≠ [] := by
  cases s with
  | nil => exact absurd rfl hs
  | cons b t =>
    cases limit with
    | zero => omega
    | succ n => simp

/-- The truncation keeps a string inside a byte set that holds `x`, keeps its
first byte, and ends it with a letter or a digit. -/
theorem truncateFix_grammar (good alnum : Nat → Bool) (limit : Nat) (hl : 2 ≤ limit)
    (hx : good 0x78 = true) (hax : alnum 0x78 = true)
    (hga : ∀ b, good b = true → notAlnum b = false → alnum b = true)
    (s : GoString) (hs : s ≠ []) (hg : ∀ b ∈ s, good b = true)
    (hh : alnum (s.headD 0) = true) (hlast : alnum (s.getLastD 0) = true) :
    (∀ b ∈ truncateFix limit s, good b = true) ∧ alnum ((truncateFix limit s).headD 0) = true
      ∧ alnum ((truncateFix limit s).getLastD 0) = true := by
  unfold truncateFix
  have ex : ascii "x" = [0x78] := rfl
  by_cases hlen : s.length > limit
  · rw [if_pos hlen]
    have htake : s.take limit ≠ [] := take_ne_nil limit (by omega) s hs
    have hgt : ∀ b ∈ s.take limit, good b = true := fun b hb => hg b (List.mem_of_mem_take hb)
    have hht : (s.take limit).headD 0 = s.headD 0 :=
      headD_of_initial _ _ (List.take_prefix _ _) htake
    by_cases hn : notAlnum ((s.take limit).getLastD 0) = true
    · rw [if_pos hn, ex]
      have hdl : (s.take limit).dropLast ≠ [] := by
        intro hnil
        have := congrArg List.length hnil
        rw [List.length_dropLast, List.length_take, List.length_nil] at this
        omega
      refine ⟨?_, ?_, ?_⟩
      · intro b hb
        rw [List.mem_append, List.mem_singleton] at hb
        rcases hb with hb | hb
        · exact hgt b (List.mem_of_mem_dropLast hb)
        · rw [hb]; exact hx
      · rw [headD_append _ _ hdl, headD_of_initial _ _ (List.dropLast_prefix _) hdl, hht]
        exact hh
      · rw [getLastD_append_singleton]
        exact hax
    · rw [if_neg hn]
      refine ⟨hgt, hht ▸ hh, ?_⟩
      have hmem : (s.take limit).getLastD 0 ∈ s.take limit := by
        rw [getLastD_eq_getLast _ htake]
        exact List.getLast_mem htake
      exact hga _ (hgt _ hmem) (by simpa using hn)
  · rw [if_neg hlen]
    exact ⟨hg, hh, hlast⟩

theorem truncateFix_no_contains (a b limit : Nat) (hb : 0x78 ≠ b) (s : GoString)
    (h : contains2 a b s = false) : contains2 a b (truncateFix limit s) = false := by
  unfold truncateFix
  have ex : ascii "x" = [0x78] := rfl
  have ht : contains2 a b (s.take limit) = false :=
    contains2_false_of_inside a b s _ (List.take_prefix _ _).isInfix h
  split
  · split
    · rw [ex]
      exact contains2_append_singleton a b 0x78 _ hb
        (contains2_false_of_inside a b _ _ (List.dropLast_prefix _).isInfix ht)
    · exact ht
  · exact h

/-- The tail shared by both sanitizers, on a string of a byte set `good` that
holds `x` and the bytes of `unnamed`, and whose bytes outside the cutset are
letters or digits: the result is a non-empty string of at most `limit` bytes of
the set that starts and ends with a letter or a digit, and that has no `--` when
the string had none. -/
theorem padAndTruncate_grammar (good alnum : Nat → Bool) (cut : GoString) (limit : Nat)
    (hl : 7 ≤ limit) (hx : good 0x78 = true) (hax : alnum 0x78 = true)
    (hun : ∀ b ∈ ascii "unnamed", good b = true)
    (hu : alnum 0x75 = true) (hd : alnum 0x64 = true)
    (hga : ∀ b, good b = true → notAlnum b = false → alnum b = true)
    (hcut : ∀ b, good b = true → b ∉ cut → notAlnum b = false)
    (c : GoString) (hc : ∀ b ∈ c, good b = true) :
    ∃ out, padAndTruncate limit (stringsTrim cut c) = .ok out ∧ out ≠ [] ∧ out.length ≤ limit
      ∧ (∀ b ∈ out, good b = true) ∧ alnum (out.headD 0) = true ∧ alnum (out.getLastD 0) = true
      ∧ (contains2 0x2D 0x2D c = false → contains2 0x2D 0x2D out = false) := by
  by_cases ht : stringsTrim cut c = []
  · rw [ht, padAndTruncate_nil]
    exact ⟨_, rfl, by decide, by simpa [ascii] using hl, hun, hu, hd, fun _ => by decide⟩
  · have hgt : ∀ b ∈ stringsTrim cut c, good b = true :=
      fun b hb => hc b ((stringsTrim_inside cut c).subset hb)
    have hends := stringsTrim_ends cut c ht
    have hhead : (stringsTrim cut c).headD 0 ∈ stringsTrim cut c := by
      rw [headD_eq_head _ ht]; exact List.head_mem ht
    have hlast : (stringsTrim cut c).getLastD 0 ∈ stringsTrim cut c := by
      rw [getLastD_eq_getLast _ ht]; exact List.getLast_mem ht
    have n1 := hcut _ (hgt _ hhead) hends.1
    have n2 := hcut _ (hgt _ hlast) hends.2
    have hpad := padEnds_eq_self _ n1 n2
    have hspec := truncateFix_grammar good alnum limit (by omega) hx hax hga _ ht hgt
      (hga _ (hgt _ hhead) n1) (hga _ (hgt _ hlast) n2)
    refine ⟨_, padAndTruncate_eq limit (by omega) _ ht, ?_, ?_, ?_⟩
    · exact truncateFix_ne_nil limit (by omega) _ (padEnds_ne_nil _ ht)
    · exact truncateFix_length_le limit (by omega) _
    · rw [hpad]
      refine ⟨hspec.1, hspec.2.1, hspec.2.2, fun h => ?_⟩
      exact truncateFix_no_contains _ _ _ (by decide) _
        (contains2_false_of_inside _ _ _ _ (stringsTrim_inside cut c) h)

theorem isNameByte_lt (b : Nat) (h : isNameByte b = true) : b < 0x80 := by
  simp only [isNameByte, Bool.or_eq_true, Bool.and_eq_true, decide_eq_true_eq, beq_iff_eq] at h
  omega

theorem isLabelByte_lt (b : Nat) (h : isLabelByte b = true) : b < 0x80 := by
  simp only [isLabelByte, Bool.or_eq_true, Bool.and_eq_true, decide_eq_true_eq, beq_iff_eq] at h
  omega

theorem nameByte_facts : ∀ b, b < 0x80 → isNameByte b = true →
    (notAlnum b = false → isLowerAlnum b = true)
      ∧ (b ∉ [0x2D, 0x2E] → notAlnum b = false) := by
  decide

theorem labelByte_facts : ∀ b, b < 0x80 → isLabelByte b = true →
    (notAlnum b = false → isAsciiAlnum b = true)
      ∧ (b ∉ [0x2D, 0x5F, 0x2E] → notAlnum b = false) := by
  decide

/-- The grammar of `sanitizeResourceName` on ASCII input. -/
theorem sanitizeResourceName_ascii (U : UnicodeTables) (x : GoString) (h : ∀ b ∈ x, b < 0x80) :
    ∃ out, sanitizeResourceName U x = .ok out ∧ out ≠ [] ∧ out.length ≤ 253
      ∧ (∀ b ∈ out, isNameByte b = true)
      ∧ isLowerAlnum (out.headD 0) = true ∧ isLowerAlnum (out.getLastD 0) = true := by
  unfold sanitizeResourceName
  by_cases hx : x = []
  · exact ⟨ascii "unnamed", by simp [hx], by decide, by decide, by decide, by decide, by decide⟩
  · obtain ⟨c, hc⟩ := collapseName_total (replaceInvalidName U (stringsToLower U x))
    have hgc : ∀ b ∈ c, isNameByte b = true := by
      intro b hb
      rcases mem_collapseName _ _ hc b hb with hb | hb | hb
      · exact mem_replaceInvalidName_ascii U _ (mem_stringsToLower_ascii U x h) b hb
      · rw [hb]; decide
      · rw [hb]; decide
    have ecut : ascii "-." = [0x2D, 0x2E] := rfl
    obtain ⟨out, ho, h1, h2, h3, h4, h5, -⟩ :=
      padAndTruncate_grammar isNameByte isLowerAlnum (ascii "-.") 253 (by omega) (by decide)
        (by decide) (by decide) (by decide) (by decide)
        (fun b hb => (nameByte_facts b (isNameByte_lt b hb) hb).1)
        (fun b hb => ecut ▸ (nameByte_facts b (isNameByte_lt b hb) hb).2) c hgc
    exact ⟨out, by simp only [hx, if_false, bind, Except.bind, hc, ho], h1, h2, h3, h4, h5⟩

/-- The grammar of `sanitizeLabelValue` on ASCII input. -/
theorem sanitizeLabelValue_ascii (U : UnicodeTables) (x : GoString) (h : ∀ b ∈ x, b < 0x80) :
    ∃ out, sanitizeLabelValue U x = .ok out ∧ out ≠ [] ∧ out.length ≤ 63
      ∧ (∀ b ∈ out, isLabelByte b = true) ∧ contains2 0x2D 0x2D out = false
      ∧ isAsciiAlnum (out.headD 0) = true ∧ isAsciiAlnum (out.getLastD 0) = true := by
  unfold sanitizeLabelValue
  by_cases hx : x = []
  · exact ⟨ascii "unnamed", by simp [hx], by decide, by decide, by decide, by decide, by decide,
      by decide⟩
  · obtain ⟨c, hc, hnc, -⟩ := replaceWhileContains_total 0x2D 0x2D 0x2D
      ((replaceInvalidLabel U x).length + 1) (replaceInvalidLabel U x) (by omega)
    have hgc : ∀ b ∈ c, isLabelByte b = true := by
      intro b hb
      rcases mem_replaceWhileContains _ _ _ _ _ _ hc b hb with hb | hb
      · exact mem_replaceInvalidLabel_ascii U x h b hb
      · rw [List.mem_singleton] at hb
        rw [hb]; decide
    have ecut : ascii "-_." = [0x2D, 0x5F, 0x2E] := rfl
    have e : ascii "-" = [0x2D] := rfl
    obtain ⟨out, ho, h1, h2, h3, h4, h5, h6⟩ :=
      padAndTruncate_grammar isLabelByte isAsciiAlnum (ascii "-_.") 63 (by omega) (by decide)
        (by decide) (by decide) (by decide) (by decide)
        (fun b hb => (labelByte_facts b (isLabelByte_lt b hb) hb).1)
        (fun b hb => ecut ▸ (labelByte_facts b (isLabelByte_lt b hb) hb).2) c hgc
    exact ⟨out, by simp only [hx, if_false, e, bind, Except.bind, hc, ho], h1, h2, h3, h6 hnc,
      h4, h5⟩

/-- C29: for every input made only of ASCII bytes, `sanitizeResourceName` returns
a non-empty string of at most 253 bytes, all of them a-z, 0-9, `-` or `.`, that
starts and ends with a-z or 0-9; and `sanitizeLabelValue` returns a non-empty
string of at most 63 bytes, all of them a-z, A-Z, 0-9, `-`, `_` or `.`, that
contains no `--` and starts and ends with an ASCII letter or digit. -/
theorem C29_ascii_output_grammar (U : UnicodeTables) (x : GoString) (h : ∀ b ∈ x, b < 0x80) :
    (∃ out, sanitizeResourceName U x = .ok out ∧ out ≠ [] ∧ out.length ≤ 253
      ∧ (∀ b ∈ out, isNameByte b = true)
      ∧ isLowerAlnum (out.headD 0) = true ∧ isLowerAlnum (out.getLastD 0) = true)
    ∧ (∃ out, sanitizeLabelValue U x = .ok out ∧ out ≠ [] ∧ out.length ≤ 63
      ∧ (∀ b ∈ out, isLabelByte b = true) ∧ contains2 0x2D 0x2D out = false
      ∧ isAsciiAlnum (out.headD 0) = true ∧ isAsciiAlnum (out.getLastD 0) = true) :=
  ⟨sanitizeResourceName_ascii U x h, sanitizeLabelValue_ascii U x h⟩

/-- C29 at the ASCII input `My_App--v2!`. -/
theorem C29_ascii_output_grammar_witness :
    (∀ b ∈ ascii "My_App--v2!", b < 0x80)
    ∧ (∃ out, sanitizeResourceName latin1Only (ascii "My_App--v2!") = .ok out ∧ out ≠ []
      ∧ out.length ≤ 253 ∧ (∀ b ∈ out, isNameByte b = true)
      ∧ isLowerAlnum (out.headD 0) = true ∧ isLowerAlnum (out.getLastD 0) = true)
    ∧ (∃ out, sanitizeLabelValue latin1Only (ascii "My_App--v2!") = .ok out ∧ out ≠ []
      ∧ out.length ≤ 63 ∧ (∀ b ∈ out, isLabelByte b = true) ∧ contains2 0x2D 0x2D out = false
      ∧ isAsciiAlnum (out.headD 0) = true ∧ isAsciiAlnum (out.getLastD 0) = true) :=
  ⟨by decide, C29_ascii_output_grammar latin1Only (ascii "My_App--v2!") (by decide)⟩

end KubeRecycleBin
